import Mathlib

/-!
# Binary Autopsy (ROPfuscator): microgadget mining, classification, filtering, exchange graph

A shallow embedding of `BinAutopsy.cpp`.  The analysed binary and the two libraries the code
talks to (libbfd for sections, capstone for decoding) are inputs of the model, collected in
`Binary`; the members of `BinaryAutopsy` that the analysis writes are threaded explicitly.
Machine integers are natural numbers, reduced modulo `2 ^ 64` where the source can wrap.
-/

namespace ROPfuscator

/-! ## Disassembler data (capstone's `x86.h`, `capstone.h`) -/

/-- Register identifiers: capstone's `x86_reg` enumeration, as unsigned integers. -/
abbrev x86_reg := Nat

abbrev X86_REG_INVALID : x86_reg := 0
abbrev X86_REG_AH : x86_reg := 1
abbrev X86_REG_AL : x86_reg := 2
abbrev X86_REG_AX : x86_reg := 3
abbrev X86_REG_BH : x86_reg := 4
abbrev X86_REG_BL : x86_reg := 5
abbrev X86_REG_BP : x86_reg := 6
abbrev X86_REG_BX : x86_reg := 8
abbrev X86_REG_CH : x86_reg := 9
abbrev X86_REG_CL : x86_reg := 10
abbrev X86_REG_CX : x86_reg := 12
abbrev X86_REG_DH : x86_reg := 13
abbrev X86_REG_DI : x86_reg := 14
abbrev X86_REG_DL : x86_reg := 16
abbrev X86_REG_DX : x86_reg := 18
abbrev X86_REG_EAX : x86_reg := 19
abbrev X86_REG_EBP : x86_reg := 20
abbrev X86_REG_EBX : x86_reg := 21
abbrev X86_REG_ECX : x86_reg := 22
abbrev X86_REG_EDI : x86_reg := 23
abbrev X86_REG_EDX : x86_reg := 24
abbrev X86_REG_ESI : x86_reg := 29
abbrev X86_REG_ESP : x86_reg := 30
abbrev X86_REG_SI : x86_reg := 45
abbrev X86_REG_SP : x86_reg := 47

/-- Operand kinds: capstone's `x86_op_type`; `X86_OP_INVALID` is the value `0`. -/
inductive x86_op_type where
  | X86_OP_INVALID
  | X86_OP_REG
  | X86_OP_IMM
  | X86_OP_MEM
  | X86_OP_FP
deriving DecidableEq

export x86_op_type (X86_OP_INVALID X86_OP_REG X86_OP_IMM X86_OP_MEM X86_OP_FP)

/-- Instruction identifiers: the members of capstone's `x86_insn` that the source and the examples
below name, and `other n` for every remaining one. -/
inductive x86_insn where
  | X86_INS_INVALID
  | X86_INS_MOV
  | X86_INS_NOP
  | X86_INS_POP
  | X86_INS_PUSH
  | X86_INS_RET
  | X86_INS_XCHG
  | X86_INS_XOR
  | other (n : Nat)
deriving DecidableEq

export x86_insn (X86_INS_INVALID X86_INS_MOV X86_INS_NOP X86_INS_POP X86_INS_PUSH X86_INS_RET X86_INS_XCHG
  X86_INS_XOR)

/-- Memory operand: capstone's `x86_op_mem`. -/
structure x86_op_mem where
  segment : x86_reg
  base : x86_reg
  index : x86_reg
  scale : Int
  disp : Int
deriving DecidableEq

/-- Operand: capstone's `cs_x86_op`.  The members `reg`, `imm`, `mem` share storage in C; the
source reads each of them under a test of `type`, and the model keeps one field per member. -/
structure cs_x86_op where
  type : x86_op_type
  reg : x86_reg
  imm : Int
  mem : x86_op_mem
deriving DecidableEq

/-- The all-zero operand: what an unused entry of `operands[8]` holds, capstone clearing the
detail record before it fills it. -/
def cs_x86_op.zero : cs_x86_op :=
  { type := X86_OP_INVALID, reg := 0, imm := 0,
    mem := { segment := 0, base := 0, index := 0, scale := 0, disp := 0 } }

/-- Decoded instruction: capstone's `cs_insn`, with the fields of `detail->x86` that the source
reads (`op_count`, `operands`) inlined. -/
structure cs_insn where
  id : x86_insn
  address : Nat
  size : Nat
  mnemonic : String
  op_str : String
  op_count : Nat
  operands : List cs_x86_op
deriving DecidableEq

instance : Inhabited cs_insn :=
  ⟨{ id := X86_INS_INVALID, address := 0, size := 0, mnemonic := "", op_str := "",
     op_count := 0, operands := [] }⟩

/-! ## Data model of `BinAutopsy.h` -/

/-- Modelled from the spec: the enumeration `GadgetClass_t`, whose declaration is not in the
header at hand; the spec lists its six members. -/
inductive GadgetClass_t where
  | UNDEFINED
  | REG_INIT
  | REG_LOAD
  | REG_STORE
  | REG_XCHG
  | REG_RESET
deriving DecidableEq

export GadgetClass_t (UNDEFINED REG_INIT REG_LOAD REG_STORE REG_XCHG REG_RESET)

/-- Entry of the dynamic symbol table kept by the analysis.  `Label` and `Version` are C
strings; `SymVerDirective` is the pointer member that the constructor leaves unset (`none`)
and `getSymVerDirective` assigns. -/
structure Symbol where
  Label : String
  Version : String
  SymVerDirective : Option String
  Address : Nat
deriving DecidableEq

/-- Executable section: name, address and length as dumped from the ELF header. -/
structure Section where
  Label : String
  Address : Nat
  Length : Nat
deriving DecidableEq

/-- A microgadget: `Instr` is the array returned by the decoder (the source keeps the pointer),
`asmInstr` the mnemonic key, `Class` the member written by `analyseGadgets`. -/
structure Microgadget where
  Instr : List cs_insn
  asmInstr : String
  Class : GadgetClass_t
deriving DecidableEq

/-- Address of the gadget: `Instr[0].address`. -/
def Microgadget.getAddress (g : Microgadget) : Nat := (g.Instr.getD 0 default).address

/-- Opcode of the gadget: `Instr[0].id`. -/
def Microgadget.getID (g : Microgadget) : x86_insn := (g.Instr.getD 0 default).id

/-- Operand `i` of the gadget: `Instr[0].detail->x86.operands[i]`. -/
def Microgadget.getOp (g : Microgadget) (i : Nat) : cs_x86_op :=
  (g.Instr.getD 0 default).operands.getD i cs_x86_op.zero

/-- Number of operands of the gadget: `Instr[0].detail->x86.op_count`. -/
def Microgadget.getNumOp (g : Microgadget) : Nat := (g.Instr.getD 0 default).op_count

/-- Modelled from the spec: the class `XchgGraph`, whose source is not at hand.  The spec
describes an undirected graph over registers to which construction adds edges; the model
records the calls of `addEdge` in order. -/
structure XchgGraph where
  edges : List (x86_reg × x86_reg)
deriving DecidableEq

/-- Modelled from the spec: `XchgGraph::addEdge(Op0, Op1)` adds an edge between the two
registers. -/
def XchgGraph.addEdge (G : XchgGraph) (Op0 Op1 : x86_reg) : XchgGraph :=
  { edges := G.edges ++ [(Op0, Op1)] }

/-- The graph is undirected: there is an edge between `r1` and `r2` when `addEdge` was called
with the two registers in either order. -/
def XchgGraph.hasEdge (G : XchgGraph) (r1 r2 : x86_reg) : Prop :=
  (r1, r2) ∈ G.edges ∨ (r2, r1) ∈ G.edges

instance (G : XchgGraph) (r1 r2 : x86_reg) : Decidable (G.hasEdge r1 r2) := by
  unfold XchgGraph.hasEdge; exact inferInstance

/-- The members of `BinaryAutopsy` written by the analysis. -/
structure BinaryAutopsy where
  Symbols : List Symbol
  Sections : List Section
  Microgadgets : List Microgadget
  xgraph : XchgGraph

/-- The object as the constructor leaves it before `dissect` runs: all tables empty. -/
def BinaryAutopsy.fresh : BinaryAutopsy :=
  { Symbols := [], Sections := [], Microgadgets := [], xgraph := { edges := [] } }

/-! ## The analysed binary and the libraries -/

/-- Section header as libbfd reports it. -/
structure asection where
  flags : Nat
  vma : Nat
  size : Nat
  name : Option String

/-- The flag `SEC_CODE` of `bfd.h`. -/
abbrev SEC_CODE : Nat := 0x10

/-- Everything `dumpSections`, `dumpGadgets` read from outside the object.
* `sections`: the list `BfdHandle->sections`;
* `buf`: the memory at `buf + z`, positions `0 ≤ z < input_size` being the file (the source
  indexes it without a bounds check, so the model gives every position a byte);
* `cs_disasm code address count`: the array capstone returns for the bytes `code` (its length
  is the `code_size` argument) placed at `address`, decoding at most `count` instructions
  (`0`: as many as fit);
* `uninit n`: the value found in the `Class` member of the gadget pushed at position `n`,
  which the constructor `Microgadget::Microgadget` does not initialise. -/
structure Binary where
  sections : List asection
  buf : Int → Nat
  cs_disasm : List Nat → Nat → Nat → List cs_insn
  uninit : Nat → GadgetClass_t

/-! ## `BinAutopsy.cpp` -/

/-- Max bytes before the RET to be examined (RET included). -/
abbrev MAXDEPTH : Nat := 4

/-- Reduction of an unsigned 64-bit result. -/
def wrap64 (n : Nat) : Nat := n % 2 ^ 64

/-- Source `BinaryAutopsy::dumpSections`: every section flagged `SEC_CODE` is appended to
`Sections`, a missing name being replaced by `"<unnamed>"`. -/
def dumpSections (bin : Binary) (a : BinaryAutopsy) : BinaryAutopsy :=
  bin.sections.foldl
    (fun a s =>
      if s.flags &&& SEC_CODE ≠ 0 then
        { a with Sections := a.Sections ++ [Section.mk (s.name.getD "<unnamed>") s.vma s.size] }
      else a)
    a

/-- Source `BinaryAutopsy::gadgetLookup(string)`: the first gadget of the table whose key
compares equal to `asmInstr`, or the null pointer. -/
def gadgetLookup (Microgadgets : List Microgadget) (asmInstr : String) : Option Microgadget :=
  Microgadgets.find? (fun g => g.asmInstr == asmInstr)

/-- Source `gadgetLookup(x86_insn, x86_op_type, x86_op_type)`: gadgets with the given opcode
and operand kinds, the second kind being ignored when it is `0`. -/
def gadgetLookupOpType (Microgadgets : List Microgadget) (insn : x86_insn)
    (op0 op1 : x86_op_type) : List Microgadget :=
  Microgadgets.filter
    (fun gadget =>
      !(gadget.getID != insn) && !(op0 != (gadget.getOp 0).type) &&
        !(op1 != X86_OP_INVALID && op1 != (gadget.getOp 1).type))

/-- Source `gadgetLookup(x86_insn, x86_reg, x86_reg)`. -/
def gadgetLookupReg (Microgadgets : List Microgadget) (insn : x86_insn)
    (op0 op1 : x86_reg) : List Microgadget :=
  Microgadgets.filter
    (fun gadget =>
      gadget.getID == insn && (gadget.getOp 0).type == X86_OP_REG &&
        (gadget.getOp 0).reg == op0 &&
        (op1 == X86_REG_INVALID ||
          ((gadget.getOp 1).type == X86_OP_REG && (gadget.getOp 1).reg == op1)))

/-- Source `gadgetLookup(GadgetClass_t)`: the gadgets tagged with the class, in table order. -/
def gadgetLookupClass (Microgadgets : List Microgadget) (Class : GadgetClass_t) :
    List Microgadget :=
  Microgadgets.filter (fun gadget => gadget.Class == Class)

/-- The bytes handed to the decoder: `depth` bytes starting at `cur_pos - depth`, where
`cur_pos = buf + offset`. -/
def window (bin : Binary) (offset depth : Nat) : List Nat :=
  (List.range depth).map (fun (k : Nat) => bin.buf ((offset : Int) - (depth : Int) + (k : Int)))

/-- The key loop of `dumpGadgets`: for `j` from `0` below `count - 1`, append the mnemonic, a
space, the operand string and a semicolon. -/
def asmInstrOf (instructions : List cs_insn) (count : Nat) : String :=
  (List.range (count - 1)).foldl
    (fun asm_instr j =>
      asm_instr ++ (instructions.getD j default).mnemonic ++ " " ++
        (instructions.getD j default).op_str ++ ";")
    ""

/-- The call `cs_disasm(handle, cur_pos - depth, depth, offset - depth, depth, &instructions)`
for the RET found at `buf[i]`, with `offset = i + 1`; the address is computed in `size_t`. -/
def disasmAt (bin : Binary) (i depth : Nat) : List cs_insn :=
  bin.cs_disasm (window bin (i + 1) depth) (wrap64 (i + 1 + 2 ^ 64 - depth)) depth

/-- The test of `dumpGadgets` on a decoding: two instructions, the last one a RET. -/
def accepted (instructions : List cs_insn) : Bool :=
  instructions.length == 2 &&
    (instructions.getD (instructions.length - 1) default).id == X86_INS_RET

/-- One round of the depth loop of `dumpGadgets` for the RET found at `buf[i]`. -/
def tryDepth (bin : Binary) (i : Nat) (Microgadgets : List Microgadget) (depth : Nat) :
    List Microgadget :=
  let instructions := disasmAt bin i depth
  let count := instructions.length
  if accepted instructions then
    let asm_instr := asmInstrOf instructions count
    if (gadgetLookup Microgadgets asm_instr).isNone then
      Microgadgets ++ [Microgadget.mk instructions asm_instr (bin.uninit Microgadgets.length)]
    else Microgadgets
  else Microgadgets

/-- The depths tried for one RET: `MAXDEPTH` down to `0`. -/
def depths : List Nat := (List.range (MAXDEPTH + 1)).reverse

/-- The body of the byte loop of `dumpGadgets` at offset `i`. -/
def scanByte (bin : Binary) (Microgadgets : List Microgadget) (i : Nat) : List Microgadget :=
  if bin.buf (i : Int) == 0xc3 then depths.foldl (tryDepth bin i) Microgadgets
  else Microgadgets

/-- The offsets visited in a section: `i` from `Address` while
`i < (uint64_t)(Address + Length)`. -/
def offsets (s : Section) : List Nat :=
  List.range' s.Address (wrap64 (s.Address + s.Length) - s.Address)

/-- The section loop body of `dumpGadgets`. -/
def scanSection (bin : Binary) (Microgadgets : List Microgadget) (s : Section) :
    List Microgadget :=
  (offsets s).foldl (scanByte bin) Microgadgets

/-- Source `BinaryAutopsy::dumpGadgets`: dumps the sections when none is known, then scans
every section for RET bytes and pushes the gadgets whose key is not yet in the table. -/
def dumpGadgets (bin : Binary) (a : BinaryAutopsy) : BinaryAutopsy :=
  let a := if a.Sections.length == 0 then dumpSections bin a else a
  { a with Microgadgets := a.Sections.foldl (scanSection bin) a.Microgadgets }

/-- The switch of `analyseGadgets` on one gadget.  The POP, XOR and XCHG cases assign only
when their test succeeds; the MOV case and the default assign in every branch. -/
def analyseGadget (g : Microgadget) : Microgadget :=
  match g.getID with
  | X86_INS_POP =>
    if (g.getOp 0).type == X86_OP_REG then { g with Class := REG_INIT } else g
  | X86_INS_XOR =>
    if (g.getOp 0).type == X86_OP_REG && (g.getOp 1).type == X86_OP_REG &&
        (g.getOp 0).reg == (g.getOp 1).reg then
      { g with Class := REG_RESET }
    else g
  | X86_INS_MOV =>
    if (g.getOp 0).type == X86_OP_REG && (g.getOp 1).type == X86_OP_MEM &&
        (g.getOp 1).mem.segment == X86_REG_INVALID &&
        (g.getOp 1).mem.index == X86_REG_INVALID &&
        (g.getOp 1).mem.scale == 1 && (g.getOp 1).mem.disp == 0 then
      { g with Class := REG_LOAD }
    else if (g.getOp 1).type == X86_OP_REG && (g.getOp 0).type == X86_OP_MEM &&
        (g.getOp 0).mem.segment == X86_REG_INVALID &&
        (g.getOp 0).mem.index == X86_REG_INVALID &&
        (g.getOp 0).mem.scale == 1 && (g.getOp 0).mem.disp == 0 then
      { g with Class := REG_STORE }
    else { g with Class := UNDEFINED }
  | X86_INS_XCHG =>
    if (g.getOp 0).type == X86_OP_REG && (g.getOp 1).type == X86_OP_REG &&
        (g.getOp 0).reg != (g.getOp 1).reg then
      { g with Class := REG_XCHG }
    else g
  | _ => { g with Class := UNDEFINED }

/-- Source `BinaryAutopsy::analyseGadgets`: dumps the gadgets when the table is empty, then
runs the switch on every gadget. -/
def analyseGadgets (bin : Binary) (a : BinaryAutopsy) : BinaryAutopsy :=
  let a := if a.Microgadgets.length == 0 then dumpGadgets bin a else a
  { a with Microgadgets := a.Microgadgets.map analyseGadget }

/-- The condition of `applyGadgetFilters` under which a gadget is erased. -/
def excluded (g : Microgadget) : Bool :=
  ((((g.getOp 0).type == X86_OP_REG && (g.getOp 0).reg == X86_REG_ESP) ||
    ((g.getOp 1).type == X86_OP_REG && (g.getOp 1).reg == X86_REG_ESP) ||
    ((g.getOp 0).type == X86_OP_MEM && (g.getOp 0).mem.base == X86_REG_ESP) ||
    ((g.getOp 1).type == X86_OP_MEM && (g.getOp 1).mem.base == X86_REG_ESP)) ||
   (((g.getOp 0).type == X86_OP_MEM &&
      ((g.getOp 0).mem.base == X86_REG_INVALID ||
       (g.getOp 0).mem.index != X86_REG_INVALID ||
       (g.getOp 0).mem.segment != X86_REG_INVALID)) ||
    ((g.getOp 1).type == X86_OP_MEM &&
      ((g.getOp 1).mem.base == X86_REG_INVALID ||
       (g.getOp 1).mem.index != X86_REG_INVALID ||
       (g.getOp 1).mem.segment != X86_REG_INVALID))))

/-- The erase loop of `applyGadgetFilters`: walk the table, erasing the gadgets that meet the
condition and stepping over the others. -/
def eraseLoop : List Microgadget → List Microgadget
  | [] => []
  | g :: rest => if excluded g then eraseLoop rest else g :: eraseLoop rest

/-- Source `BinaryAutopsy::applyGadgetFilters`. -/
def applyGadgetFilters (a : BinaryAutopsy) : BinaryAutopsy :=
  { a with Microgadgets := eraseLoop a.Microgadgets }

/-- Source `BinaryAutopsy::buildXchgGraph`: the graph is reset; when some gadget has class
`REG_XCHG`, an edge is added for every gadget returned by the lookup for XCHG with two
register operands. -/
def buildXchgGraph (a : BinaryAutopsy) : BinaryAutopsy :=
  let a := { a with xgraph := { edges := [] } }
  let XchgGadgets := gadgetLookupClass a.Microgadgets REG_XCHG
  if XchgGadgets.length > 0 then
    (gadgetLookupOpType a.Microgadgets X86_INS_XCHG X86_OP_REG X86_OP_REG).foldl
      (fun a g => { a with xgraph := a.xgraph.addEdge (g.getOp 0).reg (g.getOp 1).reg })
      a
  else a

/-! ## A fragment of the IA-32 decoder

The theorems below hold for every decoder.  The concrete examples need one: `x86_disasm`
decodes the encodings listed at `decodeOne` the way capstone does in 32-bit mode and reports
every other byte sequence as undecodable.  The examples are laid out so that every window
they decode is made of listed encodings or starts with a truncated instruction. -/

/-- Register operand. -/
def opReg (r : x86_reg) : cs_x86_op :=
  { type := X86_OP_REG, reg := r, imm := 0,
    mem := { segment := 0, base := 0, index := 0, scale := 0, disp := 0 } }

/-- Immediate operand. -/
def opImm (v : Int) : cs_x86_op :=
  { type := X86_OP_IMM, reg := 0, imm := v,
    mem := { segment := 0, base := 0, index := 0, scale := 0, disp := 0 } }

/-- Memory operand `[base]`: no segment, no index, scale 1, no displacement. -/
def opMem (base : x86_reg) : cs_x86_op :=
  { type := X86_OP_MEM, reg := 0, imm := 0,
    mem := { segment := X86_REG_INVALID, base := base, index := X86_REG_INVALID,
             scale := 1, disp := 0 } }

/-- The 32-bit register with encoding number `n`, and its name. -/
def reg32 (n : Nat) : x86_reg × String :=
  match n with
  | 0 => (X86_REG_EAX, "eax")
  | 1 => (X86_REG_ECX, "ecx")
  | 2 => (X86_REG_EDX, "edx")
  | 3 => (X86_REG_EBX, "ebx")
  | 4 => (X86_REG_ESP, "esp")
  | 5 => (X86_REG_EBP, "ebp")
  | 6 => (X86_REG_ESI, "esi")
  | _ => (X86_REG_EDI, "edi")

/-- The 8-bit register with encoding number `n`, and its name. -/
def reg8 (n : Nat) : x86_reg × String :=
  match n with
  | 0 => (X86_REG_AL, "al")
  | 1 => (X86_REG_CL, "cl")
  | 2 => (X86_REG_DL, "dl")
  | 3 => (X86_REG_BL, "bl")
  | 4 => (X86_REG_AH, "ah")
  | 5 => (X86_REG_CH, "ch")
  | 6 => (X86_REG_DH, "dh")
  | _ => (X86_REG_BH, "bh")

/-- Immediate as capstone prints it: decimal up to 9, hexadecimal above. -/
def immStr (v : Nat) : String :=
  if v ≤ 9 then toString v else "0x" ++ String.mk (Nat.toDigits 16 v)

/-- The operand `r/m32` of a ModRM byte with `mod = 3` (register) or `mod = 0` and
`rm ∉ {4, 5}` (memory `[reg]`), with its text; the other forms are outside the fragment. -/
def rm32 (modrm : Nat) : Option (cs_x86_op × String) :=
  if modrm / 64 = 3 then some (opReg (reg32 (modrm % 8)).1, (reg32 (modrm % 8)).2)
  else if modrm / 64 = 0 ∧ modrm % 8 ≠ 4 ∧ modrm % 8 ≠ 5 then
    some (opMem (reg32 (modrm % 8)).1, "dword ptr [" ++ (reg32 (modrm % 8)).2 ++ "]")
  else none

/-- A two-byte instruction `opcode modrm` with operands `r/m32, r32` (or `r32, r/m32` when
`swap`). -/
def modrm32 (id : x86_insn) (mnemonic : String) (swap : Bool) (modrm address : Nat) :
    Option cs_insn :=
  match rm32 modrm with
  | none => none
  | some (rm, rmStr) =>
    let r := reg32 (modrm / 8 % 8)
    some
      (if swap then
        { id := id, address := address, size := 2, mnemonic := mnemonic,
          op_str := r.2 ++ ", " ++ rmStr, op_count := 2, operands := [opReg r.1, rm] }
      else
        { id := id, address := address, size := 2, mnemonic := mnemonic,
          op_str := rmStr ++ ", " ++ r.2, op_count := 2, operands := [rm, opReg r.1] })

/-- One instruction at the head of `code`.  Encodings of the fragment:
`90` nop; `50+r` push r32; `58+r` pop r32; `C3` ret; `C2 iw` ret imm16;
`31 /r` xor r/m32, r32; `87 /r` xchg r/m32, r32; `89 /r` mov r/m32, r32;
`8B /r` mov r32, r/m32; `86 /r` xchg r/m8, r8 (register form); `8F /0` pop r/m32. -/
def decodeOne (code : List Nat) (address : Nat) : Option cs_insn :=
  match code with
  | [] => none
  | b :: rest =>
    if b = 0x90 then
      some { id := X86_INS_NOP, address := address, size := 1, mnemonic := "nop",
             op_str := "", op_count := 0, operands := [] }
    else if b = 0xc3 then
      some { id := X86_INS_RET, address := address, size := 1, mnemonic := "ret",
             op_str := "", op_count := 0, operands := [] }
    else if 0x50 ≤ b ∧ b ≤ 0x57 then
      some { id := X86_INS_PUSH, address := address, size := 1, mnemonic := "push",
             op_str := (reg32 (b - 0x50)).2, op_count := 1,
             operands := [opReg (reg32 (b - 0x50)).1] }
    else if 0x58 ≤ b ∧ b ≤ 0x5f then
      some { id := X86_INS_POP, address := address, size := 1, mnemonic := "pop",
             op_str := (reg32 (b - 0x58)).2, op_count := 1,
             operands := [opReg (reg32 (b - 0x58)).1] }
    else
      match rest with
      | [] => none
      | m :: rest2 =>
        if b = 0xc2 then
          match rest2 with
          | [] => none
          | hi :: _ =>
            some { id := X86_INS_RET, address := address, size := 3, mnemonic := "ret",
                   op_str := immStr (m + 256 * hi), op_count := 1,
                   operands := [opImm (m + 256 * hi)] }
        else if b = 0x31 then modrm32 X86_INS_XOR "xor" false m address
        else if b = 0x87 then modrm32 X86_INS_XCHG "xchg" false m address
        else if b = 0x89 then modrm32 X86_INS_MOV "mov" false m address
        else if b = 0x8b then modrm32 X86_INS_MOV "mov" true m address
        else if b = 0x86 ∧ m / 64 = 3 then
          some { id := X86_INS_XCHG, address := address, size := 2, mnemonic := "xchg",
                 op_str := (reg8 (m % 8)).2 ++ ", " ++ (reg8 (m / 8 % 8)).2, op_count := 2,
                 operands := [opReg (reg8 (m % 8)).1, opReg (reg8 (m / 8 % 8)).1] }
        else if b = 0x8f ∧ m / 8 % 8 = 0 then
          match rm32 m with
          | none => none
          | some (rm, rmStr) =>
            some { id := X86_INS_POP, address := address, size := 2, mnemonic := "pop",
                   op_str := rmStr, op_count := 1, operands := [rm] }
        else none

/-- Decode instruction after instruction until the bytes run out or one does not decode. -/
def decodeAll : Nat → List Nat → Nat → List cs_insn
  | 0, _, _ => []
  | fuel + 1, code, address =>
    match decodeOne code address with
    | none => []
    | some insn => insn :: decodeAll fuel (code.drop insn.size) (address + insn.size)

/-- The decoder of the examples: at most `count` instructions, all of them when `count = 0`. -/
def x86_disasm (code : List Nat) (address count : Nat) : List cs_insn :=
  if count = 0 then decodeAll code.length code address
  else (decodeAll code.length code address).take count

/-- The binary of the examples: a file starting with four `nop` bytes followed by `code`, one
executable section covering exactly `code`; bytes outside the file read as `0`, and every
uninitialised `Class` member holds `cls`. -/
def exampleBinary (code : List Nat) (cls : GadgetClass_t) : Binary :=
  { sections := [{ flags := SEC_CODE, vma := 4, size := code.length, name := some ".text" }],
    buf := fun z => if z < 0 then 0 else ([0x90, 0x90, 0x90, 0x90] ++ code).getD z.toNat 0,
    cs_disasm := x86_disasm,
    uninit := fun _ => cls }

/-- The steps `dumpSections`, `dumpGadgets`, `analyseGadgets`, `applyGadgetFilters`,
`buildXchgGraph` of `dissect` on a fresh object (the symbol dump does not touch the
tables used here). -/
def dissectGadgets (bin : Binary) : BinaryAutopsy :=
  buildXchgGraph (applyGadgetFilters (analyseGadgets bin (dumpGadgets bin
    (dumpSections bin BinaryAutopsy.fresh))))

/-! ## The scan order of the miner, as the specification words it -/

/-- An accepted decoding: the offset `i` of the RET byte, the depth, the decoded instructions
and the key formed from them. -/
structure Decoding where
  offset : Nat
  depth : Nat
  instructions : List cs_insn
  key : String
deriving DecidableEq

/-- The decoding requested for the RET byte at offset `i` and depth `d`, when it is accepted
(exactly two instructions, the second a RET). -/
def decodingAt (bin : Binary) (i d : Nat) : Option Decoding :=
  if accepted (disasmAt bin i d) then
    some { offset := i, depth := d, instructions := disasmAt bin i d,
           key := asmInstrOf (disasmAt bin i d) (disasmAt bin i d).length }
  else none

/-- All accepted decodings in scan order: sections in table order, byte offsets ascending
within a section, depths descending from `MAXDEPTH` to `0` at every RET byte. -/
def acceptedDecodings (bin : Binary) (Sections : List Section) : List Decoding :=
  Sections.flatMap (fun s =>
    (offsets s).flatMap (fun i =>
      if bin.buf (i : Int) = 0xc3 then depths.filterMap (decodingAt bin i) else []))

/-- Insert-if-absent: push a gadget for the decoding unless its key is already in the table. -/
def insertDecoding (bin : Binary) (M : List Microgadget) (c : Decoding) : List Microgadget :=
  if (gadgetLookup M c.key).isNone then
    M ++ [Microgadget.mk c.instructions c.key (bin.uninit M.length)]
  else M

/-! ## Predicates of the claims -/

/-- The byte located right after the encoding of the gadget's instruction, at gadget address
plus instruction length, is the RET opcode `0xC3`. -/
def retSuffix (bin : Binary) (g : Microgadget) : Prop :=
  bin.buf ((g.getAddress + (g.Instr.getD 0 default).size : Nat) : Int) = 0xc3

instance (bin : Binary) (g : Microgadget) : Decidable (retSuffix bin g) := by
  unfold retSuffix; exact inferInstance

/-- The operands of a gadget in the data model of the specification: up to two, read by
`getOp(0)` and `getOp(1)`; an absent operand is the all-zero entry, of kind
`X86_OP_INVALID`. -/
def Microgadget.operands (g : Microgadget) : List cs_x86_op := [g.getOp 0, g.getOp 1]

/-- The operand is the stack pointer: the register ESP as a register operand, or as the base
register of a memory operand. -/
def isESP (op : cs_x86_op) : Prop :=
  (op.type = X86_OP_REG ∧ op.reg = X86_REG_ESP) ∨
    (op.type = X86_OP_MEM ∧ op.mem.base = X86_REG_ESP)

instance (op : cs_x86_op) : Decidable (isESP op) := by
  unfold isESP; exact inferInstance

/-- A memory operand with an invalid base register, a non-invalid index register or a
non-invalid segment register. -/
def unsupportedMem (op : cs_x86_op) : Prop :=
  op.type = X86_OP_MEM ∧
    (op.mem.base = X86_REG_INVALID ∨ op.mem.index ≠ X86_REG_INVALID ∨
      op.mem.segment ≠ X86_REG_INVALID)

instance (op : cs_x86_op) : Decidable (unsupportedMem op) := by
  unfold unsupportedMem; exact inferInstance

/-- The exclusion rule as the specification words it: some operand is the stack pointer, or
some memory operand uses an unsupported addressing form. -/
def filteredOut (g : Microgadget) : Prop :=
  (∃ op ∈ g.operands, isESP op) ∨ (∃ op ∈ g.operands, unsupportedMem op)

instance (g : Microgadget) : Decidable (filteredOut g) := by
  unfold filteredOut; exact inferInstance

/-- The general-purpose registers of IA-32, in their 32-bit, 16-bit and 8-bit forms. -/
def isGeneralPurpose (r : x86_reg) : Prop :=
  r ∈ [X86_REG_EAX, X86_REG_ECX, X86_REG_EDX, X86_REG_EBX, X86_REG_ESP, X86_REG_EBP,
       X86_REG_ESI, X86_REG_EDI,
       X86_REG_AX, X86_REG_CX, X86_REG_DX, X86_REG_BX, X86_REG_SP, X86_REG_BP,
       X86_REG_SI, X86_REG_DI,
       X86_REG_AL, X86_REG_CL, X86_REG_DL, X86_REG_BL, X86_REG_AH, X86_REG_CH,
       X86_REG_DH, X86_REG_BH]

instance (r : x86_reg) : Decidable (isGeneralPurpose r) := by
  unfold isGeneralPurpose; exact inferInstance

/-- The general-purpose 32-bit registers other than ESP: the vertex set the specification
gives the exchange graph. -/
def isGPR32NoESP (r : x86_reg) : Prop :=
  r ∈ [X86_REG_EAX, X86_REG_ECX, X86_REG_EDX, X86_REG_EBX, X86_REG_ESI, X86_REG_EDI,
       X86_REG_EBP]

instance (r : x86_reg) : Decidable (isGPR32NoESP r) := by
  unfold isGPR32NoESP; exact inferInstance

/-- The gadget stored for the window `code` placed at address 4, with `cls` in its `Class`
member; used to write down the tables of the examples. -/
def gadgetOf (code : List Nat) (cls : GadgetClass_t) : Microgadget :=
  Microgadget.mk (x86_disasm code 4 code.length)
    (asmInstrOf (x86_disasm code 4 code.length) (x86_disasm code 4 code.length).length) cls

/-- An object holding the given gadget table and nothing else. -/
def tableOf (Microgadgets : List Microgadget) : BinaryAutopsy :=
  { Symbols := [], Sections := [], Microgadgets := Microgadgets, xgraph := { edges := [] } }

/-- The keys of a table, in table order. -/
def keys (Microgadgets : List Microgadget) : List String :=
  Microgadgets.map (fun g => g.asmInstr)

/-- The instructions and key of a gadget, that is the gadget without its class. -/
def Microgadget.content (g : Microgadget) : List cs_insn × String := (g.Instr, g.asmInstr)

/-! ## Queries of the facade (`BinAutopsy.cpp`) -/

/-- Source `BinaryAutopsy::canInitReg`: dumps the gadgets when the table is empty, then looks
for a gadget of class `REG_INIT` whose `getOp(0).reg` is `reg`.  The result carries the
object, which the call can change. -/
def canInitReg (bin : Binary) (a : BinaryAutopsy) (reg : Nat) : BinaryAutopsy × Bool :=
  let a := if a.Microgadgets.length == 0 then dumpGadgets bin a else a
  (a, a.Microgadgets.any (fun g => g.Class == REG_INIT && (g.getOp 0).reg == reg))

/-- Source `BinaryAutopsy::getInitialisableRegs`: `getOp(0).reg` of every gadget returned by
the lookup for the class `REG_INIT`. -/
def getInitialisableRegs (a : BinaryAutopsy) : List x86_reg :=
  (gadgetLookupClass a.Microgadgets REG_INIT).map (fun g => (g.getOp 0).reg)

/-- The lookup by registers as the specification words it: the opcode is the given one, the
first operand is the register `reg0` and the second operand is the register `reg1`, the
second operand being free when `reg1` is the invalid register. -/
def matchesRegs (insn : x86_insn) (reg0 reg1 : x86_reg) (g : Microgadget) : Prop :=
  g.getID = insn ∧ ((g.getOp 0).type = X86_OP_REG ∧ (g.getOp 0).reg = reg0) ∧
    (reg1 = X86_REG_INVALID ∨ ((g.getOp 1).type = X86_OP_REG ∧ (g.getOp 1).reg = reg1))

instance (insn : x86_insn) (reg0 reg1 : x86_reg) (g : Microgadget) :
    Decidable (matchesRegs insn reg0 reg1 g) := by
  unfold matchesRegs; exact inferInstance

/-! ## The dynamic symbol table (`BinaryAutopsy::dumpDynamicSymbols`) -/

/-- Symbol as libbfd reports it: `flags`, the name (`bfd_asymbol_name`), the value
(`bfd_asymbol_value`) and what `bfd_get_symbol_version_string` returns for it, `none` being
the null pointer. -/
structure asymbol where
  flags : Nat
  name : String
  value : Nat
  version : Option String
deriving DecidableEq

/-- Flags of `bfd.h`. -/
abbrev BSF_GLOBAL : Nat := 2

abbrev BSF_FUNCTION : Nat := 8

abbrev BSF_SECTION_SYM : Nat := 256

abbrev BSF_SYNTHETIC : Nat := 2097152

/-- The ways `dumpDynamicSymbols` stops without returning: `NullVersion` when
`Symbol(symbolName, versionString, addr)` converts a null `versionString` to `std::string`
(undefined behaviour; the standard library throws and the process aborts), `NoSymbols` when
the final `assert(Symbols.size() > 0)` fails. -/
inductive DumpFailure where
  | NullVersion
  | NoSymbols
deriving DecidableEq

/-- The `versionString` of the loop body: null unless the symbol is neither a section symbol
nor synthetic, in which case it is what the version query returns. -/
def versionString (sym : asymbol) : Option String :=
  if sym.flags &&& (BSF_SECTION_SYM ||| BSF_SYNTHETIC) == 0 then sym.version else none

/-- The symbol loop of `dumpDynamicSymbols` over the table `asymtab`, threading `Symbols`. -/
def scanSymbols : List asymbol → List Symbol → Except DumpFailure (List Symbol)
  | [], Symbols => Except.ok Symbols
  | sym :: rest, Symbols =>
    if sym.flags &&& BSF_FUNCTION ≠ 0 ∧ sym.flags &&& BSF_GLOBAL ≠ 0 then
      if sym.name == "_init" || sym.name == "_fini" then scanSymbols rest Symbols
      else
        match versionString sym with
        | none => Except.error DumpFailure.NullVersion
        | some version =>
          scanSymbols rest (Symbols ++ [Symbol.mk sym.name version none sym.value])
    else scanSymbols rest Symbols

/-- Source `BinaryAutopsy::dumpDynamicSymbols` on the dynamic symbol table `asymtab` (the
output of `bfd_canonicalize_dynamic_symtab`): dumps the sections when none is known, runs the
symbol loop and asserts that the table is not empty. -/
def dumpDynamicSymbols (bin : Binary) (asymtab : List asymbol) (a : BinaryAutopsy) :
    Except DumpFailure BinaryAutopsy :=
  let a := if a.Sections.length == 0 then dumpSections bin a else a
  match scanSymbols asymtab a.Symbols with
  | Except.error e => Except.error e
  | Except.ok Symbols =>
    if Symbols.length > 0 then Except.ok { a with Symbols := Symbols }
    else Except.error DumpFailure.NoSymbols

/-- Eligible symbol, as the specification words it: function and global, and named neither
`_init` nor `_fini`. -/
def eligible (sym : asymbol) : Prop :=
  (sym.flags &&& BSF_FUNCTION ≠ 0 ∧ sym.flags &&& BSF_GLOBAL ≠ 0) ∧
    sym.name ≠ "_init" ∧ sym.name ≠ "_fini"

instance (sym : asymbol) : Decidable (eligible sym) := by
  unfold eligible; exact inferInstance

/-- A dynamic symbol table for the examples: `_init` (excluded by name), `printf`, the object
`environ` (not a function), the local function `helper` (not global) and `puts`. -/
def exampleSymtab : List asymbol :=
  [{ flags := BSF_GLOBAL ||| BSF_FUNCTION, name := "_init", value := 0x1000, version := some "" },
   { flags := BSF_GLOBAL ||| BSF_FUNCTION, name := "printf", value := 0x4f0,
     version := some "GLIBC_2.0" },
   { flags := BSF_GLOBAL, name := "environ", value := 0x2000, version := some "GLIBC_2.0" },
   { flags := BSF_FUNCTION ||| 1, name := "helper", value := 0x500, version := some "" },
   { flags := BSF_GLOBAL ||| BSF_FUNCTION, name := "puts", value := 0x5a0,
     version := some "GLIBC_2.0" }]

/-! ## Paths in the exchange graph

The class `XchgGraph` is not among the source files.  Its queries are modelled from the
specification: breadth-first search from the source register, every discovered register
being recorded with the edges that lead to it through its parents (what the parent array of
the specification reconstructs), neighbours being visited in the order their edges were
added. -/

/-- Modelled from the spec: the adjacency of `XchgGraph`, whose source is not at hand; the
registers adjacent to `u`, in the order `addEdge` recorded them. -/
def XchgGraph.neighbours (G : XchgGraph) (u : x86_reg) : List x86_reg :=
  G.edges.flatMap (fun e => (if e.1 = u then [e.2] else []) ++ (if e.2 = u then [e.1] else []))

/-- Modelled from the spec: an entry of the search of `XchgGraph`, whose source is not at
hand; a discovered register with the sequence of edges, parent to child, that leads to it
from the source. -/
abbrev Found := x86_reg × List (x86_reg × x86_reg)

/-- Modelled from the spec: the registers recorded by the search of `XchgGraph` (the visited
set). -/
def foundKeys (found : List Found) : List x86_reg := found.map (fun f => f.1)

/-- Modelled from the spec: one step of the search of `XchgGraph::checkPath`, whose source is
not at hand; the search looks at the neighbour `w` of the discovered register `u`; an
unvisited `w` is recorded with parent `u` and queued for the next distance. -/
def bfsVisit (u : Found) (st : List Found × List Found) (w : x86_reg) :
    List Found × List Found :=
  if st.1.any (fun f => f.1 == w) then st
  else (st.1 ++ [(w, u.2 ++ [(u.1, w)])], st.2 ++ [(w, u.2 ++ [(u.1, w)])])

/-- Modelled from the spec: the search of `XchgGraph::checkPath` visits all neighbours of a
dequeued register, in order. -/
def bfsExpand (G : XchgGraph) (st : List Found × List Found) (u : Found) :
    List Found × List Found :=
  (G.neighbours u.1).foldl (bfsVisit u) st

/-- Modelled from the spec: in the search of `XchgGraph::checkPath` the registers at one
distance are dequeued in discovery order; the result is the enlarged record and the registers
of the next distance. -/
def bfsLayer (G : XchgGraph) (found frontier : List Found) : List Found × List Found :=
  frontier.foldl (bfsExpand G) (found, [])

/-- Modelled from the spec: the search of `XchgGraph::checkPath` runs until the queue is empty
(`n` bounds the number of distances). -/
def bfsLoop (G : XchgGraph) : Nat → List Found → List Found → List Found
  | 0, found, _ => found
  | n + 1, found, frontier =>
    if frontier.isEmpty then found
    else bfsLoop G n (bfsLayer G found frontier).1 (bfsLayer G found frontier).2

/-- Modelled from the spec: the breadth-first search of `XchgGraph` from `src`; a graph with
`m` edges has at most `2 * m + 1` registers to discover. -/
def XchgGraph.bfs (G : XchgGraph) (src : x86_reg) : List Found :=
  bfsLoop G (2 * G.edges.length + 1) [(src, [])] [(src, [])]

/-- Modelled from the spec: `XchgGraph::checkPath`, whose source is not at hand;
`checkPath(a, b)` is true iff `a` and `b` are in the same connected component (BFS from
`a`). -/
def XchgGraph.checkPath (G : XchgGraph) (a b : x86_reg) : Bool :=
  (G.bfs a).any (fun f => f.1 == b)

/-- Modelled from the spec: `XchgGraph::getPath`, whose source is not at hand;
`getPath(a, b)` returns the sequence of edges along a shortest path from `a` to `b`, each
edge an ordered pair parent, child; the path is empty when `a = b` and when there is no
path. -/
def XchgGraph.getPath (G : XchgGraph) (a b : x86_reg) : List (x86_reg × x86_reg) :=
  match (G.bfs a).find? (fun f => f.1 == b) with
  | some f => f.2
  | none => []

/-- Source `BinaryAutopsy::checkXchgPath`. -/
def checkXchgPath (a : BinaryAutopsy) (x y c : x86_reg) : Bool :=
  if c == X86_REG_INVALID then a.xgraph.checkPath x y
  else a.xgraph.checkPath x y && a.xgraph.checkPath y c

/-- The body of the loop of `getXchgPath` for one edge: the lookup for XCHG with the registers
in the order of the edge, the lookup in the other order when the first is empty, then
`res.front()`, which is undefined on an empty vector (`none`). -/
def xchgGadgetFor (Microgadgets : List Microgadget) (edge : x86_reg × x86_reg) :
    Option Microgadget :=
  let res := gadgetLookupReg Microgadgets X86_INS_XCHG edge.1 edge.2
  let res := if res.length == 0 then gadgetLookupReg Microgadgets X86_INS_XCHG edge.2 edge.1
    else res
  res.head?

/-- The loop of `getXchgPath` over the edges of the path. -/
def gadgetsForPath (Microgadgets : List Microgadget) :
    List (x86_reg × x86_reg) → Option (List Microgadget)
  | [] => some []
  | edge :: rest =>
    match xchgGadgetFor Microgadgets edge, gadgetsForPath Microgadgets rest with
    | some g, some gs => some (g :: gs)
    | _, _ => none

/-- Source `BinaryAutopsy::getXchgPath`: the gadgets for the edges of `xgraph.getPath(a, b)`. -/
def getXchgPath (a : BinaryAutopsy) (x y : x86_reg) : Option (List Microgadget) :=
  gadgetsForPath a.Microgadgets (a.xgraph.getPath x y)

/-- A register file: the content of every register. -/
abbrev RegFile := x86_reg → Nat

/-- The effect of an XCHG on a register file: the contents of its two operand registers are
swapped. -/
def execXchg (g : Microgadget) (regs : RegFile) : RegFile :=
  fun r =>
    if r = (g.getOp 0).reg then regs (g.getOp 1).reg
    else if r = (g.getOp 1).reg then regs (g.getOp 0).reg
    else regs r

/-- The gadgets of a path applied in order. -/
def execPath (gs : List Microgadget) (regs : RegFile) : RegFile :=
  gs.foldl (fun regs g => execXchg g regs) regs

/-- The edges form a chain from `x` to `y`: the first starts at `x`, each starts where the
one before ends, the last ends at `y`. -/
def isChain : x86_reg → List (x86_reg × x86_reg) → x86_reg → Prop
  | x, [], y => x = y
  | x, e :: rest, y => e.1 = x ∧ isChain e.2 rest y

/-- The register `v` is reached from `src` by `n` edges of the graph. -/
inductive Reach (G : XchgGraph) (src : x86_reg) : Nat → x86_reg → Prop where
  | zero : Reach G src 0 src
  | step {n : Nat} {u v : x86_reg} : Reach G src n u → G.hasEdge u v → Reach G src (n + 1) v

/-- A gadget of class `REG_XCHG` with operand order `(u, v)`. -/
def isRegXchg (u v : x86_reg) (g : Microgadget) : Prop :=
  g.Class = REG_XCHG ∧ ((g.getOp 0).type = X86_OP_REG ∧ (g.getOp 0).reg = u) ∧
    ((g.getOp 1).type = X86_OP_REG ∧ (g.getOp 1).reg = v)

instance (u v : x86_reg) (g : Microgadget) : Decidable (isRegXchg u v g) := by
  unfold isRegXchg; exact inferInstance

/-- The classes of the table are exact for `REG_XCHG`: a gadget has this class if and only
if it is a XCHG of two distinct registers (the row of the classifier table). -/
def exactRegXchg (Microgadgets : List Microgadget) : Prop :=
  ∀ g ∈ Microgadgets, g.Class = REG_XCHG ↔
    (g.getID = X86_INS_XCHG ∧ (g.getOp 0).type = X86_OP_REG ∧
      (g.getOp 1).type = X86_OP_REG ∧ (g.getOp 0).reg ≠ (g.getOp 1).reg)

instance (Microgadgets : List Microgadget) : Decidable (exactRegXchg Microgadgets) := by
  unfold exactRegXchg; exact inferInstance

/-- The register file of the examples: every register holds its own identifier. -/
def exampleRegs : RegFile := fun r => r

/-- The first gadget of the table, in table order, of class `REG_XCHG` with operand order
`(u, v)`. -/
def firstRegXchg (Microgadgets : List Microgadget) (u v : x86_reg) : Option Microgadget :=
  Microgadgets.find? (fun g => decide (isRegXchg u v g))

/-- What the search records about a register is right: the edges form a chain from the source
to the register, each joins two distinct registers adjacent in the graph, and so the register
is reached by as many edges as recorded. -/
def goodEntry (G : XchgGraph) (src : x86_reg) (f : Found) : Prop :=
  isChain src f.2 f.1 ∧ (∀ e ∈ f.2, G.hasEdge e.1 e.2 ∧ e.1 ≠ e.2) ∧
    Reach G src f.2.length f.1

/-- The registers a search from `src` can meet: the source and the endpoints of the edges. -/
def vertices (G : XchgGraph) (src : x86_reg) : List x86_reg :=
  src :: G.edges.flatMap (fun e => [e.1, e.2])

/-- Invariant of the search while the registers of one distance (`frontier`) are expanded:
the record is the old record followed by the new discoveries, each new discovery is an
unrecorded neighbour of a register of the frontier, and no register is recorded twice. -/
def LayerInv (G : XchgGraph) (found frontier : List Found)
    (st : List Found × List Found) : Prop :=
  st.1 = found ++ st.2 ∧
    (∀ f ∈ st.2, ∃ u ∈ frontier, G.hasEdge u.1 f.1 ∧ f.2 = u.2 ++ [(u.1, f.1)] ∧
      f.1 ∉ foundKeys found) ∧
    (foundKeys st.1).Nodup

/-- Invariant of the search between two distances: everything recorded is right and at most
`k` edges long, the frontier is what is recorded with exactly `k` edges, every register
reached by `n ≤ k` edges is recorded with at most `n` edges, and no register is recorded
twice. -/
def BfsInv (G : XchgGraph) (src : x86_reg) (k : Nat) (found frontier : List Found) : Prop :=
  (∀ f ∈ found, goodEntry G src f ∧ f.2.length ≤ k) ∧
    (∀ f ∈ frontier, f ∈ found ∧ f.2.length = k) ∧
    (∀ f ∈ found, f.2.length = k → f ∈ frontier) ∧
    (∀ (v : x86_reg) (n : Nat), Reach G src n v → n ≤ k →
      ∃ f, found.find? (fun f => f.1 == v) = some f ∧ f.2.length ≤ n) ∧
    (foundKeys found).Nodup ∧ (∀ f ∈ found, f.1 ∈ vertices G src)

/-- Two XCHG gadgets stand for the same unordered edge: they have the same two operand
registers, in the same or in the opposite order. -/
def sameEdge (g1 g2 : Microgadget) : Prop :=
  ((g1.getOp 0).reg = (g2.getOp 0).reg ∧ (g1.getOp 1).reg = (g2.getOp 1).reg) ∨
    ((g1.getOp 0).reg = (g2.getOp 1).reg ∧ (g1.getOp 1).reg = (g2.getOp 0).reg)

instance (g1 g2 : Microgadget) : Decidable (sameEdge g1 g2) := by
  unfold sameEdge; exact inferInstance

/-- The decoder's guarantee on register operands: a register operand never names the invalid
register. -/
def validRegOperands (Microgadgets : List Microgadget) : Prop :=
  ∀ g ∈ Microgadgets, ∀ op ∈ g.operands, op.type = X86_OP_REG → op.reg ≠ X86_REG_INVALID

instance (Microgadgets : List Microgadget) : Decidable (validRegOperands Microgadgets) := by
  unfold validRegOperands; exact inferInstance

/-- The shortest path from `x` to `y` is unique: every chain of edges of the graph from `x` to
`y` that is not longer than the path returned by `getPath(x, y)` is that path. -/
def uniqueShortest (G : XchgGraph) (x y : x86_reg) : Prop :=
  ∀ p : List (x86_reg × x86_reg), isChain x p y → (∀ e ∈ p, G.hasEdge e.1 e.2) →
    p.length ≤ (G.getPath x y).length → p = G.getPath x y

/-- The first gadget of the table, in table order, that the lookup for XCHG with the registers
`(u, v)` matches: the opcode is XCHG, the first operand is the register `u` and the second
operand is the register `v`.  The class of the gadget plays no part. -/
def firstXchg (Microgadgets : List Microgadget) (u v : x86_reg) : Option Microgadget :=
  Microgadgets.find? (fun g => decide (matchesRegs X86_INS_XCHG u v g))

/-! ## The symbol-version directive -/

/-- Source `Symbol::getSymVerDirective`: the stream receives `".symver "`, the label, a comma,
the label, `"@"` and the version; a copy of the stream content is stored in the member
`SymVerDirective` and returned.  The result is the object after the call and the string
returned. -/
def Symbol.getSymVerDirective (s : Symbol) : Symbol × String :=
  let ss := ".symver " ++ s.Label ++ "," ++ s.Label ++ "@" ++ s.Version
  ({ s with SymVerDirective := some ss }, ss)

/-! ## Construction and the single instance -/

/-- The ways the constructor `BinaryAutopsy::BinaryAutopsy(path)` stops without returning:
`InvalidBinary` when `assert(bfd_check_format(BfdHandle, bfd_object))` fails, `Dump e` when
`dumpDynamicSymbols` stops with `e` inside `dissect`. -/
inductive ConstructFailure where
  | InvalidBinary
  | Dump (e : DumpFailure)
deriving DecidableEq

/-- What the libraries find at a path: `none` when the file is not an object file that libbfd
accepts, otherwise the binary and its dynamic symbol table. -/
abbrev Files := String → Option (Binary × List asymbol)

/-- Source `BinaryAutopsy::dissect`: `dumpSections`, `dumpDynamicSymbols`, `dumpGadgets`,
`analyseGadgets`, `applyGadgetFilters`, `buildXchgGraph`, in this order. -/
def dissect (bin : Binary) (asymtab : List asymbol) (a : BinaryAutopsy) :
    Except DumpFailure BinaryAutopsy :=
  match dumpDynamicSymbols bin asymtab (dumpSections bin a) with
  | Except.error e => Except.error e
  | Except.ok a =>
    Except.ok (buildXchgGraph (applyGadgetFilters (analyseGadgets bin (dumpGadgets bin a))))

/-- Source constructor `BinaryAutopsy::BinaryAutopsy(path)` as `new BinaryAutopsy(path)` runs
it: the file is opened and checked, then `dissect` fills the tables of the new object. -/
def BinaryAutopsy.new (files : Files) (path : String) : Except ConstructFailure BinaryAutopsy :=
  match files path with
  | none => Except.error ConstructFailure.InvalidBinary
  | some (bin, asymtab) =>
    match dissect bin asymtab BinaryAutopsy.fresh with
    | Except.error e => Except.error (ConstructFailure.Dump e)
    | Except.ok a => Except.ok a

/-- The state of the program that `getInstance` reads and writes: `instancePtr` is the static
member `BinaryAutopsy::instance` (`none` for the null pointer it starts with, otherwise the
object it points to); `analysed` records, in order, the paths for which the constructor has
run. -/
structure Program where
  instancePtr : Option BinaryAutopsy
  analysed : List String

/-- The program before the first call: the static member is null, nothing was analysed. -/
def Program.start : Program := { instancePtr := none, analysed := [] }

/-- Source `BinaryAutopsy::getInstance(path)`: when the static member is null a new object is
constructed for `path` and stored; the stored object is returned. -/
def getInstance (files : Files) (st : Program) (path : String) :
    Except ConstructFailure (Program × BinaryAutopsy) :=
  match st.instancePtr with
  | some obj => Except.ok (st, obj)
  | none =>
    match BinaryAutopsy.new files path with
    | Except.error e => Except.error e
    | Except.ok obj =>
      Except.ok ({ instancePtr := some obj, analysed := st.analysed ++ [path] }, obj)

/-- A sequence of calls of `getInstance`, one for each path of the list in order: the state
after the last call and the objects returned. -/
def getInstances (files : Files) :
    Program → List String → Except ConstructFailure (Program × List BinaryAutopsy)
  | st, [] => Except.ok (st, [])
  | st, path :: rest =>
    match getInstance files st path with
    | Except.error e => Except.error e
    | Except.ok (st1, obj) =>
      match getInstances files st1 rest with
      | Except.error e => Except.error e
      | Except.ok (st2, objs) => Except.ok (st2, obj :: objs)

/-- Files for the examples: the path `libc.so.6` holds the example binary `58 C3` with the
example symbol table, the path `libm.so.6` a binary with the gadget `xchg eax, ecx`, and no
other path an object file. -/
def exampleFiles : Files :=
  fun path =>
    if path = "libc.so.6" then some (exampleBinary [0x58, 0xc3] UNDEFINED, exampleSymtab)
    else if path = "libm.so.6" then some (exampleBinary [0x87, 0xc1, 0xc3] UNDEFINED, exampleSymtab)
    else none

/-- The object that construction yields for the path `libc.so.6` of `exampleFiles`: the
symbols `printf` and `puts`, and the tables mined from the bytes `58 C3`. -/
def exampleAutopsy : BinaryAutopsy :=
  { dissectGadgets (exampleBinary [0x58, 0xc3] UNDEFINED) with
    Symbols :=
      [{ Label := "printf", Version := "GLIBC_2.0", SymVerDirective := none, Address := 0x4f0 },
       { Label := "puts", Version := "GLIBC_2.0", SymVerDirective := none, Address := 0x5a0 }] }

/-! ## Operand comparison (`CapstoneLLVMAdpt.cpp`) -/

/-- The failed assertions of the disassembler adapter: an operand of a kind it does not
support. -/
inductive AdapterFailure where
  | UnsupportedOperand
deriving DecidableEq

/-- Source `opCompare`: operands of different kinds are different; operands of the same kind
are compared by register, by immediate value or by the base register of the memory reference;
for any other common kind the assertion fails. -/
def opCompare (a b : cs_x86_op) : Except AdapterFailure Bool :=
  if a.type = b.type then
    match a.type with
    | X86_OP_REG => Except.ok (a.reg == b.reg)
    | X86_OP_IMM => Except.ok (a.imm == b.imm)
    | X86_OP_MEM => Except.ok (a.mem.base == b.mem.base)
    | _ => Except.error AdapterFailure.UnsupportedOperand
  else Except.ok false

/-- The kinds of operand the specification calls supported: register, immediate, memory. -/
def supportedKind (t : x86_op_type) : Prop :=
  t = X86_OP_REG ∨ t = X86_OP_IMM ∨ t = X86_OP_MEM

instance (t : x86_op_type) : Decidable (supportedKind t) := by
  unfold supportedKind; exact inferInstance

/-- A floating-point operand for the examples. -/
def opFP : cs_x86_op := { cs_x86_op.zero with type := X86_OP_FP }

/-! ## The decode request -/

/-- The arguments of `cs_disasm(handle, cur_pos - depth, depth, offset - depth, depth, ..)`
for the RET found at `buf[i]`, where `offset = i + 1` and `cur_pos = buf + offset`: the bytes
handed over, the address given to the first of them, and the number of instructions asked
for. -/
def disasmArgs (bin : Binary) (i depth : Nat) : List Nat × Nat × Nat :=
  (window bin (i + 1) depth, wrap64 (i + 1 + 2 ^ 64 - depth), depth)

/-- The `n` bytes of the file that start at offset `start`. -/
def bytesFrom (bin : Binary) (start : Int) (n : Nat) : List Nat :=
  (List.range n).map (fun (k : Nat) => bin.buf (start + (k : Int)))

/-- A decode request as the specification words it: `n` bytes starting at offset `start`,
with `start` (as a 64-bit unsigned number) as the address of the first instruction. -/
def requestFrom (bin : Binary) (start : Int) (n : Nat) : List Nat × Nat × Nat :=
  (bytesFrom bin start n, (start % (2 ^ 64 : Int)).toNat, n)

/-! ## General lemmas -/

/-- A property kept by every step of a left fold is kept by the fold. -/
theorem foldl_preserves {α β : Type} (P : β → Prop) (f : β → α → β)
    (step : ∀ b x, P b → P (f b x)) : ∀ (l : List α) (b : β), P b → P (l.foldl f b) := by
  intro l
  induction l with
  | nil => intro b hb; exact hb
  | cons x xs ih => intro b hb; exact ih (f b x) (step b x hb)

theorem gadgetLookup_isNone_iff (M : List Microgadget) (k : String) :
    (gadgetLookup M k).isNone = true ↔ k ∉ keys M := by
  unfold gadgetLookup keys
  rw [Option.isNone_iff_eq_none, List.find?_eq_none]
  simp only [List.mem_map, beq_iff_eq]
  constructor
  · rintro h ⟨g, hg, rfl⟩
    exact h g hg rfl
  · intro h g hg e
    exact h ⟨g, hg, e⟩

/-! ## Mining keeps the keys distinct -/

theorem tryDepth_nodup (bin : Binary) (i : Nat) (M : List Microgadget) (depth : Nat)
    (h : (keys M).Nodup) : (keys (tryDepth bin i M depth)).Nodup := by
  unfold tryDepth
  simp only
  split
  · split
    · rename_i hnone
      rw [gadgetLookup_isNone_iff] at hnone
      unfold keys at hnone h ⊢
      rw [List.map_append, List.nodup_append]
      refine ⟨h, by simp, ?_⟩
      intro x hx hy
      simp only [List.map_cons, List.map_nil, List.mem_singleton] at hy
      subst hy
      exact hnone hx
    · exact h
  · exact h

theorem scanByte_nodup (bin : Binary) (M : List Microgadget) (i : Nat)
    (h : (keys M).Nodup) : (keys (scanByte bin M i)).Nodup := by
  unfold scanByte
  split
  · exact foldl_preserves (fun M => (keys M).Nodup) (tryDepth bin i)
      (fun b d hb => tryDepth_nodup bin i b d hb) depths M h
  · exact h

theorem scanSection_nodup (bin : Binary) (M : List Microgadget) (s : Section)
    (h : (keys M).Nodup) : (keys (scanSection bin M s)).Nodup :=
  foldl_preserves (fun M => (keys M).Nodup) (scanByte bin)
    (fun b i hb => scanByte_nodup bin b i hb) (offsets s) M h

theorem dumpSections_Microgadgets (bin : Binary) (a : BinaryAutopsy) :
    (dumpSections bin a).Microgadgets = a.Microgadgets := by
  unfold dumpSections
  refine foldl_preserves (fun b => b.Microgadgets = a.Microgadgets) _ ?_ bin.sections a rfl
  intro b x hb
  split <;> simpa using hb

theorem dumpGadgets_nodup (bin : Binary) (a : BinaryAutopsy)
    (h : (keys a.Microgadgets).Nodup) : (keys (dumpGadgets bin a).Microgadgets).Nodup := by
  unfold dumpGadgets
  simp only
  refine foldl_preserves (fun M => (keys M).Nodup) (scanSection bin)
    (fun b s hb => scanSection_nodup bin b s hb) _ _ ?_
  split
  · rw [dumpSections_Microgadgets]; exact h
  · exact h

/-! ## Classification and filtering keep keys and instructions -/

theorem analyseGadget_asmInstr (g : Microgadget) : (analyseGadget g).asmInstr = g.asmInstr := by
  unfold analyseGadget
  split <;> (try split) <;> (try split) <;> rfl

theorem analyseGadget_Instr (g : Microgadget) : (analyseGadget g).Instr = g.Instr := by
  unfold analyseGadget
  split <;> (try split) <;> (try split) <;> rfl

theorem keys_map_analyseGadget (M : List Microgadget) : keys (M.map analyseGadget) = keys M := by
  unfold keys
  rw [List.map_map]
  exact List.map_congr_left (fun g _ => analyseGadget_asmInstr g)

theorem analyseGadgets_nodup (bin : Binary) (a : BinaryAutopsy)
    (h : (keys a.Microgadgets).Nodup) : (keys (analyseGadgets bin a).Microgadgets).Nodup := by
  unfold analyseGadgets
  simp only
  rw [keys_map_analyseGadget]
  split
  · exact dumpGadgets_nodup bin a h
  · exact h

theorem eraseLoop_eq_filter (M : List Microgadget) :
    eraseLoop M = M.filter (fun g => !excluded g) := by
  induction M with
  | nil => rfl
  | cons g gs ih =>
    unfold eraseLoop
    by_cases h : excluded g = true
    · simp [h, ih]
    · simp [h, ih]

theorem eraseLoop_sublist (M : List Microgadget) : (eraseLoop M).Sublist M := by
  rw [eraseLoop_eq_filter]; exact List.filter_sublist M

theorem applyGadgetFilters_nodup (a : BinaryAutopsy) (h : (keys a.Microgadgets).Nodup) :
    (keys (applyGadgetFilters a).Microgadgets).Nodup := by
  unfold applyGadgetFilters keys
  exact List.Nodup.sublist ((eraseLoop_sublist a.Microgadgets).map _) h

theorem pipeline_nodup (bin : Binary) (a : BinaryAutopsy) (h : (keys a.Microgadgets).Nodup) :
    (keys (applyGadgetFilters (analyseGadgets bin (dumpGadgets bin a))).Microgadgets).Nodup :=
  applyGadgetFilters_nodup _ (analyseGadgets_nodup bin _ (dumpGadgets_nodup bin a h))

/-! ## C1: key uniqueness -/

/-- C1. Key uniqueness: for every binary (any sections, any bytes, any decoder) and every
object whose gadget table is still empty, after `dumpGadgets`, `analyseGadgets` and
`applyGadgetFilters` two gadgets at distinct positions `i ≠ j` of the table have different
keys. -/
theorem key_uniqueness (bin : Binary) (a : BinaryAutopsy) (i j : Nat) (g1 g2 : Microgadget)
    (hempty : a.Microgadgets = [])
    (hi : (applyGadgetFilters (analyseGadgets bin (dumpGadgets bin a))).Microgadgets[i]? = some g1)
    (hj : (applyGadgetFilters (analyseGadgets bin (dumpGadgets bin a))).Microgadgets[j]? = some g2)
    (hij : i ≠ j) : g1.asmInstr ≠ g2.asmInstr := by
  have hnd := pipeline_nodup bin a (by rw [hempty]; exact List.nodup_nil)
  generalize (applyGadgetFilters (analyseGadgets bin (dumpGadgets bin a))).Microgadgets = M
    at hi hj hnd
  intro heq
  have hki : (keys M)[i]? = some g1.asmInstr := by unfold keys; simp [List.getElem?_map, hi]
  have hkj : (keys M)[j]? = some g2.asmInstr := by unfold keys; simp [List.getElem?_map, hj]
  have hi_lt : i < (keys M).length := by
    by_contra hc
    rw [List.getElem?_eq_none (Nat.le_of_not_lt hc)] at hki
    cases hki
  have hj_lt : j < (keys M).length := by
    by_contra hc
    rw [List.getElem?_eq_none (Nat.le_of_not_lt hc)] at hkj
    cases hkj
  rw [List.getElem?_eq_getElem hi_lt] at hki
  rw [List.getElem?_eq_getElem hj_lt] at hkj
  have e : (keys M)[i] = (keys M)[j] := by
    rw [Option.some.inj hki, Option.some.inj hkj, heq]
  exact hij ((List.Nodup.getElem_inj_iff hnd).mp e)

/-- Witness of C1 on the section bytes `C3 C3`: the final table holds `nop ;` at position 0
and `ret ;` at position 1, and the two keys differ. -/
theorem key_uniqueness_witness :
    (applyGadgetFilters (analyseGadgets (exampleBinary [0xc3, 0xc3] UNDEFINED)
        (dumpGadgets (exampleBinary [0xc3, 0xc3] UNDEFINED)
          BinaryAutopsy.fresh))).Microgadgets[0]? =
        some (Microgadget.mk (x86_disasm [0x90, 0xc3] 3 2) "nop ;" UNDEFINED) ∧
      (applyGadgetFilters (analyseGadgets (exampleBinary [0xc3, 0xc3] UNDEFINED)
        (dumpGadgets (exampleBinary [0xc3, 0xc3] UNDEFINED)
          BinaryAutopsy.fresh))).Microgadgets[1]? =
        some (Microgadget.mk (x86_disasm [0xc3, 0xc3] 4 2) "ret ;" UNDEFINED) ∧
      (Microgadget.mk (x86_disasm [0x90, 0xc3] 3 2) "nop ;" UNDEFINED).asmInstr ≠
        (Microgadget.mk (x86_disasm [0xc3, 0xc3] 4 2) "ret ;" UNDEFINED).asmInstr :=
  ⟨by decide, by decide,
   key_uniqueness (exampleBinary [0xc3, 0xc3] UNDEFINED) BinaryAutopsy.fresh 0 1
    (Microgadget.mk (x86_disasm [0x90, 0xc3] 3 2) "nop ;" UNDEFINED)
    (Microgadget.mk (x86_disasm [0xc3, 0xc3] 4 2) "ret ;" UNDEFINED)
    rfl (by decide) (by decide) (by decide)⟩

/-! ## C2: the first accepted decoding of a key is the one stored -/

theorem foldl_flatMap_eq {α β γ : Type} (f : γ → β → γ) (h : α → List β) :
    ∀ (l : List α) (c : γ),
      (l.flatMap h).foldl f c = l.foldl (fun c x => (h x).foldl f c) c := by
  intro l
  induction l with
  | nil => intro c; rfl
  | cons x xs ih =>
    intro c
    rw [List.flatMap_cons, List.foldl_append, ih]
    rfl

theorem foldl_filterMap_eq {α β γ : Type} (f : γ → β → γ) (h : α → Option β) :
    ∀ (l : List α) (c : γ),
      (l.filterMap h).foldl f c =
        l.foldl (fun c x => match h x with | none => c | some y => f c y) c := by
  intro l
  induction l with
  | nil => intro c; rfl
  | cons x xs ih =>
    intro c
    cases hx : h x with
    | none => simp only [List.filterMap_cons, hx, List.foldl_cons]; exact ih c
    | some y => simp only [List.filterMap_cons, hx, List.foldl_cons]; exact ih (f c y)

theorem tryDepth_eq_insert (bin : Binary) (i : Nat) (M : List Microgadget) (d : Nat) :
    tryDepth bin i M d =
      (match decodingAt bin i d with | none => M | some c => insertDecoding bin M c) := by
  unfold tryDepth decodingAt insertDecoding
  by_cases h : accepted (disasmAt bin i d) = true
  · simp [h]
  · simp [h]

theorem scanByte_eq_insert (bin : Binary) (M : List Microgadget) (i : Nat) :
    scanByte bin M i =
      (if bin.buf (i : Int) = 0xc3 then depths.filterMap (decodingAt bin i) else []).foldl
        (insertDecoding bin) M := by
  unfold scanByte
  by_cases h : bin.buf (i : Int) = 0xc3
  · simp only [h, beq_self_eq_true, if_true]
    rw [foldl_filterMap_eq]
    congr 1
    funext M d
    rw [tryDepth_eq_insert]
    cases decodingAt bin i d <;> rfl
  · simp [h]

theorem scan_eq_insert (bin : Binary) (Sections : List Section) (M : List Microgadget) :
    Sections.foldl (scanSection bin) M =
      (acceptedDecodings bin Sections).foldl (insertDecoding bin) M := by
  unfold acceptedDecodings
  rw [foldl_flatMap_eq]
  congr 1
  funext M s
  unfold scanSection
  rw [foldl_flatMap_eq]
  congr 1
  funext M i
  exact scanByte_eq_insert bin M i

theorem lookup_foldl_insert (bin : Binary) (k : String) :
    ∀ (l : List Decoding) (M : List Microgadget),
      (gadgetLookup (l.foldl (insertDecoding bin) M) k).map Microgadget.content =
        ((gadgetLookup M k).map Microgadget.content).or
          ((l.find? (fun c => c.key == k)).map (fun c => (c.instructions, c.key))) := by
  intro l
  induction l with
  | nil => intro M; simp
  | cons c cs ih =>
    intro M
    rw [List.foldl_cons, ih]
    cases hM : gadgetLookup M k with
    | some g =>
      have : gadgetLookup (insertDecoding bin M c) k = some g := by
        unfold insertDecoding
        split
        · unfold gadgetLookup at hM ⊢
          rw [List.find?_append, hM]; rfl
        · exact hM
      rw [this]; rfl
    | none =>
      by_cases hk : c.key = k
      · have hnone : (gadgetLookup M c.key).isNone = true := by rw [hk, hM]; rfl
        have : gadgetLookup (insertDecoding bin M c) k =
            some (Microgadget.mk c.instructions c.key (bin.uninit M.length)) := by
          unfold insertDecoding
          rw [if_pos hnone]
          unfold gadgetLookup at hM ⊢
          rw [List.find?_append, hM]
          simp [hk]
        rw [this]
        simp [List.find?_cons, hk, Microgadget.content]
      · have : gadgetLookup (insertDecoding bin M c) k = none := by
          unfold insertDecoding
          split
          · unfold gadgetLookup at hM ⊢
            rw [List.find?_append, hM]
            simp [hk]
          · exact hM
        rw [this]
        simp [List.find?_cons, hk]

theorem dumpGadgets_Microgadgets (bin : Binary) (a : BinaryAutopsy) :
    (dumpGadgets bin a).Microgadgets =
      (acceptedDecodings bin (dumpGadgets bin a).Sections).foldl (insertDecoding bin)
        a.Microgadgets := by
  rw [← scan_eq_insert]
  unfold dumpGadgets
  simp only
  split
  · rw [dumpSections_Microgadgets]
  · rfl

/-- C2. Deduplicated first-wins: mining into an empty table, whenever `d` is the first
accepted decoding in scan order (sections in table order, offsets ascending, depths from 4
down to 0) that produces the key `k`, the table holds a gadget under `k`, its instructions
and so its address are those of `d`, and it is the only gadget of the table with that key. -/
theorem first_decoding_wins (bin : Binary) (a : BinaryAutopsy) (k : String) (d : Decoding)
    (hempty : a.Microgadgets = [])
    (hfirst : (acceptedDecodings bin (dumpGadgets bin a).Sections).find?
      (fun c => c.key == k) = some d) :
    ∃ g, gadgetLookup (dumpGadgets bin a).Microgadgets k = some g ∧
      g.Instr = d.instructions ∧ g.asmInstr = k ∧
      g.getAddress = (d.instructions.getD 0 default).address ∧
      ∀ g2 ∈ (dumpGadgets bin a).Microgadgets, g2.asmInstr = k → g2 = g := by
  have hnd := dumpGadgets_nodup bin a (by rw [hempty]; exact List.nodup_nil)
  have hl := lookup_foldl_insert bin k (acceptedDecodings bin (dumpGadgets bin a).Sections)
    a.Microgadgets
  rw [← dumpGadgets_Microgadgets, hfirst, hempty] at hl
  have hdk : d.key = k := by simpa using List.find?_some hfirst
  cases hg : gadgetLookup (dumpGadgets bin a).Microgadgets k with
  | none => rw [hg] at hl; simp [gadgetLookup] at hl
  | some g =>
    rw [hg] at hl
    simp only [gadgetLookup, List.find?_nil, Option.map_none', Option.map_some',
      Option.or, Option.some.injEq, Microgadget.content, Prod.mk.injEq] at hl
    refine ⟨g, rfl, hl.1, by rw [hl.2, hdk], by rw [Microgadget.getAddress, hl.1], ?_⟩
    intro g2 hg2 hk2
    have hgm : g ∈ (dumpGadgets bin a).Microgadgets := List.mem_of_find?_eq_some hg
    exact List.inj_on_of_nodup_map hnd hg2 hgm (by rw [hk2, hl.2, hdk])

/-- Witness of C2 (scenario S6): two copies of `58 C3` at offsets 4 and 6 of one section;
the first accepted decoding with key `pop eax;` is the one of depth 2 for the RET at offset
5, and the single gadget `pop eax;` has the address 4 of the lower copy. -/
theorem first_decoding_wins_witness :
    ∃ g, gadgetLookup (dumpGadgets (exampleBinary [0x58, 0xc3, 0x58, 0xc3] UNDEFINED)
        BinaryAutopsy.fresh).Microgadgets "pop eax;" = some g ∧
      g.getAddress = 4 ∧
      (dumpGadgets (exampleBinary [0x58, 0xc3, 0x58, 0xc3] UNDEFINED)
        BinaryAutopsy.fresh).Microgadgets = [g] := by
  obtain ⟨g, h1, _, _, h4, _⟩ :=
    first_decoding_wins (exampleBinary [0x58, 0xc3, 0x58, 0xc3] UNDEFINED) BinaryAutopsy.fresh
      "pop eax;"
      { offset := 5, depth := 2, instructions := x86_disasm [0x58, 0xc3] 4 2,
        key := "pop eax;" }
      rfl (by decide)
  refine ⟨g, h1, h4, ?_⟩
  have hg : gadgetLookup (dumpGadgets (exampleBinary [0x58, 0xc3, 0x58, 0xc3] UNDEFINED)
      BinaryAutopsy.fresh).Microgadgets "pop eax;" = some (gadgetOf [0x58, 0xc3] UNDEFINED) := by
    decide
  rw [hg] at h1
  cases h1
  decide

/-! ## Where a mined gadget comes from -/

theorem mem_depths (d : Nat) : d ∈ depths ↔ d ≤ MAXDEPTH := by
  unfold depths
  rw [List.mem_reverse, List.mem_range]
  exact Nat.lt_succ_iff

theorem mem_acceptedDecodings (bin : Binary) (Sections : List Section) (c : Decoding)
    (hc : c ∈ acceptedDecodings bin Sections) :
    ∃ s ∈ Sections, ∃ i ∈ offsets s, bin.buf (i : Int) = 0xc3 ∧
      ∃ d, d ≤ MAXDEPTH ∧ decodingAt bin i d = some c := by
  unfold acceptedDecodings at hc
  rw [List.mem_flatMap] at hc
  obtain ⟨s, hs, hc⟩ := hc
  rw [List.mem_flatMap] at hc
  obtain ⟨i, hi, hc⟩ := hc
  by_cases hb : bin.buf (i : Int) = 0xc3
  · rw [if_pos hb, List.mem_filterMap] at hc
    obtain ⟨d, hd, hdc⟩ := hc
    exact ⟨s, hs, i, hi, hb, d, (mem_depths d).mp hd, hdc⟩
  · rw [if_neg hb] at hc
    cases hc

theorem mem_foldl_insert (bin : Binary) (g : Microgadget) :
    ∀ (l : List Decoding) (M : List Microgadget), g ∈ l.foldl (insertDecoding bin) M →
      g ∈ M ∨ ∃ c ∈ l, g.Instr = c.instructions ∧ g.asmInstr = c.key := by
  intro l
  induction l with
  | nil => intro M h; exact Or.inl h
  | cons c cs ih =>
    intro M h
    rw [List.foldl_cons] at h
    rcases ih _ h with h1 | ⟨c2, hc2, h2⟩
    · unfold insertDecoding at h1
      split at h1
      · rw [List.mem_append, List.mem_singleton] at h1
        rcases h1 with h1 | h1
        · exact Or.inl h1
        · exact Or.inr ⟨c, List.mem_cons_self _ _, by rw [h1], by rw [h1]⟩
      · exact Or.inl h1
    · exact Or.inr ⟨c2, List.mem_cons_of_mem _ hc2, h2⟩

theorem decodingAt_some (bin : Binary) (i d : Nat) (c : Decoding)
    (h : decodingAt bin i d = some c) :
    c.instructions = disasmAt bin i d ∧ c.instructions.length = 2 ∧
      (c.instructions.getD 1 default).id = X86_INS_RET := by
  unfold decodingAt at h
  split at h
  · rename_i hacc
    have hc : c.instructions = disasmAt bin i d := by
      cases h; rfl
    unfold accepted at hacc
    rw [Bool.and_eq_true, beq_iff_eq, beq_iff_eq] at hacc
    rw [hc]
    refine ⟨rfl, hacc.1, ?_⟩
    have h2 := hacc.2
    rw [hacc.1] at h2
    exact h2
  · cases h

/-- A gadget of the table after `dumpGadgets` was in the table before or stores an accepted
decoding: the array decoded for a RET byte `0xC3` at an offset `i` of a scanned section and a
depth `d ≤ MAXDEPTH`, of exactly two instructions, the second one a RET. -/
theorem dumpGadgets_mem (bin : Binary) (a : BinaryAutopsy) (g : Microgadget)
    (hg : g ∈ (dumpGadgets bin a).Microgadgets) :
    g ∈ a.Microgadgets ∨
      ∃ s ∈ (dumpGadgets bin a).Sections, ∃ i ∈ offsets s, bin.buf (i : Int) = 0xc3 ∧
        ∃ d, d ≤ MAXDEPTH ∧ g.Instr = disasmAt bin i d ∧ g.Instr.length = 2 ∧
          (g.Instr.getD 1 default).id = X86_INS_RET := by
  rw [dumpGadgets_Microgadgets] at hg
  rcases mem_foldl_insert bin g _ _ hg with h | ⟨c, hc, hI, _⟩
  · exact Or.inl h
  · obtain ⟨s, hs, i, hi, hb, d, hd, hdc⟩ := mem_acceptedDecodings bin _ c hc
    obtain ⟨h1, h2, h3⟩ := decodingAt_some bin i d c hdc
    exact Or.inr ⟨s, hs, i, hi, hb, d, hd, by rw [hI, h1], by rw [hI, h2], by rw [hI, h3]⟩

theorem window_last (bin : Binary) (i d : Nat) (hd : 0 < d) :
    (window bin (i + 1) d)[d - 1]? = some (bin.buf (i : Int)) := by
  unfold window
  rw [List.getElem?_map, List.getElem?_range (by omega)]
  simp only [Option.map_some', Option.some.injEq]
  congr 1
  omega

/-! ## C3: what follows the instruction of a gadget -/

theorem analyseGadgets_mem (bin : Binary) (a : BinaryAutopsy) (g : Microgadget)
    (hg : g ∈ (analyseGadgets bin a).Microgadgets) :
    ∃ g0, analyseGadget g0 = g ∧
      (g0 ∈ a.Microgadgets ∨ (a.Microgadgets = [] ∧ g0 ∈ (dumpGadgets bin a).Microgadgets)) := by
  unfold analyseGadgets at hg
  simp only [List.mem_map] at hg
  obtain ⟨g0, hg0, he⟩ := hg
  refine ⟨g0, he, ?_⟩
  split at hg0
  · rename_i hz
    exact Or.inr ⟨List.length_eq_zero.mp (by simpa using hz), hg0⟩
  · exact Or.inl hg0

theorem applyGadgetFilters_mem (a : BinaryAutopsy) (g : Microgadget) :
    g ∈ (applyGadgetFilters a).Microgadgets ↔ g ∈ a.Microgadgets ∧ excluded g = false := by
  unfold applyGadgetFilters
  simp [eraseLoop_eq_filter, List.mem_filter]

/-- C4 refuted as stated: for the section bytes `C3 C3` the window `C3 C3` of depth 2 decodes
as two RETs and is accepted; the table then holds a gadget whose instruction is RET. -/
theorem ret_gadget_counterexample :
    ∃ g ∈ (applyGadgetFilters (analyseGadgets (exampleBinary [0xc3, 0xc3] UNDEFINED)
        (dumpGadgets (exampleBinary [0xc3, 0xc3] UNDEFINED) BinaryAutopsy.fresh))).Microgadgets,
      g.getID = X86_INS_RET := by
  decide

/-- C4 amended. Every gadget of the table (mined into an empty table, then classified and
filtered) stores a decoding of exactly two instructions whose second one is a RET; the first
one, the instruction of the gadget, is not constrained. -/
theorem gadget_is_pair_closed_by_ret (bin : Binary) (a : BinaryAutopsy) (g : Microgadget)
    (hempty : a.Microgadgets = [])
    (hg : g ∈ (applyGadgetFilters (analyseGadgets bin (dumpGadgets bin a))).Microgadgets) :
    g.Instr.length = 2 ∧ (g.Instr.getD 1 default).id = X86_INS_RET := by
  rw [applyGadgetFilters_mem] at hg
  obtain ⟨g0, he, hg0⟩ := analyseGadgets_mem bin _ g hg.1
  rw [← he, analyseGadget_Instr]
  have key : ∀ b : BinaryAutopsy, b.Microgadgets = [] → g0 ∈ (dumpGadgets bin b).Microgadgets →
      g0.Instr.length = 2 ∧ (g0.Instr.getD 1 default).id = X86_INS_RET := by
    intro b hb hm
    rcases dumpGadgets_mem bin b g0 hm with h | ⟨_, _, _, _, _, _, _, _, h2, h3⟩
    · rw [hb] at h; cases h
    · exact ⟨h2, h3⟩
  rcases hg0 with h | ⟨hz, h⟩
  · exact key a hempty h
  · exact key _ hz h

/-- Witness of C4 amended on the section bytes `C3 C3`: the gadget `ret ;` is in the final
table and stores two instructions, the second a RET. -/
theorem gadget_is_pair_closed_by_ret_witness :
    Microgadget.mk (x86_disasm [0xc3, 0xc3] 4 2) "ret ;" UNDEFINED ∈
        (applyGadgetFilters (analyseGadgets (exampleBinary [0xc3, 0xc3] UNDEFINED)
          (dumpGadgets (exampleBinary [0xc3, 0xc3] UNDEFINED)
            BinaryAutopsy.fresh))).Microgadgets ∧
      (Microgadget.mk (x86_disasm [0xc3, 0xc3] 4 2) "ret ;" UNDEFINED).Instr.length = 2 ∧
      ((Microgadget.mk (x86_disasm [0xc3, 0xc3] 4 2) "ret ;" UNDEFINED).Instr.getD 1
        default).id = X86_INS_RET :=
  ⟨by decide,
   gadget_is_pair_closed_by_ret (exampleBinary [0xc3, 0xc3] UNDEFINED) BinaryAutopsy.fresh
    (Microgadget.mk (x86_disasm [0xc3, 0xc3] 4 2) "ret ;" UNDEFINED) rfl (by decide)⟩

/-! ## C5: the classifier table -/

theorem analyseGadget_getID (g : Microgadget) : (analyseGadget g).getID = g.getID := by
  unfold Microgadget.getID; rw [analyseGadget_Instr]

theorem analyseGadget_getOp (g : Microgadget) (i : Nat) :
    (analyseGadget g).getOp i = g.getOp i := by
  unfold Microgadget.getOp; rw [analyseGadget_Instr]

theorem analyseGadget_pop (g : Microgadget) (hid : g.getID = X86_INS_POP)
    (h0 : (g.getOp 0).type = X86_OP_REG) : (analyseGadget g).Class = REG_INIT := by
  unfold analyseGadget
  simp [hid, h0]

theorem analyseGadget_xor (g : Microgadget) (hid : g.getID = X86_INS_XOR)
    (h0 : (g.getOp 0).type = X86_OP_REG) (h1 : (g.getOp 1).type = X86_OP_REG)
    (hr : (g.getOp 0).reg = (g.getOp 1).reg) : (analyseGadget g).Class = REG_RESET := by
  unfold analyseGadget
  simp [hid, h0, h1, hr]

theorem analyseGadget_load (g : Microgadget) (hid : g.getID = X86_INS_MOV)
    (h0 : (g.getOp 0).type = X86_OP_REG) (h1 : (g.getOp 1).type = X86_OP_MEM)
    (hs : (g.getOp 1).mem.segment = X86_REG_INVALID)
    (hi : (g.getOp 1).mem.index = X86_REG_INVALID)
    (hsc : (g.getOp 1).mem.scale = 1) (hd : (g.getOp 1).mem.disp = 0) :
    (analyseGadget g).Class = REG_LOAD := by
  unfold analyseGadget
  simp [hid, h0, h1, hs, hi, hsc, hd]

theorem analyseGadget_store (g : Microgadget) (hid : g.getID = X86_INS_MOV)
    (h0 : (g.getOp 0).type = X86_OP_MEM) (h1 : (g.getOp 1).type = X86_OP_REG)
    (hs : (g.getOp 0).mem.segment = X86_REG_INVALID)
    (hi : (g.getOp 0).mem.index = X86_REG_INVALID)
    (hsc : (g.getOp 0).mem.scale = 1) (hd : (g.getOp 0).mem.disp = 0) :
    (analyseGadget g).Class = REG_STORE := by
  unfold analyseGadget
  simp [hid, h0, h1, hs, hi, hsc, hd]

theorem analyseGadget_xchg (g : Microgadget) (hid : g.getID = X86_INS_XCHG)
    (h0 : (g.getOp 0).type = X86_OP_REG) (h1 : (g.getOp 1).type = X86_OP_REG)
    (hr : (g.getOp 0).reg ≠ (g.getOp 1).reg) : (analyseGadget g).Class = REG_XCHG := by
  unfold analyseGadget
  simp [hid, h0, h1, hr]

/-- C5. Classifier table: every gadget `g` of the table left by `analyseGadgets` has class
`REG_INIT` when it is a POP whose op0 is a register; `REG_RESET` when it is a XOR whose op0
and op1 are the same register; `REG_LOAD` when it is a MOV with op0 a register and op1 a
memory operand with no segment, no index, scale 1 and displacement 0; `REG_STORE` when it is
a MOV with op0 such a memory operand and op1 a register; `REG_XCHG` when it is a XCHG whose
op0 and op1 are distinct registers. -/
theorem classifier_table (bin : Binary) (a : BinaryAutopsy) (g : Microgadget)
    (hg : g ∈ (analyseGadgets bin a).Microgadgets) :
    (g.getID = X86_INS_POP → (g.getOp 0).type = X86_OP_REG → g.Class = REG_INIT) ∧
    (g.getID = X86_INS_XOR → (g.getOp 0).type = X86_OP_REG → (g.getOp 1).type = X86_OP_REG →
      (g.getOp 0).reg = (g.getOp 1).reg → g.Class = REG_RESET) ∧
    (g.getID = X86_INS_MOV → (g.getOp 0).type = X86_OP_REG → (g.getOp 1).type = X86_OP_MEM →
      (g.getOp 1).mem.segment = X86_REG_INVALID → (g.getOp 1).mem.index = X86_REG_INVALID →
      (g.getOp 1).mem.scale = 1 → (g.getOp 1).mem.disp = 0 → g.Class = REG_LOAD) ∧
    (g.getID = X86_INS_MOV → (g.getOp 0).type = X86_OP_MEM → (g.getOp 1).type = X86_OP_REG →
      (g.getOp 0).mem.segment = X86_REG_INVALID → (g.getOp 0).mem.index = X86_REG_INVALID →
      (g.getOp 0).mem.scale = 1 → (g.getOp 0).mem.disp = 0 → g.Class = REG_STORE) ∧
    (g.getID = X86_INS_XCHG → (g.getOp 0).type = X86_OP_REG → (g.getOp 1).type = X86_OP_REG →
      (g.getOp 0).reg ≠ (g.getOp 1).reg → g.Class = REG_XCHG) := by
  obtain ⟨g0, he, _⟩ := analyseGadgets_mem bin a g hg
  subst he
  simp only [analyseGadget_getID, analyseGadget_getOp]
  exact ⟨analyseGadget_pop g0, analyseGadget_xor g0, analyseGadget_load g0,
    analyseGadget_store g0, analyseGadget_xchg g0⟩

/-- Witness of C5: a table with one gadget per row of the classifier table (`pop eax`,
`xor eax, eax`, `mov eax, [ecx]`, `mov [ecx], eax`, `xchg ecx, eax`), each entering with
class `UNDEFINED`. -/
theorem classifier_table_witness :
    (gadgetOf [0x58, 0xc3] REG_INIT).Class = REG_INIT ∧
    (gadgetOf [0x31, 0xc0, 0xc3] REG_RESET).Class = REG_RESET ∧
    (gadgetOf [0x8b, 0x01, 0xc3] REG_LOAD).Class = REG_LOAD ∧
    (gadgetOf [0x89, 0x01, 0xc3] REG_STORE).Class = REG_STORE ∧
    (gadgetOf [0x87, 0xc1, 0xc3] REG_XCHG).Class = REG_XCHG :=
  ⟨(classifier_table (exampleBinary [] UNDEFINED)
      (tableOf [gadgetOf [0x58, 0xc3] UNDEFINED, gadgetOf [0x31, 0xc0, 0xc3] UNDEFINED,
        gadgetOf [0x8b, 0x01, 0xc3] UNDEFINED, gadgetOf [0x89, 0x01, 0xc3] UNDEFINED,
        gadgetOf [0x87, 0xc1, 0xc3] UNDEFINED])
      (gadgetOf [0x58, 0xc3] REG_INIT) (by decide)).1 (by decide) (by decide),
   (classifier_table (exampleBinary [] UNDEFINED)
      (tableOf [gadgetOf [0x58, 0xc3] UNDEFINED, gadgetOf [0x31, 0xc0, 0xc3] UNDEFINED,
        gadgetOf [0x8b, 0x01, 0xc3] UNDEFINED, gadgetOf [0x89, 0x01, 0xc3] UNDEFINED,
        gadgetOf [0x87, 0xc1, 0xc3] UNDEFINED])
      (gadgetOf [0x31, 0xc0, 0xc3] REG_RESET) (by decide)).2.1
      (by decide) (by decide) (by decide) (by decide),
   (classifier_table (exampleBinary [] UNDEFINED)
      (tableOf [gadgetOf [0x58, 0xc3] UNDEFINED, gadgetOf [0x31, 0xc0, 0xc3] UNDEFINED,
        gadgetOf [0x8b, 0x01, 0xc3] UNDEFINED, gadgetOf [0x89, 0x01, 0xc3] UNDEFINED,
        gadgetOf [0x87, 0xc1, 0xc3] UNDEFINED])
      (gadgetOf [0x8b, 0x01, 0xc3] REG_LOAD) (by decide)).2.2.1
      (by decide) (by decide) (by decide) (by decide) (by decide) (by decide) (by decide),
   (classifier_table (exampleBinary [] UNDEFINED)
      (tableOf [gadgetOf [0x58, 0xc3] UNDEFINED, gadgetOf [0x31, 0xc0, 0xc3] UNDEFINED,
        gadgetOf [0x8b, 0x01, 0xc3] UNDEFINED, gadgetOf [0x89, 0x01, 0xc3] UNDEFINED,
        gadgetOf [0x87, 0xc1, 0xc3] UNDEFINED])
      (gadgetOf [0x89, 0x01, 0xc3] REG_STORE) (by decide)).2.2.2.1
      (by decide) (by decide) (by decide) (by decide) (by decide) (by decide) (by decide),
   (classifier_table (exampleBinary [] UNDEFINED)
      (tableOf [gadgetOf [0x58, 0xc3] UNDEFINED, gadgetOf [0x31, 0xc0, 0xc3] UNDEFINED,
        gadgetOf [0x8b, 0x01, 0xc3] UNDEFINED, gadgetOf [0x89, 0x01, 0xc3] UNDEFINED,
        gadgetOf [0x87, 0xc1, 0xc3] UNDEFINED])
      (gadgetOf [0x87, 0xc1, 0xc3] REG_XCHG) (by decide)).2.2.2.2
      (by decide) (by decide) (by decide) (by decide)⟩

/-! ## C6: gadgets outside the classifier table -/

/-- The POP, XOR and XCHG cases of the switch have no `else`: a gadget with one of these
opcodes whose operands fail the test keeps the class it entered with. -/
theorem analyseGadget_unmatched_keeps_class (g : Microgadget)
    (h : (g.getID = X86_INS_POP ∧ (g.getOp 0).type ≠ X86_OP_REG) ∨
      (g.getID = X86_INS_XOR ∧ ¬ ((g.getOp 0).type = X86_OP_REG ∧
        (g.getOp 1).type = X86_OP_REG ∧ (g.getOp 0).reg = (g.getOp 1).reg)) ∨
      (g.getID = X86_INS_XCHG ∧ ¬ ((g.getOp 0).type = X86_OP_REG ∧
        (g.getOp 1).type = X86_OP_REG ∧ (g.getOp 0).reg ≠ (g.getOp 1).reg))) :
    (analyseGadget g).Class = g.Class := by
  unfold analyseGadget
  rcases h with ⟨hid, h⟩ | ⟨hid, h⟩ | ⟨hid, h⟩
  · simp [hid, h]
  · simp only [hid]
    split
    · rename_i hc
      simp only [Bool.and_eq_true, beq_iff_eq] at hc
      exact absurd ⟨hc.1.1, hc.1.2, hc.2⟩ h
    · rfl
  · simp only [hid]
    split
    · rename_i hc
      simp only [Bool.and_eq_true, beq_iff_eq, bne_iff_ne] at hc
      exact absurd ⟨hc.1.1, hc.1.2, hc.2⟩ h
    · rfl

/-- The default case of the switch: every opcode other than POP, XOR, MOV and XCHG is
assigned `UNDEFINED`. -/
theorem analyseGadget_default (g : Microgadget) (h1 : g.getID ≠ X86_INS_POP)
    (h2 : g.getID ≠ X86_INS_XOR) (h3 : g.getID ≠ X86_INS_MOV) (h4 : g.getID ≠ X86_INS_XCHG) :
    (analyseGadget g).Class = UNDEFINED := by
  unfold analyseGadget
  split
  · rename_i h; exact absurd h h1
  · rename_i h; exact absurd h h2
  · rename_i h; exact absurd h h3
  · rename_i h; exact absurd h h4
  · rfl

/-- C6, the code at a failing input: the section bytes `31 C8 C3` (`xor eax, ecx; ret`), the
`Class` member of the pushed gadget holding `REG_INIT` before the analysis.  The XOR case
does not assign, so after `dissect` the gadget still has class `REG_INIT` and
`gadgetLookup(REG_INIT)` returns it. -/
theorem unmatched_xor_keeps_stale_class :
    (dissectGadgets (exampleBinary [0x31, 0xc8, 0xc3] REG_INIT)).Microgadgets.map
        (fun g => (g.asmInstr, g.Class)) = [("xor eax, ecx;", REG_INIT)] ∧
    (gadgetLookupClass (dissectGadgets (exampleBinary [0x31, 0xc8, 0xc3] REG_INIT)).Microgadgets
        REG_INIT).map (fun g => g.asmInstr) = ["xor eax, ecx;"] := by
  decide

/-! ## C7, C8: the filter -/

theorem excluded_iff_filteredOut (g : Microgadget) : excluded g = true ↔ filteredOut g := by
  unfold excluded filteredOut isESP unsupportedMem Microgadget.operands
  simp only [Bool.or_eq_true, Bool.and_eq_true, beq_iff_eq, bne_iff_ne, List.mem_cons,
    List.mem_singleton, List.not_mem_nil, or_false, exists_eq_or_imp, exists_eq_left]
  generalize ((g.getOp 0).type = X86_OP_REG) = r0
  generalize ((g.getOp 1).type = X86_OP_REG) = r1
  generalize ((g.getOp 0).type = X86_OP_MEM) = m0
  generalize ((g.getOp 1).type = X86_OP_MEM) = m1
  generalize ((g.getOp 0).reg = X86_REG_ESP) = e0
  generalize ((g.getOp 1).reg = X86_REG_ESP) = e1
  generalize ((g.getOp 0).mem.base = X86_REG_ESP) = b0
  generalize ((g.getOp 1).mem.base = X86_REG_ESP) = b1
  generalize ((g.getOp 0).mem.base = X86_REG_INVALID) = i0
  generalize ((g.getOp 1).mem.base = X86_REG_INVALID) = i1
  generalize ((g.getOp 0).mem.index ≠ X86_REG_INVALID) = x0
  generalize ((g.getOp 1).mem.index ≠ X86_REG_INVALID) = x1
  generalize ((g.getOp 0).mem.segment ≠ X86_REG_INVALID) = s0
  generalize ((g.getOp 1).mem.segment ≠ X86_REG_INVALID) = s1
  tauto

/-- C7. Filter predicate: `applyGadgetFilters` keeps, in table order, exactly the gadgets
that the exclusion rule does not hit; a gadget of the table is removed if and only if some
operand of it is ESP (as a register operand or as the base of a memory operand) or some
memory operand of it has an invalid base, an index register or a segment register. -/
theorem filter_predicate (a : BinaryAutopsy) :
    (applyGadgetFilters a).Microgadgets =
        a.Microgadgets.filter (fun g => decide (¬ filteredOut g)) ∧
      ∀ g ∈ a.Microgadgets, (g ∉ (applyGadgetFilters a).Microgadgets ↔ filteredOut g) := by
  have hf : (fun g => !excluded g) = (fun g => decide (¬ filteredOut g)) := by
    funext g
    by_cases h : excluded g = true
    · have := (excluded_iff_filteredOut g).mp h
      simp [h, this]
    · have : ¬ filteredOut g := fun hf => h ((excluded_iff_filteredOut g).mpr hf)
      simp [h, this]
  constructor
  · unfold applyGadgetFilters
    simp only
    rw [eraseLoop_eq_filter, hf]
  · intro g hg
    rw [applyGadgetFilters_mem, ← excluded_iff_filteredOut]
    constructor
    · intro h
      by_contra hc
      exact h ⟨hg, by simpa using hc⟩
    · intro h hc
      rw [h] at hc
      cases hc.2

/-- Witness of C7 (scenario S3): of `push esp` and `pop eax` the first is removed, being an
ESP register operand, and the second survives. -/
theorem filter_predicate_witness :
    gadgetOf [0x54, 0xc3] UNDEFINED ∉
        (applyGadgetFilters (tableOf [gadgetOf [0x54, 0xc3] UNDEFINED,
          gadgetOf [0x58, 0xc3] REG_INIT])).Microgadgets ∧
      ¬ gadgetOf [0x58, 0xc3] REG_INIT ∉
        (applyGadgetFilters (tableOf [gadgetOf [0x54, 0xc3] UNDEFINED,
          gadgetOf [0x58, 0xc3] REG_INIT])).Microgadgets :=
  ⟨((filter_predicate (tableOf [gadgetOf [0x54, 0xc3] UNDEFINED,
      gadgetOf [0x58, 0xc3] REG_INIT])).2 (gadgetOf [0x54, 0xc3] UNDEFINED)
      (by decide)).mpr (by decide),
   fun h => absurd (((filter_predicate (tableOf [gadgetOf [0x54, 0xc3] UNDEFINED,
      gadgetOf [0x58, 0xc3] REG_INIT])).2 (gadgetOf [0x58, 0xc3] REG_INIT)
      (by decide)).mp h) (by decide)⟩

/-- C8. Filter soundness: for every gadget that survives `applyGadgetFilters`, no operand is
ESP (neither as a register operand nor as a memory base), and every memory operand has no
index register, no segment register and a base register that is defined (not the invalid
register) and general-purpose.  The filter tests the base against the invalid register and
ESP only; that a base which is not invalid is a general-purpose register is the decoder's
guarantee `hdec` on its memory operands. -/
theorem filter_soundness (a : BinaryAutopsy) (g : Microgadget)
    (hg : g ∈ (applyGadgetFilters a).Microgadgets)
    (hdec : ∀ op ∈ g.operands, op.type = X86_OP_MEM →
      op.mem.base = X86_REG_INVALID ∨ isGeneralPurpose op.mem.base) :
    ∀ op ∈ g.operands, ¬ isESP op ∧
      (op.type = X86_OP_MEM →
        op.mem.index = X86_REG_INVALID ∧ op.mem.segment = X86_REG_INVALID ∧
          op.mem.base ≠ X86_REG_INVALID ∧ op.mem.base ≠ X86_REG_ESP ∧
          isGeneralPurpose op.mem.base) := by
  rw [applyGadgetFilters_mem] at hg
  have hnot : ¬ filteredOut g := by
    intro h
    have := (excluded_iff_filteredOut g).mpr h
    rw [hg.2] at this
    cases this
  intro op hop
  have h1 : ¬ isESP op := fun h => hnot (Or.inl ⟨op, hop, h⟩)
  have h2 : ¬ unsupportedMem op := fun h => hnot (Or.inr ⟨op, hop, h⟩)
  refine ⟨h1, fun hmem => ?_⟩
  unfold unsupportedMem at h2
  unfold isESP at h1
  have hb : op.mem.base ≠ X86_REG_INVALID := fun h => h2 ⟨hmem, Or.inl h⟩
  have hi : op.mem.index = X86_REG_INVALID := by
    by_contra h
    exact h2 ⟨hmem, Or.inr (Or.inl h)⟩
  have hs : op.mem.segment = X86_REG_INVALID := by
    by_contra h
    exact h2 ⟨hmem, Or.inr (Or.inr h)⟩
  have he : op.mem.base ≠ X86_REG_ESP := fun h => h1 (Or.inr ⟨hmem, h⟩)
  rcases hdec op hop hmem with h | h
  · exact absurd h hb
  · exact ⟨hi, hs, hb, he, h⟩

/-- Witness of C8: the memory operand `[ecx]` of the surviving gadget
`mov eax, dword ptr [ecx]`. -/
theorem filter_soundness_witness :
    ¬ isESP (opMem X86_REG_ECX) ∧
      ((opMem X86_REG_ECX).type = X86_OP_MEM →
        (opMem X86_REG_ECX).mem.index = X86_REG_INVALID ∧
          (opMem X86_REG_ECX).mem.segment = X86_REG_INVALID ∧
          (opMem X86_REG_ECX).mem.base ≠ X86_REG_INVALID ∧
          (opMem X86_REG_ECX).mem.base ≠ X86_REG_ESP ∧
          isGeneralPurpose (opMem X86_REG_ECX).mem.base) :=
  filter_soundness
    (tableOf [gadgetOf [0x54, 0xc3] UNDEFINED, gadgetOf [0x8b, 0x01, 0xc3] REG_LOAD])
    (gadgetOf [0x8b, 0x01, 0xc3] REG_LOAD) (by decide) (by decide)
    (opMem X86_REG_ECX) (by decide)

/-! ## C9, C10: the exchange graph -/

theorem foldl_addEdge_edges (l : List Microgadget) :
    ∀ a : BinaryAutopsy,
      (l.foldl (fun (a : BinaryAutopsy) (g : Microgadget) =>
          { a with xgraph := a.xgraph.addEdge (g.getOp 0).reg (g.getOp 1).reg }) a).xgraph.edges =
        a.xgraph.edges ++ l.map (fun g => ((g.getOp 0).reg, (g.getOp 1).reg)) := by
  induction l with
  | nil => intro a; simp
  | cons g gs ih =>
    intro a
    rw [List.foldl_cons, ih]
    simp [XchgGraph.addEdge]

/-- The edges `buildXchgGraph` adds, in order: none when no gadget has class `REG_XCHG`,
otherwise one per XCHG gadget with two register operands. -/
theorem buildXchgGraph_edges (a : BinaryAutopsy) :
    (buildXchgGraph a).xgraph.edges =
      if (gadgetLookupClass a.Microgadgets REG_XCHG).length > 0 then
        (gadgetLookupOpType a.Microgadgets X86_INS_XCHG X86_OP_REG X86_OP_REG).map
          (fun g => ((g.getOp 0).reg, (g.getOp 1).reg))
      else [] := by
  unfold buildXchgGraph
  simp only
  split
  · rw [foldl_addEdge_edges]; rfl
  · rfl

theorem mem_gadgetLookupOpType_xchg (M : List Microgadget) (g : Microgadget) :
    g ∈ gadgetLookupOpType M X86_INS_XCHG X86_OP_REG X86_OP_REG ↔
      g ∈ M ∧ g.getID = X86_INS_XCHG ∧ (g.getOp 0).type = X86_OP_REG ∧
        (g.getOp 1).type = X86_OP_REG := by
  unfold gadgetLookupOpType
  rw [List.mem_filter]
  simp only [Bool.and_eq_true, Bool.not_eq_true', bne_eq_false_iff_eq, Bool.and_eq_false_imp,
    bne_iff_ne, ne_eq]
  constructor
  · rintro ⟨hm, ⟨h1, h2⟩, h3⟩
    exact ⟨hm, h1, h2.symm, (h3 (by decide)).symm⟩
  · rintro ⟨hm, h1, h2, h3⟩
    exact ⟨hm, ⟨h1, h2.symm⟩, fun _ => h3.symm⟩

/-- The edges of the graph, characterised: `(r1, r2)` is added if and only if some gadget of
the table has class `REG_XCHG` and some XCHG gadget of the table has the register operands
`r1`, `r2` in this order. -/
theorem buildXchgGraph_edge_iff (a : BinaryAutopsy) (r1 r2 : x86_reg) :
    (r1, r2) ∈ (buildXchgGraph a).xgraph.edges ↔
      (∃ g ∈ a.Microgadgets, g.Class = REG_XCHG) ∧
      ∃ g ∈ a.Microgadgets, g.getID = X86_INS_XCHG ∧ (g.getOp 0).type = X86_OP_REG ∧
        (g.getOp 1).type = X86_OP_REG ∧ (g.getOp 0).reg = r1 ∧ (g.getOp 1).reg = r2 := by
  rw [buildXchgGraph_edges]
  have hgate : (gadgetLookupClass a.Microgadgets REG_XCHG).length > 0 ↔
      ∃ g ∈ a.Microgadgets, g.Class = REG_XCHG := by
    unfold gadgetLookupClass
    rw [gt_iff_lt, List.length_pos_iff_exists_mem]
    simp [List.mem_filter]
  by_cases hgt : (gadgetLookupClass a.Microgadgets REG_XCHG).length > 0
  · rw [if_pos hgt, List.mem_map]
    constructor
    · rintro ⟨g, hg, he⟩
      rw [mem_gadgetLookupOpType_xchg] at hg
      simp only [Prod.mk.injEq] at he
      exact ⟨hgate.mp hgt, g, hg.1, hg.2.1, hg.2.2.1, hg.2.2.2, he.1, he.2⟩
    · rintro ⟨_, g, hm, h1, h2, h3, h4, h5⟩
      exact ⟨g, (mem_gadgetLookupOpType_xchg _ g).mpr ⟨hm, h1, h2, h3⟩, by rw [h4, h5]⟩
  · rw [if_neg hgt]
    constructor
    · intro h; cases h
    · rintro ⟨h, _⟩
      exact absurd (hgate.mpr h) hgt

/-- C9, the code at a failing input: the section bytes `87 C1 C3 87 C0 C3`
(`xchg ecx, eax; ret; xchg eax, eax; ret`), classes initially `UNDEFINED`.  Both gadgets
survive the filter, only the first has class `REG_XCHG`; the loop of `buildXchgGraph` runs
over the lookup by operand kinds, so it also adds an edge between EAX and EAX, for which no
gadget of class `REG_XCHG` exists. -/
theorem selfloop_without_reg_xchg_gadget :
    (dissectGadgets (exampleBinary [0x87, 0xc1, 0xc3, 0x87, 0xc0, 0xc3] UNDEFINED)).xgraph.edges =
        [(X86_REG_ECX, X86_REG_EAX), (X86_REG_EAX, X86_REG_EAX)] ∧
    (dissectGadgets (exampleBinary [0x87, 0xc1, 0xc3, 0x87, 0xc0, 0xc3]
        UNDEFINED)).xgraph.hasEdge X86_REG_EAX X86_REG_EAX ∧
    ¬ ∃ g ∈ (dissectGadgets (exampleBinary [0x87, 0xc1, 0xc3, 0x87, 0xc0, 0xc3]
        UNDEFINED)).Microgadgets,
      g.Class = REG_XCHG ∧ (g.getOp 0).reg = X86_REG_EAX ∧ (g.getOp 1).reg = X86_REG_EAX := by
  decide

/-- C10 refuted as stated: for the section bytes `86 C1 C3` (`xchg cl, al; ret`) the gadget
is classified `REG_XCHG`, survives the filter, and `buildXchgGraph` adds the edge (CL, AL),
whose endpoints are 8-bit registers. -/
theorem narrow_register_edge_counterexample :
    ∃ e ∈ (dissectGadgets (exampleBinary [0x86, 0xc1, 0xc3] UNDEFINED)).xgraph.edges,
      ¬ (e.1 ≠ e.2 ∧ isGPR32NoESP e.1 ∧ isGPR32NoESP e.2) := by
  decide

/-- C10 amended. Every edge `(r1, r2)` that `buildXchgGraph` adds on a filtered table joins
the two register operands of a surviving XCHG gadget, and neither endpoint is ESP.  (The
width of the registers is not restricted.) -/
theorem edge_endpoints (a : BinaryAutopsy) (r1 r2 : x86_reg)
    (he : (r1, r2) ∈ (buildXchgGraph (applyGadgetFilters a)).xgraph.edges) :
    (∃ g ∈ (applyGadgetFilters a).Microgadgets, g.getID = X86_INS_XCHG ∧
        (g.getOp 0).type = X86_OP_REG ∧ (g.getOp 1).type = X86_OP_REG ∧
        (g.getOp 0).reg = r1 ∧ (g.getOp 1).reg = r2) ∧
      r1 ≠ X86_REG_ESP ∧ r2 ≠ X86_REG_ESP := by
  rw [buildXchgGraph_edge_iff] at he
  obtain ⟨_, g, hm, h1, h2, h3, h4, h5⟩ := he
  have hx := ((applyGadgetFilters_mem a g).mp hm).2
  have hnot : ¬ filteredOut g := by
    intro h
    have := (excluded_iff_filteredOut g).mpr h
    rw [hx] at this
    cases this
  refine ⟨⟨g, hm, h1, h2, h3, h4, h5⟩, ?_, ?_⟩
  · intro h
    exact hnot (Or.inl ⟨g.getOp 0, by simp [Microgadget.operands], Or.inl ⟨h2, by rw [h4, h]⟩⟩)
  · intro h
    exact hnot (Or.inl ⟨g.getOp 1, by simp [Microgadget.operands], Or.inl ⟨h3, by rw [h5, h]⟩⟩)

/-- Witness of C10 amended (scenario S2): the edge (ECX, EAX) of the gadget `xchg ecx, eax`. -/
theorem edge_endpoints_witness :
    (∃ g ∈ (applyGadgetFilters (tableOf [gadgetOf [0x87, 0xc1, 0xc3] REG_XCHG])).Microgadgets,
        g.getID = X86_INS_XCHG ∧
        (g.getOp 0).type = X86_OP_REG ∧ (g.getOp 1).type = X86_OP_REG ∧
        (g.getOp 0).reg = X86_REG_ECX ∧ (g.getOp 1).reg = X86_REG_EAX) ∧
      X86_REG_ECX ≠ X86_REG_ESP ∧ X86_REG_EAX ≠ X86_REG_ESP :=
  edge_endpoints (tableOf [gadgetOf [0x87, 0xc1, 0xc3] REG_XCHG]) X86_REG_ECX X86_REG_EAX
    (by decide)

/-! ## C16, C17: the lookups by registers and by key -/

/-- C16. Lookup by registers: `gadgetLookup(opcode, reg0, reg1)` returns, in table order,
exactly the gadgets whose opcode is the given one, whose first operand is the register `reg0`
and whose second operand is the register `reg1`; when `reg1` is the invalid register the
second operand is not constrained, so gadgets with a single operand match. -/
theorem lookup_by_registers (M : List Microgadget) (insn : x86_insn) (reg0 reg1 : x86_reg) :
    gadgetLookupReg M insn reg0 reg1 =
        M.filter (fun g => decide (matchesRegs insn reg0 reg1 g)) ∧
      (∀ g, g ∈ gadgetLookupReg M insn reg0 reg1 ↔ g ∈ M ∧ matchesRegs insn reg0 reg1 g) ∧
      (∀ g, g ∈ gadgetLookupReg M insn reg0 X86_REG_INVALID ↔
        g ∈ M ∧ g.getID = insn ∧ (g.getOp 0).type = X86_OP_REG ∧ (g.getOp 0).reg = reg0) := by
  have hf : ∀ r1, gadgetLookupReg M insn reg0 r1 =
      M.filter (fun g => decide (matchesRegs insn reg0 r1 g)) := by
    intro r1
    unfold gadgetLookupReg
    congr 1
    funext g
    unfold matchesRegs
    rw [Bool.eq_iff_iff]
    simp only [Bool.and_eq_true, Bool.or_eq_true, beq_iff_eq, decide_eq_true_eq]
    tauto
  refine ⟨hf reg1, ?_, ?_⟩
  · intro g
    rw [hf, List.mem_filter, decide_eq_true_eq]
  · intro g
    rw [hf, List.mem_filter, decide_eq_true_eq]
    unfold matchesRegs
    simp

/-- C17. Lookup by key: `gadgetLookup(key)` returns the null pointer if and only if no gadget
of the table has the key; otherwise it returns a gadget of the table whose key is the
argument, and no gadget before it in table order has that key. -/
theorem lookup_by_key (M : List Microgadget) (k : String) :
    (gadgetLookup M k = none ↔ ∀ g ∈ M, g.asmInstr ≠ k) ∧
      ∀ g, gadgetLookup M k = some g →
        g ∈ M ∧ g.asmInstr = k ∧
          ∃ before after, M = before ++ g :: after ∧ ∀ g2 ∈ before, g2.asmInstr ≠ k := by
  unfold gadgetLookup
  constructor
  · rw [List.find?_eq_none]
    simp
  · intro g hg
    refine ⟨List.mem_of_find?_eq_some hg, by simpa using List.find?_some hg, ?_⟩
    rw [List.find?_eq_some] at hg
    obtain ⟨_, before, after, hM, hb⟩ := hg
    refine ⟨before, after, hM, ?_⟩
    intro g2 hg2
    simpa using hb g2 hg2

/-- Witness of C17 on the table `push esp`, `pop eax`: the key `pop eax;` is found at the
second position, the key `nop ;` is not found. -/
theorem lookup_by_key_witness :
    gadgetOf [0x58, 0xc3] REG_INIT ∈
        [gadgetOf [0x54, 0xc3] UNDEFINED, gadgetOf [0x58, 0xc3] REG_INIT] ∧
      (gadgetOf [0x58, 0xc3] REG_INIT).asmInstr = "pop eax;" ∧
      ∃ before after,
        [gadgetOf [0x54, 0xc3] UNDEFINED, gadgetOf [0x58, 0xc3] REG_INIT] =
          before ++ gadgetOf [0x58, 0xc3] REG_INIT :: after ∧
        ∀ g2 ∈ before, g2.asmInstr ≠ "pop eax;" :=
  (lookup_by_key [gadgetOf [0x54, 0xc3] UNDEFINED, gadgetOf [0x58, 0xc3] REG_INIT]
    "pop eax;").2 (gadgetOf [0x58, 0xc3] REG_INIT) (by decide)

/-- Witness of C16 on the table `xchg ecx, eax`, `pop eax`: the lookup for XCHG with the
registers ECX, EAX returns the first gadget, the lookup for POP with EAX and a free second
operand returns the one-operand gadget. -/
theorem lookup_by_registers_witness :
    gadgetOf [0x87, 0xc1, 0xc3] REG_XCHG ∈
        gadgetLookupReg [gadgetOf [0x87, 0xc1, 0xc3] REG_XCHG, gadgetOf [0x58, 0xc3] REG_INIT]
          X86_INS_XCHG X86_REG_ECX X86_REG_EAX ∧
      gadgetOf [0x58, 0xc3] REG_INIT ∈
        gadgetLookupReg [gadgetOf [0x87, 0xc1, 0xc3] REG_XCHG, gadgetOf [0x58, 0xc3] REG_INIT]
          X86_INS_POP X86_REG_EAX X86_REG_INVALID :=
  ⟨((lookup_by_registers [gadgetOf [0x87, 0xc1, 0xc3] REG_XCHG, gadgetOf [0x58, 0xc3] REG_INIT]
      X86_INS_XCHG X86_REG_ECX X86_REG_EAX).2.1 (gadgetOf [0x87, 0xc1, 0xc3] REG_XCHG)).mpr
      (by decide),
   ((lookup_by_registers [gadgetOf [0x87, 0xc1, 0xc3] REG_XCHG, gadgetOf [0x58, 0xc3] REG_INIT]
      X86_INS_POP X86_REG_EAX X86_REG_INVALID).2.2 (gadgetOf [0x58, 0xc3] REG_INIT)).mpr
      (by decide)⟩

/-! ## C18: the format of the key -/

theorem asmInstrOf_two (instructions : List cs_insn) :
    asmInstrOf instructions 2 =
      (instructions.getD 0 default).mnemonic ++ " " ++
        (instructions.getD 0 default).op_str ++ ";" := by
  unfold asmInstrOf
  simp [List.range_succ]

theorem decodingAt_key (bin : Binary) (i d : Nat) (c : Decoding)
    (h : decodingAt bin i d = some c) :
    c.key = (c.instructions.getD 0 default).mnemonic ++ " " ++
      (c.instructions.getD 0 default).op_str ++ ";" := by
  have hlen := (decodingAt_some bin i d c h).2.1
  unfold decodingAt at h
  split at h
  · cases h
    simp only at hlen ⊢
    rw [hlen, asmInstrOf_two]
  · cases h

/-- C18. Mnemonic key format: every gadget pushed by the miner (mining into an empty table)
has as key the mnemonic of the first decoded instruction, one space, its operand string and a
semicolon; the second instruction, the RET, contributes nothing. -/
theorem key_format (bin : Binary) (a : BinaryAutopsy) (g : Microgadget)
    (hempty : a.Microgadgets = []) (hg : g ∈ (dumpGadgets bin a).Microgadgets) :
    g.asmInstr = (g.Instr.getD 0 default).mnemonic ++ " " ++
      (g.Instr.getD 0 default).op_str ++ ";" := by
  rw [dumpGadgets_Microgadgets] at hg
  rcases mem_foldl_insert bin g _ _ hg with h | ⟨c, hc, hI, hk⟩
  · rw [hempty] at h; cases h
  · obtain ⟨_, _, i, _, _, d, _, hdc⟩ := mem_acceptedDecodings bin _ c hc
    rw [hk, hI]
    exact decodingAt_key bin i d c hdc

/-- Witness of C18 (scenario S1): the section bytes `58 C3` give the key `pop eax;`. -/
theorem key_format_witness :
    gadgetOf [0x58, 0xc3] UNDEFINED ∈
        (dumpGadgets (exampleBinary [0x58, 0xc3] UNDEFINED) BinaryAutopsy.fresh).Microgadgets ∧
      (gadgetOf [0x58, 0xc3] UNDEFINED).asmInstr = "pop" ++ " " ++ "eax" ++ ";" ∧
      (gadgetOf [0x58, 0xc3] UNDEFINED).asmInstr = "pop eax;" :=
  ⟨by decide,
   key_format (exampleBinary [0x58, 0xc3] UNDEFINED) BinaryAutopsy.fresh
    (gadgetOf [0x58, 0xc3] UNDEFINED) rfl (by decide),
   by decide⟩

/-! ## Registers that can be initialised: non-empty tables -/

theorem canInitReg_table (bin : Binary) (a : BinaryAutopsy) (r : x86_reg)
    (h : a.Microgadgets ≠ []) : (canInitReg bin a r).1 = a := by
  unfold canInitReg
  have : (a.Microgadgets.length == 0) = false := by
    simpa using h
  simp [this]

theorem canInitReg_iff (bin : Binary) (a : BinaryAutopsy) (r : x86_reg) :
    (canInitReg bin a r).2 = true ↔
      ∃ g ∈ (canInitReg bin a r).1.Microgadgets,
        g.Class = REG_INIT ∧ (g.getOp 0).reg = r := by
  unfold canInitReg
  simp only [List.any_eq_true, Bool.and_eq_true, beq_iff_eq]

/-- What holds of `canInitReg` on every object: `canInitReg(r)` returns true if and only if
the table it scans contains a gadget of class `REG_INIT` whose first operand register is `r`.
The table scanned is the table of the object, which the call leaves as it is, when that table
is not empty; an empty table is first filled by `dumpGadgets`. -/
theorem canInitReg_scanned_table (bin : Binary) (a : BinaryAutopsy) (r : x86_reg) :
    ((canInitReg bin a r).2 = true ↔
        ∃ g ∈ (canInitReg bin a r).1.Microgadgets,
          g.Class = REG_INIT ∧ (g.getOp 0).reg = r) ∧
      (a.Microgadgets ≠ [] →
        (canInitReg bin a r).1 = a ∧
        ((canInitReg bin a r).2 = true ↔
          ∃ g ∈ a.Microgadgets, g.Class = REG_INIT ∧ (g.getOp 0).reg = r)) := by
  refine ⟨canInitReg_iff bin a r, fun h => ⟨canInitReg_table bin a r h, ?_⟩⟩
  have h2 := canInitReg_iff bin a r
  rw [canInitReg_table bin a r h] at h2
  exact h2

/-- Scenario S1: with the single gadget `pop eax;` of class `REG_INIT`,
`canInitReg(EAX)` is true and `canInitReg(ECX)` is false. -/
theorem canInitReg_scanned_table_example :
    (canInitReg (exampleBinary [0x58, 0xc3] UNDEFINED)
        (dissectGadgets (exampleBinary [0x58, 0xc3] UNDEFINED)) X86_REG_EAX).2 = true ∧
      ¬ (canInitReg (exampleBinary [0x58, 0xc3] UNDEFINED)
        (dissectGadgets (exampleBinary [0x58, 0xc3] UNDEFINED)) X86_REG_ECX).2 = true :=
  ⟨(((canInitReg_scanned_table (exampleBinary [0x58, 0xc3] UNDEFINED)
      (dissectGadgets (exampleBinary [0x58, 0xc3] UNDEFINED)) X86_REG_EAX).2
        (by decide)).2).mpr (by decide),
   fun h => absurd ((((canInitReg_scanned_table (exampleBinary [0x58, 0xc3] UNDEFINED)
      (dissectGadgets (exampleBinary [0x58, 0xc3] UNDEFINED)) X86_REG_ECX).2
        (by decide)).2).mp h) (by decide)⟩

/-- Where `getInitialisableRegs` agrees with `canInitReg`: a register occurs in the result
of `getInitialisableRegs()` if and only if `canInitReg` returns true for it when both are
asked about the table `canInitReg` scans, which is the table of the object when that is not
empty. -/
theorem initialisable_agrees_scanned_table (bin : Binary) (a : BinaryAutopsy) (r : x86_reg) :
    (r ∈ getInitialisableRegs (canInitReg bin a r).1 ↔ (canInitReg bin a r).2 = true) ∧
      (a.Microgadgets ≠ [] →
        (r ∈ getInitialisableRegs a ↔ (canInitReg bin a r).2 = true)) := by
  have key : ∀ b : BinaryAutopsy, r ∈ getInitialisableRegs b ↔
      ∃ g ∈ b.Microgadgets, g.Class = REG_INIT ∧ (g.getOp 0).reg = r := by
    intro b
    unfold getInitialisableRegs gadgetLookupClass
    simp only [List.mem_map, List.mem_filter, beq_iff_eq]
    constructor
    · rintro ⟨g, ⟨hm, hc⟩, hr⟩
      exact ⟨g, hm, hc, hr⟩
    · rintro ⟨g, hm, hc, hr⟩
      exact ⟨g, ⟨hm, hc⟩, hr⟩
  refine ⟨?_, fun h => ?_⟩
  · rw [key, canInitReg_iff]
  · have h2 := canInitReg_iff bin a r
    rw [canInitReg_table bin a r h] at h2
    rw [key, h2]

/-- Scenario S1: with the single gadget `pop eax;` the result of
`getInitialisableRegs()` is exactly EAX, for which `canInitReg` is true. -/
theorem initialisable_agrees_scanned_table_example :
    getInitialisableRegs (dissectGadgets (exampleBinary [0x58, 0xc3] UNDEFINED)) =
        [X86_REG_EAX] ∧
      (canInitReg (exampleBinary [0x58, 0xc3] UNDEFINED)
        (dissectGadgets (exampleBinary [0x58, 0xc3] UNDEFINED)) X86_REG_EAX).2 = true :=
  ⟨by decide,
   ((initialisable_agrees_scanned_table (exampleBinary [0x58, 0xc3] UNDEFINED)
      (dissectGadgets (exampleBinary [0x58, 0xc3] UNDEFINED)) X86_REG_EAX).2
        (by decide)).mp (by decide)⟩

/-! ## C19, C20: the symbol table -/

theorem scanSymbols_ok (l : List asymbol) :
    ∀ (S S2 : List Symbol), scanSymbols l S = Except.ok S2 →
      S2.map (fun s => (s.Label, s.Address)) =
          S.map (fun s => (s.Label, s.Address)) ++
            (l.filter (fun sym => decide (eligible sym))).map (fun sym => (sym.name, sym.value)) ∧
        S2.length = S.length + (l.filter (fun sym => decide (eligible sym))).length := by
  induction l with
  | nil =>
    intro S S2 h
    unfold scanSymbols at h
    cases h
    simp
  | cons sym rest ih =>
    intro S S2 h
    unfold scanSymbols at h
    by_cases hfg : sym.flags &&& BSF_FUNCTION ≠ 0 ∧ sym.flags &&& BSF_GLOBAL ≠ 0
    · rw [if_pos hfg] at h
      by_cases hn : (sym.name == "_init" || sym.name == "_fini") = true
      · rw [if_pos hn] at h
        have hne : ¬ eligible sym := by
          unfold eligible
          simp only [Bool.or_eq_true, beq_iff_eq] at hn
          tauto
        rw [List.filter_cons_of_neg (by simpa using hne)]
        exact ih S S2 h
      · rw [if_neg hn] at h
        have he : eligible sym := by
          unfold eligible
          simp only [Bool.or_eq_true, beq_iff_eq, not_or] at hn
          exact ⟨hfg, hn.1, hn.2⟩
        rw [List.filter_cons_of_pos (by simpa using he)]
        cases hv : versionString sym with
        | none => rw [hv] at h; cases h
        | some v =>
          rw [hv] at h
          obtain ⟨h1, h2⟩ := ih _ S2 h
          constructor
          · rw [h1]; simp
          · rw [h2]; simp; omega
    · rw [if_neg hfg] at h
      have hne : ¬ eligible sym := fun he => hfg he.1
      rw [List.filter_cons_of_neg (by simpa using hne)]
      exact ih S S2 h

theorem scanSymbols_total (l : List asymbol) :
    ∀ (S : List Symbol), (∀ sym ∈ l, eligible sym → versionString sym ≠ none) →
      ∃ S2, scanSymbols l S = Except.ok S2 := by
  induction l with
  | nil => intro S _; exact ⟨S, rfl⟩
  | cons sym rest ih =>
    intro S hv
    have hrest : ∀ sym2 ∈ rest, eligible sym2 → versionString sym2 ≠ none :=
      fun sym2 hm => hv sym2 (List.mem_cons_of_mem _ hm)
    unfold scanSymbols
    by_cases hfg : sym.flags &&& BSF_FUNCTION ≠ 0 ∧ sym.flags &&& BSF_GLOBAL ≠ 0
    · rw [if_pos hfg]
      by_cases hn : (sym.name == "_init" || sym.name == "_fini") = true
      · rw [if_pos hn]; exact ih S hrest
      · rw [if_neg hn]
        have he : eligible sym := by
          unfold eligible
          simp only [Bool.or_eq_true, beq_iff_eq, not_or] at hn
          exact ⟨hfg, hn.1, hn.2⟩
        cases hvs : versionString sym with
        | none => exact absurd hvs (hv sym (List.mem_cons_self _ _) he)
        | some v => exact ih _ hrest
    · rw [if_neg hfg]; exact ih S hrest

/-- An eligible symbol for which no version string is retrieved stops the loop: the
conversion of the null pointer is reached before anything is stored for it. -/
theorem scanSymbols_null (l : List asymbol) :
    ∀ (S : List Symbol), (∃ sym ∈ l, eligible sym ∧ versionString sym = none) →
      scanSymbols l S = Except.error DumpFailure.NullVersion := by
  induction l with
  | nil => intro S h; obtain ⟨_, hm, _⟩ := h; cases hm
  | cons sym rest ih =>
    intro S h
    obtain ⟨sym2, hm, he2, hv2⟩ := h
    unfold scanSymbols
    by_cases hfg : sym.flags &&& BSF_FUNCTION ≠ 0 ∧ sym.flags &&& BSF_GLOBAL ≠ 0
    · rw [if_pos hfg]
      by_cases hn : (sym.name == "_init" || sym.name == "_fini") = true
      · rw [if_pos hn]
        rcases List.mem_cons.mp hm with h1 | h1
        · subst h1
          simp only [Bool.or_eq_true, beq_iff_eq] at hn
          unfold eligible at he2
          tauto
        · exact ih S ⟨sym2, h1, he2, hv2⟩
      · rw [if_neg hn]
        cases hvs : versionString sym with
        | none => rfl
        | some v =>
          rcases List.mem_cons.mp hm with h1 | h1
          · subst h1; rw [hvs] at hv2; cases hv2
          · exact ih _ ⟨sym2, h1, he2, hv2⟩
    · rw [if_neg hfg]
      rcases List.mem_cons.mp hm with h1 | h1
      · subst h1; exact absurd he2.1 hfg
      · exact ih S ⟨sym2, h1, he2, hv2⟩

/-- C19. Symbol eligibility: whenever `dumpDynamicSymbols` returns (on an object whose symbol
table is still empty), the `Symbols` table holds, in symbol-table order, exactly one entry
with the same name and address for each dynamic symbol that is function and global and named
neither `_init` nor `_fini`, and nothing else; and it does return when a version string is
retrieved for every eligible symbol and at least one symbol is eligible. -/
theorem symbol_eligibility (bin : Binary) (asymtab : List asymbol) (a : BinaryAutopsy)
    (hempty : a.Symbols = []) :
    (∀ a2, dumpDynamicSymbols bin asymtab a = Except.ok a2 →
        a2.Symbols.map (fun s => (s.Label, s.Address)) =
          (asymtab.filter (fun sym => decide (eligible sym))).map
            (fun sym => (sym.name, sym.value))) ∧
      ((∀ sym ∈ asymtab, eligible sym → versionString sym ≠ none) →
        (∃ sym ∈ asymtab, eligible sym) →
        ∃ a2, dumpDynamicSymbols bin asymtab a = Except.ok a2) := by
  have hS : (if a.Sections.length == 0 then dumpSections bin a else a).Symbols = [] := by
    split
    · unfold dumpSections
      refine foldl_preserves (fun b => b.Symbols = []) _ ?_ bin.sections a hempty
      intro b x hb
      split <;> simpa using hb
    · exact hempty
  constructor
  · intro a2 h
    unfold dumpDynamicSymbols at h
    simp only [hS] at h
    cases hsc : scanSymbols asymtab [] with
    | error e => rw [hsc] at h; cases h
    | ok S2 =>
      rw [hsc] at h
      simp only at h
      split at h
      · cases h
        simpa using (scanSymbols_ok asymtab [] S2 hsc).1
      · cases h
  · intro hv hex
    obtain ⟨S2, hsc⟩ := scanSymbols_total asymtab [] hv
    have hlen := (scanSymbols_ok asymtab [] S2 hsc).2
    have hpos : S2.length > 0 := by
      obtain ⟨sym, hm, he⟩ := hex
      have : sym ∈ asymtab.filter (fun sym => decide (eligible sym)) := by
        rw [List.mem_filter]; exact ⟨hm, by simpa using he⟩
      have := List.length_pos_of_mem this
      omega
    unfold dumpDynamicSymbols
    simp only [hS, hsc, hpos, if_true]
    exact ⟨_, rfl⟩

/-- Witness of C19: of the five symbols of `exampleSymtab` exactly `printf` and `puts` are
stored, in this order, with their addresses. -/
theorem symbol_eligibility_witness :
    ∃ a2, dumpDynamicSymbols (exampleBinary [0x58, 0xc3] UNDEFINED) exampleSymtab
        BinaryAutopsy.fresh = Except.ok a2 ∧
      a2.Symbols.map (fun s => (s.Label, s.Address)) = [("printf", 0x4f0), ("puts", 0x5a0)] := by
  obtain ⟨h1, h2⟩ := symbol_eligibility (exampleBinary [0x58, 0xc3] UNDEFINED) exampleSymtab
    BinaryAutopsy.fresh rfl
  obtain ⟨a2, ha2⟩ := h2 (by decide) (by decide)
  refine ⟨a2, ha2, ?_⟩
  rw [h1 a2 ha2]
  decide

/-- C20, the code at failing inputs: an eligible symbol `printf` for which the version query
returns the null pointer (a binary without version information), and an eligible synthetic
symbol, for which the query is not made.  In both cases `versionString` is null when
`Symbol(symbolName, versionString, addr)` converts it to `std::string`: the call does not
return and no symbol with an empty version is stored. -/
theorem null_version_aborts :
    dumpDynamicSymbols (exampleBinary [0x58, 0xc3] UNDEFINED)
        [{ flags := BSF_GLOBAL ||| BSF_FUNCTION, name := "printf", value := 0x4f0,
           version := none }]
        BinaryAutopsy.fresh = Except.error DumpFailure.NullVersion ∧
      dumpDynamicSymbols (exampleBinary [0x58, 0xc3] UNDEFINED)
        [{ flags := BSF_GLOBAL ||| BSF_FUNCTION ||| BSF_SYNTHETIC, name := "printf@plt",
           value := 0x3f0, version := some "GLIBC_2.0" }]
        BinaryAutopsy.fresh = Except.error DumpFailure.NullVersion :=
  ⟨rfl, rfl⟩

/-! ## The gadget selected for an edge when the classes are exact -/

theorem head?_filter_eq_find? {α : Type} (p : α → Bool) (l : List α) :
    (l.filter p).head? = l.find? p := by
  induction l with
  | nil => rfl
  | cons x xs ih =>
    by_cases h : p x = true
    · simp [List.filter_cons_of_pos h, List.find?_cons, h]
    · simp only [Bool.not_eq_true] at h
      rw [List.filter_cons_of_neg (by simp [h]), List.find?_cons, h]
      exact ih

theorem gadgetLookupReg_eq_filter (M : List Microgadget) (insn : x86_insn)
    (reg0 reg1 : x86_reg) :
    gadgetLookupReg M insn reg0 reg1 =
      M.filter (fun g => decide (matchesRegs insn reg0 reg1 g)) := by
  unfold gadgetLookupReg
  congr 1
  funext g
  unfold matchesRegs
  rw [Bool.eq_iff_iff]
  simp only [Bool.and_eq_true, Bool.or_eq_true, beq_iff_eq, decide_eq_true_eq]
  tauto

/-- On a table whose classes are exact for `REG_XCHG`, and for two distinct valid registers,
the lookup for XCHG with the registers `u`, `v` returns the gadgets of class `REG_XCHG` with
operand order `(u, v)`. -/
theorem gadgetLookupReg_xchg (M : List Microgadget) (u v : x86_reg) (hclass : exactRegXchg M)
    (huv : u ≠ v) (hv : v ≠ X86_REG_INVALID) :
    gadgetLookupReg M X86_INS_XCHG u v = M.filter (fun g => decide (isRegXchg u v g)) := by
  rw [gadgetLookupReg_eq_filter]
  apply List.filter_congr
  intro g hg
  rw [Bool.eq_iff_iff, decide_eq_true_eq, decide_eq_true_eq]
  unfold matchesRegs isRegXchg
  have hc := hclass g hg
  constructor
  · rintro ⟨hid, ⟨h0, hr0⟩, h1⟩
    rcases h1 with h1 | ⟨h1, hr1⟩
    · exact absurd h1 hv
    · exact ⟨hc.mpr ⟨hid, h0, h1, by rw [hr0, hr1]; exact huv⟩, ⟨h0, hr0⟩, ⟨h1, hr1⟩⟩
  · rintro ⟨hcl, ⟨h0, hr0⟩, ⟨h1, hr1⟩⟩
    exact ⟨(hc.mp hcl).1, ⟨h0, hr0⟩, Or.inr ⟨h1, hr1⟩⟩

theorem xchgGadgetFor_spec (M : List Microgadget) (e : x86_reg × x86_reg)
    (hclass : exactRegXchg M)
    (hne : e.1 ≠ e.2 ∧ e.1 ≠ X86_REG_INVALID ∧ e.2 ≠ X86_REG_INVALID)
    (hex : ∃ g ∈ M, isRegXchg e.1 e.2 g ∨ isRegXchg e.2 e.1 g) :
    ∃ g, xchgGadgetFor M e = some g ∧
      (firstRegXchg M e.1 e.2 = some g ∨
        (firstRegXchg M e.1 e.2 = none ∧ firstRegXchg M e.2 e.1 = some g)) := by
  unfold xchgGadgetFor firstRegXchg
  simp only
  rw [gadgetLookupReg_xchg M e.1 e.2 hclass hne.1 hne.2.2,
    gadgetLookupReg_xchg M e.2 e.1 hclass (fun h => hne.1 h.symm) hne.2.1]
  cases h1 : M.find? (fun g => decide (isRegXchg e.1 e.2 g)) with
  | some g =>
    have hnil : M.filter (fun g => decide (isRegXchg e.1 e.2 g)) ≠ [] := by
      intro hc
      rw [List.filter_eq_nil_iff] at hc
      have hp := List.find?_some h1
      exact hc g (List.mem_of_find?_eq_some h1) hp
    have hlen : ((M.filter (fun g => decide (isRegXchg e.1 e.2 g))).length == 0) = false := by
      simpa using hnil
    refine ⟨g, ?_, Or.inl rfl⟩
    rw [hlen]
    simp only [Bool.false_eq_true, if_false]
    rw [head?_filter_eq_find?, h1]
  | none =>
    rw [List.find?_eq_none] at h1
    have hnil : M.filter (fun g => decide (isRegXchg e.1 e.2 g)) = [] :=
      List.filter_eq_nil_iff.mpr h1
    obtain ⟨g0, hg0, h0⟩ := hex
    have h0b : isRegXchg e.2 e.1 g0 := by
      rcases h0 with h0 | h0
      · exact absurd (by simpa using h0) (h1 g0 hg0)
      · exact h0
    have hsome : (M.find? (fun g => decide (isRegXchg e.2 e.1 g))).isSome = true :=
      List.find?_isSome.mpr ⟨g0, hg0, by simpa using h0b⟩
    obtain ⟨g, hg⟩ := Option.isSome_iff_exists.mp hsome
    refine ⟨g, ?_, Or.inr ⟨rfl, hg⟩⟩
    rw [hnil]
    simp only [List.length_nil, beq_self_eq_true, if_true]
    rw [head?_filter_eq_find?, hg]

theorem gadgetsForPath_spec (M : List Microgadget) (hclass : exactRegXchg M) :
    ∀ path : List (x86_reg × x86_reg),
      (∀ e ∈ path, e.1 ≠ e.2 ∧ e.1 ≠ X86_REG_INVALID ∧ e.2 ≠ X86_REG_INVALID) →
      (∀ e ∈ path, ∃ g ∈ M, isRegXchg e.1 e.2 g ∨ isRegXchg e.2 e.1 g) →
      ∃ gs, gadgetsForPath M path = some gs ∧ gs.length = path.length ∧
        ∀ (i : Nat) (e : x86_reg × x86_reg), path[i]? = some e → ∃ g, gs[i]? = some g ∧
          (firstRegXchg M e.1 e.2 = some g ∨
            (firstRegXchg M e.1 e.2 = none ∧ firstRegXchg M e.2 e.1 = some g)) := by
  intro path
  induction path with
  | nil =>
    intro _ _
    exact ⟨[], rfl, rfl, by intro i e h; simp at h⟩
  | cons e rest ih =>
    intro hne hex
    obtain ⟨gs, hgs, hlen, hsel⟩ := ih (fun e2 h => hne e2 (List.mem_cons_of_mem _ h))
      (fun e2 h => hex e2 (List.mem_cons_of_mem _ h))
    obtain ⟨g, hg, hfirst⟩ := xchgGadgetFor_spec M e hclass (hne e (List.mem_cons_self _ _))
      (hex e (List.mem_cons_self _ _))
    refine ⟨g :: gs, ?_, by simp [hlen], ?_⟩
    · unfold gadgetsForPath
      rw [hg, hgs]
    · intro i e2 hi
      cases i with
      | zero =>
        simp only [List.getElem?_cons_zero, Option.some.injEq] at hi
        subst hi
        exact ⟨g, by simp, hfirst⟩
      | succ j =>
        rw [List.getElem?_cons_succ] at hi
        obtain ⟨g2, hg2, h2⟩ := hsel j e2 hi
        exact ⟨g2, by rw [List.getElem?_cons_succ]; exact hg2, h2⟩

/-- Gadget selection of `getXchgPath` in terms of classes: on a table whose classes are
exact for `REG_XCHG`, when every edge of the list returned by `getPath(a, b)` joins two distinct valid
registers and has a gadget of class `REG_XCHG` in one of the two operand orders, `getXchgPath`
returns a list of the same length and in the same order whose `i`-th element is, for the
`i`-th edge `(u, v)`, the first gadget of the table of class `REG_XCHG` with operand order
`(u, v)` or, when there is none, the first one with operand order `(v, u)`. -/
theorem xchg_path_selection_exact (a : BinaryAutopsy) (x y : x86_reg)
    (hclass : exactRegXchg a.Microgadgets)
    (hne : ∀ e ∈ a.xgraph.getPath x y,
      e.1 ≠ e.2 ∧ e.1 ≠ X86_REG_INVALID ∧ e.2 ≠ X86_REG_INVALID)
    (hex : ∀ e ∈ a.xgraph.getPath x y,
      ∃ g ∈ a.Microgadgets, isRegXchg e.1 e.2 g ∨ isRegXchg e.2 e.1 g) :
    ∃ gs, getXchgPath a x y = some gs ∧ gs.length = (a.xgraph.getPath x y).length ∧
      ∀ (i : Nat) (e : x86_reg × x86_reg), (a.xgraph.getPath x y)[i]? = some e → ∃ g, gs[i]? = some g ∧
        (firstRegXchg a.Microgadgets e.1 e.2 = some g ∨
          (firstRegXchg a.Microgadgets e.1 e.2 = none ∧
            firstRegXchg a.Microgadgets e.2 e.1 = some g)) :=
  gadgetsForPath_spec a.Microgadgets hclass (a.xgraph.getPath x y) hne hex

/-! ## Breadth-first search: what is recorded is right -/

theorem foldl_preserves_mem {α β : Type} (P : β → Prop) (f : β → α → β) :
    ∀ (l : List α), (∀ b x, x ∈ l → P b → P (f b x)) → ∀ b, P b → P (l.foldl f b) := by
  intro l
  induction l with
  | nil => intro _ b hb; exact hb
  | cons x xs ih =>
    intro step b hb
    rw [List.foldl_cons]
    exact ih (fun b y hy => step b y (List.mem_cons_of_mem _ hy)) _
      (step b x (List.mem_cons_self _ _) hb)

theorem hasEdge_symm (G : XchgGraph) (u v : x86_reg) (h : G.hasEdge u v) : G.hasEdge v u := by
  unfold XchgGraph.hasEdge at h ⊢
  exact h.symm

theorem mem_neighbours (G : XchgGraph) (u w : x86_reg) :
    w ∈ G.neighbours u ↔ G.hasEdge u w := by
  unfold XchgGraph.neighbours XchgGraph.hasEdge
  rw [List.mem_flatMap]
  constructor
  · rintro ⟨e, he, hw⟩
    rw [List.mem_append] at hw
    rcases hw with hw | hw
    · split at hw
      · rename_i h1
        rw [List.mem_singleton] at hw
        left
        rw [hw, ← h1]
        exact he
      · cases hw
    · split at hw
      · rename_i h2
        rw [List.mem_singleton] at hw
        right
        rw [hw, ← h2]
        exact he
      · cases hw
  · rintro (h | h)
    · exact ⟨(u, w), h, by simp⟩
    · exact ⟨(w, u), h, by simp⟩

theorem any_key_iff (found : List Found) (w : x86_reg) :
    found.any (fun f => f.1 == w) = true ↔ w ∈ foundKeys found := by
  unfold foundKeys
  rw [List.any_eq_true, List.mem_map]
  constructor
  · rintro ⟨f, hf, h⟩
    exact ⟨f, hf, by simpa using h⟩
  · rintro ⟨f, hf, h⟩
    exact ⟨f, hf, by simpa using h⟩

theorem foundKeys_append (l1 l2 : List Found) :
    foundKeys (l1 ++ l2) = foundKeys l1 ++ foundKeys l2 := by
  unfold foundKeys
  exact List.map_append _ _ _

theorem mem_foundKeys_of_mem (found : List Found) (f : Found) (h : f ∈ found) :
    f.1 ∈ foundKeys found := by
  unfold foundKeys
  exact List.mem_map_of_mem _ h

theorem bfsVisit_inv (G : XchgGraph) (found frontier : List Found) (u : Found)
    (st : List Found × List Found) (w : x86_reg) (hu : u ∈ frontier)
    (hw : G.hasEdge u.1 w) (h : LayerInv G found frontier st) :
    LayerInv G found frontier (bfsVisit u st w) := by
  unfold bfsVisit
  split
  · exact h
  · rename_i hany
    have hnot : w ∉ foundKeys st.1 := fun hc => hany ((any_key_iff st.1 w).mpr hc)
    obtain ⟨h1, h2, h3⟩ := h
    refine ⟨?_, ?_, ?_⟩
    · simp only
      rw [h1, List.append_assoc]
    · intro f hf
      simp only at hf
      rw [List.mem_append, List.mem_singleton] at hf
      rcases hf with hf | hf
      · exact h2 f hf
      · refine ⟨u, hu, ?_, ?_, ?_⟩
        · rw [hf]; exact hw
        · rw [hf]
        · rw [hf]
          intro hc
          apply hnot
          rw [h1, foundKeys_append]
          exact List.mem_append_left _ hc
    · simp only
      rw [foundKeys_append, List.nodup_append]
      refine ⟨h3, by simp [foundKeys], ?_⟩
      intro r hr hr2
      simp only [foundKeys, List.map_cons, List.map_nil, List.mem_singleton] at hr2
      rw [hr2] at hr
      exact hnot hr

theorem bfsExpand_inv (G : XchgGraph) (found frontier : List Found) (u : Found)
    (st : List Found × List Found) (hu : u ∈ frontier) (h : LayerInv G found frontier st) :
    LayerInv G found frontier (bfsExpand G st u) := by
  unfold bfsExpand
  exact foldl_preserves_mem (LayerInv G found frontier) (bfsVisit u) (G.neighbours u.1)
    (fun b w hw hb => bfsVisit_inv G found frontier u b w hu ((mem_neighbours G u.1 w).mp hw) hb)
    st h

theorem bfsLayer_inv (G : XchgGraph) (found frontier : List Found)
    (hnd : (foundKeys found).Nodup) :
    LayerInv G found frontier (bfsLayer G found frontier) := by
  unfold bfsLayer
  refine foldl_preserves_mem (LayerInv G found frontier) (bfsExpand G) frontier
    (fun b u hu hb => bfsExpand_inv G found frontier u b hu hb) (found, []) ?_
  unfold LayerInv
  refine ⟨by simp, ?_, hnd⟩
  intro f hf
  cases hf

/-! ## Breadth-first search: every neighbour of the frontier is recorded -/

theorem bfsVisit_mono (u : Found) (st : List Found × List Found) (w r : x86_reg)
    (h : r ∈ foundKeys st.1) : r ∈ foundKeys (bfsVisit u st w).1 := by
  unfold bfsVisit
  split
  · exact h
  · simp only
    rw [foundKeys_append]
    exact List.mem_append_left _ h

theorem bfsVisit_covers (u : Found) (st : List Found × List Found) (w : x86_reg) :
    w ∈ foundKeys (bfsVisit u st w).1 := by
  unfold bfsVisit
  split
  · rename_i hany
    exact (any_key_iff st.1 w).mp hany
  · simp only
    rw [foundKeys_append]
    exact List.mem_append_right _ (by simp [foundKeys])

theorem foldl_bfsVisit_covers (u : Found) :
    ∀ (nbrs : List x86_reg) (st : List Found × List Found),
      (∀ r ∈ foundKeys st.1, r ∈ foundKeys (nbrs.foldl (bfsVisit u) st).1) ∧
        ∀ w ∈ nbrs, w ∈ foundKeys (nbrs.foldl (bfsVisit u) st).1 := by
  intro nbrs
  induction nbrs with
  | nil => intro st; exact ⟨fun r hr => hr, fun w hw => by cases hw⟩
  | cons x xs ih =>
    intro st
    rw [List.foldl_cons]
    obtain ⟨hm, hc⟩ := ih (bfsVisit u st x)
    refine ⟨fun r hr => hm r (bfsVisit_mono u st x r hr), ?_⟩
    intro w hw
    rcases List.mem_cons.mp hw with h | h
    · rw [h]; exact hm x (bfsVisit_covers u st x)
    · exact hc w h

theorem foldl_bfsExpand_covers (G : XchgGraph) :
    ∀ (frontier : List Found) (st : List Found × List Found),
      (∀ r ∈ foundKeys st.1, r ∈ foundKeys (frontier.foldl (bfsExpand G) st).1) ∧
        ∀ u ∈ frontier, ∀ w ∈ G.neighbours u.1,
          w ∈ foundKeys (frontier.foldl (bfsExpand G) st).1 := by
  intro frontier
  induction frontier with
  | nil => intro st; exact ⟨fun r hr => hr, fun u hu => by cases hu⟩
  | cons x xs ih =>
    intro st
    rw [List.foldl_cons]
    obtain ⟨hm, hc⟩ := ih (bfsExpand G st x)
    have hx := foldl_bfsVisit_covers x (G.neighbours x.1) st
    refine ⟨fun r hr => hm r (hx.1 r hr), ?_⟩
    intro u hu w hw
    rcases List.mem_cons.mp hu with h | h
    · rw [h] at hw
      exact hm w (hx.2 w hw)
    · exact hc u h w hw

/-! ## Breadth-first search: one distance after the other -/

theorem isChain_snoc (u w : x86_reg) :
    ∀ (p : List (x86_reg × x86_reg)) (x : x86_reg),
      isChain x p u → isChain x (p ++ [(u, w)]) w := by
  intro p
  induction p with
  | nil =>
    intro x h
    unfold isChain at h
    subst h
    exact ⟨rfl, rfl⟩
  | cons e rest ih =>
    intro x h
    unfold isChain at h
    exact ⟨h.1, ih e.2 h.2⟩

theorem find?_key_some (found : List Found) (v : x86_reg) (f : Found)
    (h : found.find? (fun f => f.1 == v) = some f) : f ∈ found ∧ f.1 = v := by
  have hp := List.find?_some h
  exact ⟨List.mem_of_find?_eq_some h, by simpa using hp⟩

theorem find?_of_mem_keys (found : List Found) (v : x86_reg) (h : v ∈ foundKeys found) :
    ∃ f, found.find? (fun f => f.1 == v) = some f := by
  apply Option.isSome_iff_exists.mp
  rw [List.find?_isSome]
  exact List.any_eq_true.mp ((any_key_iff found v).mpr h)

theorem find?_append_left (l1 l2 : List Found) (v : x86_reg) (f : Found)
    (h : l1.find? (fun f => f.1 == v) = some f) :
    (l1 ++ l2).find? (fun f => f.1 == v) = some f := by
  rw [List.find?_append, h]
  rfl

theorem mem_vertices_of_hasEdge (G : XchgGraph) (src u w : x86_reg) (h : G.hasEdge u w) :
    w ∈ vertices G src := by
  unfold vertices
  apply List.mem_cons_of_mem
  rw [List.mem_flatMap]
  rcases h with h | h
  · exact ⟨(u, w), h, by simp⟩
  · exact ⟨(w, u), h, by simp⟩

theorem bfsLayer_BfsInv (G : XchgGraph) (src : x86_reg) (k : Nat)
    (found frontier : List Found) (h : BfsInv G src k found frontier) :
    BfsInv G src (k + 1) (bfsLayer G found frontier).1 (bfsLayer G found frontier).2 := by
  obtain ⟨ha, hb, hc, hd, hnd, hv⟩ := h
  obtain ⟨l1, l2, l3⟩ := bfsLayer_inv G found frontier hnd
  have hcov := (foldl_bfsExpand_covers G frontier (found, [])).2
  have hnew : ∀ f ∈ (bfsLayer G found frontier).2,
      goodEntry G src f ∧ f.2.length = k + 1 ∧ f.1 ∈ vertices G src := by
    intro f hf
    obtain ⟨u, hu, he, hp, hn⟩ := l2 f hf
    obtain ⟨hum, hul⟩ := hb u hu
    obtain ⟨⟨hch, hed, hre⟩, _⟩ := ha u hum
    have hne : u.1 ≠ f.1 := by
      intro hc2
      apply hn
      rw [← hc2]
      exact mem_foundKeys_of_mem found u hum
    refine ⟨⟨?_, ?_, ?_⟩, ?_, mem_vertices_of_hasEdge G src u.1 f.1 he⟩
    · rw [hp]; exact isChain_snoc u.1 f.1 u.2 src hch
    · intro e hem
      rw [hp, List.mem_append, List.mem_singleton] at hem
      rcases hem with hem | hem
      · exact hed e hem
      · rw [hem]; exact ⟨he, hne⟩
    · rw [hp, List.length_append, List.length_singleton]
      exact Reach.step hre he
    · rw [hp, List.length_append, List.length_singleton, hul]
  refine ⟨?_, ?_, ?_, ?_, l3, ?_⟩
  · intro f hf
    rw [l1, List.mem_append] at hf
    rcases hf with hf | hf
    · exact ⟨(ha f hf).1, Nat.le_succ_of_le (ha f hf).2⟩
    · exact ⟨(hnew f hf).1, Nat.le_of_eq (hnew f hf).2.1⟩
  · intro f hf
    refine ⟨?_, (hnew f hf).2.1⟩
    rw [l1]
    exact List.mem_append_right _ hf
  · intro f hf hlen
    rw [l1, List.mem_append] at hf
    rcases hf with hf | hf
    · have := (ha f hf).2
      omega
    · exact hf
  · intro v n hreach hn
    by_cases hle : n ≤ k
    · obtain ⟨f, hfind, hlen⟩ := hd v n hreach hle
      refine ⟨f, ?_, hlen⟩
      rw [l1]
      exact find?_append_left _ _ v f hfind
    · have hnk : n = k + 1 := by omega
      subst hnk
      cases hreach with
      | step hru hedge =>
        rename_i u
        obtain ⟨fu, hfu, hfulen⟩ := hd u k hru (Nat.le_refl k)
        obtain ⟨hfum, hfu1⟩ := find?_key_some found u fu hfu
        by_cases hlt : fu.2.length < k
        · have hre : Reach G src (fu.2.length + 1) v := by
            have := (ha fu hfum).1.2.2
            rw [hfu1] at this
            exact Reach.step this hedge
          obtain ⟨f, hfind, hlen⟩ := hd v (fu.2.length + 1) hre hlt
          refine ⟨f, ?_, by omega⟩
          rw [l1]
          exact find?_append_left _ _ v f hfind
        · have hfk : fu.2.length = k := by omega
          have hfr := hc fu hfum hfk
          have hvn : v ∈ G.neighbours fu.1 := by
            rw [hfu1]; exact (mem_neighbours G u v).mpr hedge
          have hkey := hcov fu hfr v hvn
          obtain ⟨f, hfind⟩ := find?_of_mem_keys _ v hkey
          refine ⟨f, hfind, ?_⟩
          have hfm := (find?_key_some _ v f hfind).1
          change f ∈ (bfsLayer G found frontier).1 at hfm
          rw [l1, List.mem_append] at hfm
          rcases hfm with hfm | hfm
          · exact Nat.le_succ_of_le (ha f hfm).2
          · exact Nat.le_of_eq (hnew f hfm).2.1
  · intro f hf
    rw [l1, List.mem_append] at hf
    rcases hf with hf | hf
    · exact hv f hf
    · exact (hnew f hf).2.2

theorem BfsInv_init (G : XchgGraph) (src : x86_reg) :
    BfsInv G src 0 [(src, [])] [(src, [])] := by
  refine ⟨?_, ?_, ?_, ?_, ?_, ?_⟩
  · intro f hf
    rw [List.mem_singleton] at hf
    subst hf
    refine ⟨?_, Nat.le_refl 0⟩
    unfold goodEntry
    refine ⟨rfl, ?_, Reach.zero⟩
    intro e he
    cases he
  · intro f hf
    rw [List.mem_singleton] at hf
    subst hf
    exact ⟨List.mem_singleton.mpr rfl, rfl⟩
  · intro f hf _
    exact hf
  · intro v n hreach hn
    have hn0 : n = 0 := by omega
    subst hn0
    cases hreach
    exact ⟨(src, []), by simp, Nat.le_refl 0⟩
  · simp [foundKeys]
  · intro f hf
    rw [List.mem_singleton] at hf
    subst hf
    exact List.mem_cons_self _ _

/-! ## Breadth-first search: the result -/

theorem length_endpoints (l : List (x86_reg × x86_reg)) :
    (l.flatMap (fun e => [e.1, e.2])).length = 2 * l.length := by
  induction l with
  | nil => rfl
  | cons e rest ih =>
    rw [List.flatMap_cons, List.length_append, ih]
    simp only [List.length_cons, List.length_nil]
    omega

theorem found_length_le (G : XchgGraph) (src : x86_reg) (k : Nat)
    (found frontier : List Found) (h : BfsInv G src k found frontier) :
    found.length ≤ (vertices G src).length := by
  obtain ⟨_, _, _, _, hnd, hv⟩ := h
  have hsub : foundKeys found ⊆ vertices G src := by
    intro r hr
    unfold foundKeys at hr
    rw [List.mem_map] at hr
    obtain ⟨f, hf, hfr⟩ := hr
    rw [← hfr]
    exact hv f hf
  have := (List.Nodup.subperm hnd hsub).length_le
  unfold foundKeys at this
  rw [List.length_map] at this
  exact this

theorem bfsLoop_inv (G : XchgGraph) (src : x86_reg) :
    ∀ (n k : Nat) (found frontier : List Found), BfsInv G src k found frontier →
      (frontier ≠ [] → (vertices G src).length + 1 ≤ n + found.length) →
      ∃ k2, BfsInv G src k2 (bfsLoop G n found frontier) [] := by
  intro n
  induction n with
  | zero =>
    intro k found frontier h hfuel
    have hle := found_length_le G src k found frontier h
    have hnil : frontier = [] := by
      by_contra hc
      have := hfuel hc
      omega
    subst hnil
    exact ⟨k, h⟩
  | succ n ih =>
    intro k found frontier h hfuel
    unfold bfsLoop
    by_cases hemp : frontier.isEmpty = true
    · rw [if_pos hemp]
      have hnil : frontier = [] := List.isEmpty_iff.mp hemp
      subst hnil
      exact ⟨k, h⟩
    · rw [if_neg hemp]
      have hne : frontier ≠ [] := fun hc => hemp (List.isEmpty_iff.mpr hc)
      have hstep := bfsLayer_BfsInv G src k found frontier h
      obtain ⟨l1, _, _⟩ := bfsLayer_inv G found frontier h.2.2.2.2.1
      apply ih (k + 1) _ _ hstep
      intro hnext
      have h0 := hfuel hne
      have hpos : 0 < (bfsLayer G found frontier).2.length := List.length_pos.mpr hnext
      have hlen : (bfsLayer G found frontier).1.length =
          found.length + (bfsLayer G found frontier).2.length := by
        rw [l1, List.length_append]
      omega

theorem bfs_inv (G : XchgGraph) (src : x86_reg) : ∃ k, BfsInv G src k (G.bfs src) [] := by
  unfold XchgGraph.bfs
  apply bfsLoop_inv G src _ 0 _ _ (BfsInv_init G src)
  intro _
  unfold vertices
  rw [List.length_cons, length_endpoints]
  simp only [List.length_singleton]
  omega

/-- Everything the search records is right: a chain of edges of the graph from the source to
the recorded register. -/
theorem bfs_sound (G : XchgGraph) (src : x86_reg) (f : Found) (hf : f ∈ G.bfs src) :
    goodEntry G src f := by
  obtain ⟨k, h⟩ := bfs_inv G src
  exact (h.1 f hf).1

/-- The search is complete and shortest: a register reached from the source by `n` edges is
recorded with at most `n` edges. -/
theorem bfs_complete (G : XchgGraph) (src v : x86_reg) (n : Nat) (h : Reach G src n v) :
    ∃ f, (G.bfs src).find? (fun f => f.1 == v) = some f ∧ f.2.length ≤ n := by
  obtain ⟨k, ha, _, hc, hd, _, _⟩ := bfs_inv G src
  have hlt : ∀ f ∈ G.bfs src, f.2.length < k := by
    intro f hf
    have h1 := (ha f hf).2
    have h2 : f.2.length ≠ k := fun he => by
      have := hc f hf he
      cases this
    omega
  induction h with
  | zero => exact hd src 0 Reach.zero (Nat.zero_le k)
  | step hru hedge ih =>
    rename_i m u w
    obtain ⟨fu, hfu, hfulen⟩ := ih
    obtain ⟨hfum, hfu1⟩ := find?_key_some _ u fu hfu
    have hre : Reach G src (fu.2.length + 1) w := by
      have := (ha fu hfum).1.2.2
      rw [hfu1] at this
      exact Reach.step this hedge
    obtain ⟨f, hfind, hlen⟩ := hd w (fu.2.length + 1) hre (hlt fu hfum)
    exact ⟨f, hfind, by omega⟩

theorem reach_cons (G : XchgGraph) (x z : x86_reg) (hxz : G.hasEdge x z) :
    ∀ (n : Nat) (y : x86_reg), Reach G z n y → Reach G x (n + 1) y := by
  intro n y h
  induction h with
  | zero => exact Reach.step Reach.zero hxz
  | step _ hedge ih => exact Reach.step ih hedge

theorem reach_symm (G : XchgGraph) (x y : x86_reg) (n : Nat) (h : Reach G x n y) :
    Reach G y n x := by
  induction h with
  | zero => exact Reach.zero
  | step hru hedge ih =>
    rename_i m u w
    exact reach_cons G w u (hasEdge_symm G u w hedge) m x ih

/-- What `getPath(a, b)` returns: nothing when `b` is not reached or is `a` itself, otherwise
a chain from `a` to `b` of edges that join distinct adjacent registers. -/
theorem getPath_chain (G : XchgGraph) (x y : x86_reg) :
    isChain x (G.getPath x y) y ∨ G.getPath x y = [] := by
  unfold XchgGraph.getPath
  cases h : (G.bfs x).find? (fun f => f.1 == y) with
  | none => exact Or.inr rfl
  | some f =>
    obtain ⟨hm, h1⟩ := find?_key_some _ y f h
    have := (bfs_sound G x f hm).1
    rw [h1] at this
    exact Or.inl this

theorem getPath_edges (G : XchgGraph) (x y : x86_reg) :
    ∀ e ∈ G.getPath x y, G.hasEdge e.1 e.2 ∧ e.1 ≠ e.2 := by
  unfold XchgGraph.getPath
  cases h : (G.bfs x).find? (fun f => f.1 == y) with
  | none => intro e he; cases he
  | some f =>
    obtain ⟨hm, _⟩ := find?_key_some _ y f h
    exact (bfs_sound G x f hm).2.1

theorem getPath_length_le (G : XchgGraph) (x y : x86_reg) (f : Found)
    (h : (G.bfs x).find? (fun f => f.1 == y) = some f) :
    ∃ f2, (G.bfs y).find? (fun f => f.1 == x) = some f2 ∧ f2.2.length ≤ f.2.length := by
  obtain ⟨hm, h1⟩ := find?_key_some _ y f h
  have hre := (bfs_sound G x f hm).2.2
  rw [h1] at hre
  exact bfs_complete G y x f.2.length (reach_symm G x y _ hre)

/-- The paths found in the two directions have the same number of edges. -/
theorem getPath_length_symm (G : XchgGraph) (x y : x86_reg) :
    (G.getPath x y).length = (G.getPath y x).length := by
  unfold XchgGraph.getPath
  cases h1 : (G.bfs x).find? (fun f => f.1 == y) with
  | none =>
    cases h2 : (G.bfs y).find? (fun f => f.1 == x) with
    | none => rfl
    | some f2 =>
      obtain ⟨f, hf, _⟩ := getPath_length_le G y x f2 h2
      rw [h1] at hf
      cases hf
  | some f =>
    obtain ⟨f2, hf2, hle⟩ := getPath_length_le G x y f h1
    rw [hf2]
    obtain ⟨f3, hf3, hle2⟩ := getPath_length_le G y x f2 hf2
    rw [h1] at hf3
    cases hf3
    simp only
    omega

/-! ## `getXchgPath` on the graph built from the table -/

theorem buildXchgGraph_Microgadgets (a : BinaryAutopsy) :
    (buildXchgGraph a).Microgadgets = a.Microgadgets := by
  unfold buildXchgGraph
  simp only
  split
  · exact foldl_preserves (fun (b : BinaryAutopsy) => b.Microgadgets = a.Microgadgets) _
      (fun b g hb => by simpa using hb) _ _ rfl
  · rfl

theorem gadgetsForPath_cons_some (M : List Microgadget) (e : x86_reg × x86_reg)
    (rest : List (x86_reg × x86_reg)) (gs : List Microgadget)
    (h : gadgetsForPath M (e :: rest) = some gs) :
    ∃ g gs2, xchgGadgetFor M e = some g ∧ gadgetsForPath M rest = some gs2 ∧
      gs = g :: gs2 := by
  unfold gadgetsForPath at h
  cases h1 : xchgGadgetFor M e with
  | none => rw [h1] at h; cases h
  | some g =>
    cases h2 : gadgetsForPath M rest with
    | none => rw [h1, h2] at h; cases h
    | some gs2 =>
      rw [h1, h2] at h
      cases h
      exact ⟨g, gs2, rfl, rfl, rfl⟩

theorem gadgetsForPath_length (M : List Microgadget) :
    ∀ (path : List (x86_reg × x86_reg)) (gs : List Microgadget),
      gadgetsForPath M path = some gs → gs.length = path.length := by
  intro path
  induction path with
  | nil =>
    intro gs h
    unfold gadgetsForPath at h
    cases h
    rfl
  | cons e rest ih =>
    intro gs h
    obtain ⟨g, gs2, _, h2, h3⟩ := gadgetsForPath_cons_some M e rest gs h
    rw [h3, List.length_cons, List.length_cons, ih gs2 h2]

/-- The gadget selected for an edge of two valid registers has these two registers as its
operands, in the order of the edge or in the opposite order. -/
theorem xchgGadgetFor_ops (M : List Microgadget) (e : x86_reg × x86_reg) (g : Microgadget)
    (h1 : e.1 ≠ X86_REG_INVALID) (h2 : e.2 ≠ X86_REG_INVALID)
    (h : xchgGadgetFor M e = some g) :
    g ∈ M ∧ g.getID = X86_INS_XCHG ∧
      (((g.getOp 0).reg = e.1 ∧ (g.getOp 1).reg = e.2) ∨
        ((g.getOp 0).reg = e.2 ∧ (g.getOp 1).reg = e.1)) := by
  unfold xchgGadgetFor at h
  simp only at h
  rw [gadgetLookupReg_eq_filter, gadgetLookupReg_eq_filter] at h
  split at h
  · rw [head?_filter_eq_find?] at h
    have hp := List.find?_some h
    simp only [decide_eq_true_eq] at hp
    obtain ⟨hid, ⟨_, hr0⟩, hr1⟩ := hp
    refine ⟨List.mem_of_find?_eq_some h, hid, Or.inr ⟨hr0, ?_⟩⟩
    rcases hr1 with hr1 | hr1
    · exact absurd hr1 h1
    · exact hr1.2
  · rw [head?_filter_eq_find?] at h
    have hp := List.find?_some h
    simp only [decide_eq_true_eq] at hp
    obtain ⟨hid, ⟨_, hr0⟩, hr1⟩ := hp
    refine ⟨List.mem_of_find?_eq_some h, hid, Or.inl ⟨hr0, ?_⟩⟩
    rcases hr1 with hr1 | hr1
    · exact absurd hr1 h2
    · exact hr1.2

theorem xchgGadgetFor_isSome (M : List Microgadget) (e : x86_reg × x86_reg)
    (h : ∃ g ∈ M, matchesRegs X86_INS_XCHG e.1 e.2 g ∨ matchesRegs X86_INS_XCHG e.2 e.1 g) :
    ∃ g, xchgGadgetFor M e = some g := by
  unfold xchgGadgetFor
  simp only
  rw [gadgetLookupReg_eq_filter, gadgetLookupReg_eq_filter]
  apply Option.isSome_iff_exists.mp
  split
  · rename_i hz
    have hnil : M.filter (fun g => decide (matchesRegs X86_INS_XCHG e.1 e.2 g)) = [] :=
      List.length_eq_zero.mp (by simpa using hz)
    rw [List.filter_eq_nil_iff] at hnil
    obtain ⟨g, hg, hm⟩ := h
    rw [head?_filter_eq_find?, List.find?_isSome]
    rcases hm with hm | hm
    · exact absurd (by simpa using hm) (hnil g hg)
    · exact ⟨g, hg, by simpa using hm⟩
  · rename_i hz
    rw [head?_filter_eq_find?, List.find?_isSome]
    have hne : M.filter (fun g => decide (matchesRegs X86_INS_XCHG e.1 e.2 g)) ≠ [] := by
      intro hc
      rw [hc] at hz
      exact hz rfl
    obtain ⟨g, hg⟩ := List.exists_mem_of_ne_nil _ hne
    rw [List.mem_filter] at hg
    exact ⟨g, hg.1, hg.2⟩

theorem gadgetsForPath_isSome (M : List Microgadget) :
    ∀ (path : List (x86_reg × x86_reg)),
      (∀ e ∈ path, ∃ g ∈ M,
        matchesRegs X86_INS_XCHG e.1 e.2 g ∨ matchesRegs X86_INS_XCHG e.2 e.1 g) →
      ∃ gs, gadgetsForPath M path = some gs := by
  intro path
  induction path with
  | nil => intro _; exact ⟨[], rfl⟩
  | cons e rest ih =>
    intro h
    obtain ⟨gs, hgs⟩ := ih (fun e2 he2 => h e2 (List.mem_cons_of_mem _ he2))
    obtain ⟨g, hg⟩ := xchgGadgetFor_isSome M e (h e (List.mem_cons_self _ _))
    refine ⟨g :: gs, ?_⟩
    unfold gadgetsForPath
    rw [hg, hgs]

/-- An edge of the graph built from the table has a XCHG gadget with its two registers as
register operands, in the order in which the edge was added. -/
theorem edge_has_gadget (a : BinaryAutopsy) (r1 r2 : x86_reg)
    (h : (r1, r2) ∈ (buildXchgGraph a).xgraph.edges) :
    ∃ g ∈ a.Microgadgets, matchesRegs X86_INS_XCHG r1 r2 g := by
  rw [buildXchgGraph_edge_iff] at h
  obtain ⟨_, g, hm, h1, h2, h3, h4, h5⟩ := h
  exact ⟨g, hm, h1, ⟨h2, h4⟩, Or.inr ⟨h3, h5⟩⟩

/-- On the graph built from the table, `getXchgPath` is defined for every pair of registers:
`res.front()` is never taken of an empty vector. -/
theorem getXchgPath_defined (a : BinaryAutopsy) (x y : x86_reg) :
    ∃ gs, getXchgPath (buildXchgGraph a) x y = some gs := by
  unfold getXchgPath
  rw [buildXchgGraph_Microgadgets]
  apply gadgetsForPath_isSome
  intro e he
  have hedge := (getPath_edges _ x y e he).1
  rcases hedge with h | h
  · obtain ⟨g, hg, hm⟩ := edge_has_gadget a e.1 e.2 h
    exact ⟨g, hg, Or.inl hm⟩
  · obtain ⟨g, hg, hm⟩ := edge_has_gadget a e.2 e.1 h
    exact ⟨g, hg, Or.inr hm⟩

/-! ## C11: what a path of XCHG gadgets does to the registers -/

theorem execXchg_target (g : Microgadget) (regs : RegFile) (u v : x86_reg)
    (h : ((g.getOp 0).reg = u ∧ (g.getOp 1).reg = v) ∨
      ((g.getOp 0).reg = v ∧ (g.getOp 1).reg = u)) :
    execXchg g regs v = regs u := by
  unfold execXchg
  rcases h with ⟨h0, h1⟩ | ⟨h0, h1⟩
  · rw [h0, h1]
    by_cases hc : v = u
    · simp [hc]
    · simp [hc]
  · rw [h0, h1]
    simp

theorem execXchg_source (g : Microgadget) (regs : RegFile) (u v : x86_reg)
    (h : ((g.getOp 0).reg = u ∧ (g.getOp 1).reg = v) ∨
      ((g.getOp 0).reg = v ∧ (g.getOp 1).reg = u)) :
    execXchg g regs u = regs v :=
  execXchg_target g regs v u (Or.symm h)

/-- The gadgets selected along a chain of edges from `x` to `y`, applied in order, bring the
content of `x` into `y`. -/
theorem execPath_chain (M : List Microgadget) :
    ∀ (path : List (x86_reg × x86_reg)) (x y : x86_reg) (gs : List Microgadget)
      (regs : RegFile), isChain x path y →
      (∀ e ∈ path, e.1 ≠ X86_REG_INVALID ∧ e.2 ≠ X86_REG_INVALID) →
      gadgetsForPath M path = some gs → execPath gs regs y = regs x := by
  intro path
  induction path with
  | nil =>
    intro x y gs regs hch _ h
    unfold gadgetsForPath at h
    cases h
    unfold isChain at hch
    rw [hch]
    rfl
  | cons e rest ih =>
    intro x y gs regs hch hval h
    obtain ⟨g, gs2, hg, hgs2, heq⟩ := gadgetsForPath_cons_some M e rest gs h
    unfold isChain at hch
    have hv := hval e (List.mem_cons_self _ _)
    have hops := (xchgGadgetFor_ops M e g hv.1 hv.2 hg).2.2
    rw [heq]
    unfold execPath
    rw [List.foldl_cons]
    have := ih e.2 y gs2 (execXchg g regs) hch.2
      (fun e2 he2 => hval e2 (List.mem_cons_of_mem _ he2)) hgs2
    unfold execPath at this
    rw [this, execXchg_target g regs e.1 e.2 hops, hch.1]

theorem graph_registers_valid (a : BinaryAutopsy) (hreg : validRegOperands a.Microgadgets)
    (r1 r2 : x86_reg) (h : (buildXchgGraph a).xgraph.hasEdge r1 r2) :
    r1 ≠ X86_REG_INVALID ∧ r2 ≠ X86_REG_INVALID := by
  have key : ∀ s1 s2, (s1, s2) ∈ (buildXchgGraph a).xgraph.edges →
      s1 ≠ X86_REG_INVALID ∧ s2 ≠ X86_REG_INVALID := by
    intro s1 s2 hs
    rw [buildXchgGraph_edge_iff] at hs
    obtain ⟨_, g, hm, _, h2, h3, h4, h5⟩ := hs
    constructor
    · rw [← h4]
      exact hreg g hm (g.getOp 0) (by simp [Microgadget.operands]) h2
    · rw [← h5]
      exact hreg g hm (g.getOp 1) (by simp [Microgadget.operands]) h3
  rcases h with h | h
  · exact key r1 r2 h
  · exact (key r2 r1 h).symm

/-- C11 refuted as stated (scenario S4): with the gadgets `xchg eax, ecx` and
`xchg edx, ecx`, `getXchgPath(EAX, EDX)` returns the two gadgets in this order; applied to
the register file in which every register holds its own identifier they leave in EDX the old
content of EAX but in EAX the old content of ECX, not that of EDX. -/
theorem two_edge_path_counterexample :
    ∃ gs, getXchgPath (dissectGadgets (exampleBinary [0x87, 0xc8, 0xc3, 0x87, 0xca, 0xc3]
        UNDEFINED)) X86_REG_EAX X86_REG_EDX = some gs ∧ gs.length = 2 ∧
      execPath gs exampleRegs X86_REG_EDX = exampleRegs X86_REG_EAX ∧
      execPath gs exampleRegs X86_REG_EAX = exampleRegs X86_REG_ECX ∧
      ¬ (execPath gs exampleRegs X86_REG_EAX = exampleRegs X86_REG_EDX ∧
        execPath gs exampleRegs X86_REG_EDX = exampleRegs X86_REG_EAX) :=
  ⟨[gadgetOf [0x87, 0xc8, 0xc3] REG_XCHG,
    Microgadget.mk (x86_disasm [0x87, 0xca, 0xc3] 7 3) "xchg edx, ecx;" REG_XCHG],
   by decide, by decide, by decide, by decide, by decide⟩

/-- C11 amended. On the graph built from a table whose register operands are valid,
`getXchgPath(a, b)` returns a list of gadgets; when the list is not empty, applying the
gadgets in order to an arbitrary register file leaves in `b` the old content of `a`; when it
has exactly one gadget, `a` also holds the old content of `b`, that is, the two are
swapped. -/
theorem path_moves_value (a : BinaryAutopsy) (x y : x86_reg) (regs : RegFile)
    (hreg : validRegOperands a.Microgadgets) :
    ∃ gs, getXchgPath (buildXchgGraph a) x y = some gs ∧
      (gs ≠ [] → execPath gs regs y = regs x) ∧
      (gs.length = 1 → execPath gs regs x = regs y) := by
  obtain ⟨gs, hgs⟩ := getXchgPath_defined a x y
  refine ⟨gs, hgs, ?_, ?_⟩
  · intro hne
    unfold getXchgPath at hgs
    have hval : ∀ e ∈ (buildXchgGraph a).xgraph.getPath x y,
        e.1 ≠ X86_REG_INVALID ∧ e.2 ≠ X86_REG_INVALID :=
      fun e he => graph_registers_valid a hreg e.1 e.2 (getPath_edges _ x y e he).1
    rcases getPath_chain (buildXchgGraph a).xgraph x y with hch | hnil
    · exact execPath_chain _ _ x y gs regs hch hval hgs
    · rw [hnil] at hgs
      unfold gadgetsForPath at hgs
      cases hgs
      exact absurd rfl hne
  · intro hlen
    unfold getXchgPath at hgs
    have hplen := gadgetsForPath_length _ _ gs hgs
    rw [hlen] at hplen
    have hval : ∀ e ∈ (buildXchgGraph a).xgraph.getPath x y,
        e.1 ≠ X86_REG_INVALID ∧ e.2 ≠ X86_REG_INVALID :=
      fun e he => graph_registers_valid a hreg e.1 e.2 (getPath_edges _ x y e he).1
    rcases getPath_chain (buildXchgGraph a).xgraph x y with hch | hnil
    · generalize (buildXchgGraph a).xgraph.getPath x y = path at hgs hplen hval hch
      match path, hplen with
      | [e], _ =>
        obtain ⟨g, gs2, hg, hgs2, heq⟩ := gadgetsForPath_cons_some _ e [] gs hgs
        unfold gadgetsForPath at hgs2
        cases hgs2
        have hv := hval e (List.mem_cons_self _ _)
        have hops := (xchgGadgetFor_ops _ e g hv.1 hv.2 hg).2.2
        unfold isChain at hch
        have hy : e.2 = y := hch.2
        rw [heq]
        unfold execPath
        rw [List.foldl_cons, List.foldl_nil, ← hch.1, ← hy]
        exact execXchg_source g regs e.1 e.2 hops
    · rw [hnil] at hplen
      cases hplen

/-- Witness of C11 amended (scenario S4): on the table `xchg eax, ecx`, `xchg edx, ecx` the
path from EAX to EDX brings the content of EAX into EDX. -/
theorem path_moves_value_witness :
    ∃ gs, getXchgPath (buildXchgGraph (tableOf [gadgetOf [0x87, 0xc8, 0xc3] REG_XCHG,
        gadgetOf [0x87, 0xca, 0xc3] REG_XCHG])) X86_REG_EAX X86_REG_EDX = some gs ∧
      (gs ≠ [] → execPath gs exampleRegs X86_REG_EDX = exampleRegs X86_REG_EAX) ∧
      (gs.length = 1 → execPath gs exampleRegs X86_REG_EAX = exampleRegs X86_REG_EDX) :=
  path_moves_value (tableOf [gadgetOf [0x87, 0xc8, 0xc3] REG_XCHG,
    gadgetOf [0x87, 0xca, 0xc3] REG_XCHG]) X86_REG_EAX X86_REG_EDX exampleRegs (by decide)

/-- Scenario S4 with exact classes: on the table `xchg eax, ecx`, `xchg edx, ecx` with its
graph, the path from EAX to EDX has the edges (EAX, ECX) and (ECX, EDX); the first gets the
gadget of operand order (EAX, ECX), the second, for which no gadget of operand order
(ECX, EDX) exists, the gadget of operand order (EDX, ECX). -/
theorem xchg_path_selection_exact_example :
    ∃ gs, getXchgPath (buildXchgGraph (tableOf [gadgetOf [0x87, 0xc8, 0xc3] REG_XCHG,
        gadgetOf [0x87, 0xca, 0xc3] REG_XCHG])) X86_REG_EAX X86_REG_EDX = some gs ∧
      gs.length = ((buildXchgGraph (tableOf [gadgetOf [0x87, 0xc8, 0xc3] REG_XCHG,
        gadgetOf [0x87, 0xca, 0xc3] REG_XCHG])).xgraph.getPath X86_REG_EAX X86_REG_EDX).length ∧
      ∀ (i : Nat) (e : x86_reg × x86_reg),
        ((buildXchgGraph (tableOf [gadgetOf [0x87, 0xc8, 0xc3] REG_XCHG,
          gadgetOf [0x87, 0xca, 0xc3] REG_XCHG])).xgraph.getPath X86_REG_EAX X86_REG_EDX)[i]? =
            some e →
        ∃ g, gs[i]? = some g ∧
          (firstRegXchg (buildXchgGraph (tableOf [gadgetOf [0x87, 0xc8, 0xc3] REG_XCHG,
              gadgetOf [0x87, 0xca, 0xc3] REG_XCHG])).Microgadgets e.1 e.2 = some g ∨
            (firstRegXchg (buildXchgGraph (tableOf [gadgetOf [0x87, 0xc8, 0xc3] REG_XCHG,
                gadgetOf [0x87, 0xca, 0xc3] REG_XCHG])).Microgadgets e.1 e.2 = none ∧
              firstRegXchg (buildXchgGraph (tableOf [gadgetOf [0x87, 0xc8, 0xc3] REG_XCHG,
                gadgetOf [0x87, 0xca, 0xc3] REG_XCHG])).Microgadgets e.2 e.1 = some g)) :=
  xchg_path_selection_exact (buildXchgGraph (tableOf [gadgetOf [0x87, 0xc8, 0xc3] REG_XCHG,
    gadgetOf [0x87, 0xca, 0xc3] REG_XCHG])) X86_REG_EAX X86_REG_EDX
    (by decide) (by decide) (by decide)

/-! ## C13: the paths in the two directions -/

/-- C13 refuted as stated: with the gadgets `xchg eax, ecx`, `xchg edx, eax`,
`xchg edx, ebp`, `xchg ecx, ebp` (section bytes `87 C8 C3 87 C2 C3 87 EA C3 87 E9 C3`) there
are two shortest paths between EAX and EBP.  `getXchgPath(EAX, EBP)` goes through ECX,
`getXchgPath(EBP, EAX)` through EDX: the first holds the gadget `xchg eax, ecx`, and no
gadget of the second stands for the same edge. -/
theorem two_shortest_paths_counterexample :
    ∃ l1 l2,
      getXchgPath (dissectGadgets (exampleBinary
        [0x87, 0xc8, 0xc3, 0x87, 0xc2, 0xc3, 0x87, 0xea, 0xc3, 0x87, 0xe9, 0xc3] UNDEFINED))
        X86_REG_EAX X86_REG_EBP = some l1 ∧
      getXchgPath (dissectGadgets (exampleBinary
        [0x87, 0xc8, 0xc3, 0x87, 0xc2, 0xc3, 0x87, 0xea, 0xc3, 0x87, 0xe9, 0xc3] UNDEFINED))
        X86_REG_EBP X86_REG_EAX = some l2 ∧
      l1.map (fun g => g.asmInstr) = ["xchg eax, ecx;", "xchg ecx, ebp;"] ∧
      l2.map (fun g => g.asmInstr) = ["xchg edx, ebp;", "xchg edx, eax;"] ∧
      ∃ g ∈ l1, ∀ g2 ∈ l2, ¬ sameEdge g g2 :=
  ⟨[gadgetOf [0x87, 0xc8, 0xc3] REG_XCHG,
    Microgadget.mk (x86_disasm [0x87, 0xe9, 0xc3] 13 3) "xchg ecx, ebp;" REG_XCHG],
   [Microgadget.mk (x86_disasm [0x87, 0xea, 0xc3] 10 3) "xchg edx, ebp;" REG_XCHG,
    Microgadget.mk (x86_disasm [0x87, 0xc2, 0xc3] 7 3) "xchg edx, eax;" REG_XCHG],
   by decide, by decide, by decide, by decide, by decide⟩

theorem isChain_reverse (G : XchgGraph) :
    ∀ (q : List (x86_reg × x86_reg)) (y x : x86_reg), isChain y q x →
      (∀ e ∈ q, G.hasEdge e.1 e.2) →
      isChain x (q.map Prod.swap).reverse y ∧
        ∀ e ∈ (q.map Prod.swap).reverse, G.hasEdge e.1 e.2 := by
  intro q
  induction q with
  | nil =>
    intro y x h _
    unfold isChain at h
    exact ⟨h.symm, by intro e he; cases he⟩
  | cons e rest ih =>
    intro y x h hG
    unfold isChain at h
    obtain ⟨h1, h2⟩ := ih e.2 x h.2 (fun e2 he2 => hG e2 (List.mem_cons_of_mem _ he2))
    rw [List.map_cons, List.reverse_cons]
    constructor
    · have h3 : isChain x ((List.map Prod.swap rest).reverse ++ [e.swap]) e.1 :=
        isChain_snoc e.2 e.1 _ x h1
      rw [h.1] at h3
      exact h3
    · intro e2 he2
      rw [List.mem_append, List.mem_singleton] at he2
      rcases he2 with he2 | he2
      · exact h2 e2 he2
      · rw [he2]
        exact hasEdge_symm G e.1 e.2 (hG e (List.mem_cons_self _ _))

theorem gadgetsForPath_mem (M : List Microgadget) :
    ∀ (path : List (x86_reg × x86_reg)) (gs : List Microgadget),
      gadgetsForPath M path = some gs →
      (∀ g ∈ gs, ∃ e ∈ path, xchgGadgetFor M e = some g) ∧
        ∀ e ∈ path, ∃ g ∈ gs, xchgGadgetFor M e = some g := by
  intro path
  induction path with
  | nil =>
    intro gs h
    unfold gadgetsForPath at h
    cases h
    constructor
    · intro g hg
      cases hg
    · intro e he
      cases he
  | cons e rest ih =>
    intro gs h
    obtain ⟨g, gs2, hg, hgs2, heq⟩ := gadgetsForPath_cons_some M e rest gs h
    obtain ⟨h1, h2⟩ := ih gs2 hgs2
    rw [heq]
    constructor
    · intro g2 hg2
      rcases List.mem_cons.mp hg2 with hc | hc
      · exact ⟨e, List.mem_cons_self _ _, by rw [hc]; exact hg⟩
      · obtain ⟨e2, he2, hx⟩ := h1 g2 hc
        exact ⟨e2, List.mem_cons_of_mem _ he2, hx⟩
    · intro e2 he2
      rcases List.mem_cons.mp he2 with hc | hc
      · exact ⟨g, List.mem_cons_self _ _, by rw [hc]; exact hg⟩
      · obtain ⟨g2, hg2, hx⟩ := h2 e2 hc
        exact ⟨g2, List.mem_cons_of_mem _ hg2, hx⟩

/-- The gadgets selected for the edges of a path stand for the same unordered edges as the
gadgets selected for the reversed edges. -/
theorem sameEdge_of_swapped (M : List Microgadget) (p q : List (x86_reg × x86_reg))
    (l1 l2 : List Microgadget)
    (hval : ∀ e ∈ p, e.1 ≠ X86_REG_INVALID ∧ e.2 ≠ X86_REG_INVALID)
    (hsub : ∀ e ∈ p, e.swap ∈ q)
    (h1 : gadgetsForPath M p = some l1) (h2 : gadgetsForPath M q = some l2) :
    ∀ g ∈ l1, ∃ g2 ∈ l2, sameEdge g g2 := by
  intro g hg
  obtain ⟨e, he, hx⟩ := (gadgetsForPath_mem M p l1 h1).1 g hg
  obtain ⟨g2, hg2, hx2⟩ := (gadgetsForPath_mem M q l2 h2).2 e.swap (hsub e he)
  have hv := hval e he
  have ho := (xchgGadgetFor_ops M e g hv.1 hv.2 hx).2.2
  have ho2 := (xchgGadgetFor_ops M e.swap g2 hv.2 hv.1 hx2).2.2
  simp only [Prod.fst_swap, Prod.snd_swap] at ho2
  refine ⟨g2, hg2, ?_⟩
  unfold sameEdge
  rcases ho with ⟨a0, a1⟩ | ⟨a0, a1⟩ <;> rcases ho2 with ⟨b0, b1⟩ | ⟨b0, b1⟩
  · exact Or.inr ⟨by rw [a0, b1], by rw [a1, b0]⟩
  · exact Or.inl ⟨by rw [a0, b0], by rw [a1, b1]⟩
  · exact Or.inl ⟨by rw [a0, b0], by rw [a1, b1]⟩
  · exact Or.inr ⟨by rw [a0, b1], by rw [a1, b0]⟩

/-- C13 amended. On the graph built from a table whose register operands are valid,
`getXchgPath(a, b)` and `getXchgPath(b, a)` both return a list of gadgets and the two lists
have the same length (each follows a shortest path); when the shortest path from `a` to `b`
is unique, the two lists stand for the same set of unordered edges. -/
theorem xchg_paths_symmetry (a : BinaryAutopsy) (x y : x86_reg)
    (hreg : validRegOperands a.Microgadgets) :
    ∃ l1 l2, getXchgPath (buildXchgGraph a) x y = some l1 ∧
      getXchgPath (buildXchgGraph a) y x = some l2 ∧ l1.length = l2.length ∧
      (uniqueShortest (buildXchgGraph a).xgraph x y →
        (∀ g ∈ l1, ∃ g2 ∈ l2, sameEdge g g2) ∧ (∀ g ∈ l2, ∃ g1 ∈ l1, sameEdge g g1)) := by
  obtain ⟨l1, h1⟩ := getXchgPath_defined a x y
  obtain ⟨l2, h2⟩ := getXchgPath_defined a y x
  refine ⟨l1, l2, h1, h2, ?_, ?_⟩
  · unfold getXchgPath at h1 h2
    rw [gadgetsForPath_length _ _ l1 h1, gadgetsForPath_length _ _ l2 h2]
    exact getPath_length_symm _ x y
  · intro huniq
    unfold getXchgPath at h1 h2
    have hvalP : ∀ e ∈ (buildXchgGraph a).xgraph.getPath x y,
        e.1 ≠ X86_REG_INVALID ∧ e.2 ≠ X86_REG_INVALID :=
      fun e he => graph_registers_valid a hreg e.1 e.2 (getPath_edges _ x y e he).1
    have hvalQ : ∀ e ∈ (buildXchgGraph a).xgraph.getPath y x,
        e.1 ≠ X86_REG_INVALID ∧ e.2 ≠ X86_REG_INVALID :=
      fun e he => graph_registers_valid a hreg e.1 e.2 (getPath_edges _ y x e he).1
    have hlen := getPath_length_symm (buildXchgGraph a).xgraph x y
    have hrev : (buildXchgGraph a).xgraph.getPath x y =
        (((buildXchgGraph a).xgraph.getPath y x).map Prod.swap).reverse := by
      rcases getPath_chain (buildXchgGraph a).xgraph y x with hch | hnil
      · obtain ⟨c1, c2⟩ := isChain_reverse (buildXchgGraph a).xgraph _ y x hch
          (fun e he => (getPath_edges _ y x e he).1)
        exact (huniq _ c1 c2 (by rw [List.length_reverse, List.length_map, hlen])).symm
      · rw [hnil] at hlen ⊢
        exact List.length_eq_zero.mp hlen
    have hPQ : ∀ e ∈ (buildXchgGraph a).xgraph.getPath x y,
        e.swap ∈ (buildXchgGraph a).xgraph.getPath y x := by
      intro e he
      rw [hrev, List.mem_reverse, List.mem_map] at he
      obtain ⟨e2, he2, hsw⟩ := he
      rw [← hsw, Prod.swap_swap]
      exact he2
    have hQP : ∀ e ∈ (buildXchgGraph a).xgraph.getPath y x,
        e.swap ∈ (buildXchgGraph a).xgraph.getPath x y := by
      intro e he
      rw [hrev, List.mem_reverse, List.mem_map]
      exact ⟨e, he, rfl⟩
    exact ⟨sameEdge_of_swapped _ _ _ l1 l2 hvalP hPQ h1 h2,
      sameEdge_of_swapped _ _ _ l2 l1 hvalQ hQP h2 h1⟩

/-- Witness of C13 amended (scenario S2): with the single gadget `xchg ecx, eax` the paths
between EAX and ECX in the two directions have one gadget each, for the same edge. -/
theorem xchg_paths_symmetry_witness :
    ∃ l1 l2,
      getXchgPath (buildXchgGraph (tableOf [gadgetOf [0x87, 0xc1, 0xc3] REG_XCHG]))
        X86_REG_EAX X86_REG_ECX = some l1 ∧
      getXchgPath (buildXchgGraph (tableOf [gadgetOf [0x87, 0xc1, 0xc3] REG_XCHG]))
        X86_REG_ECX X86_REG_EAX = some l2 ∧ l1.length = l2.length ∧
      (∀ g ∈ l1, ∃ g2 ∈ l2, sameEdge g g2) ∧ (∀ g ∈ l2, ∃ g1 ∈ l1, sameEdge g g1) := by
  obtain ⟨l1, l2, h1, h2, h3, h4⟩ :=
    xchg_paths_symmetry (tableOf [gadgetOf [0x87, 0xc1, 0xc3] REG_XCHG])
      X86_REG_EAX X86_REG_ECX (by decide)
  refine ⟨l1, l2, h1, h2, h3, h4 ?_⟩
  intro p hch _ hlen
  have hpath : (buildXchgGraph (tableOf [gadgetOf [0x87, 0xc1, 0xc3] REG_XCHG])).xgraph.getPath
      X86_REG_EAX X86_REG_ECX = [(X86_REG_EAX, X86_REG_ECX)] := by decide
  rw [hpath] at hlen ⊢
  match p, hch, hlen with
  | [], hch, _ =>
    unfold isChain at hch
    exact absurd hch (by decide)
  | [e], hch, _ =>
    unfold isChain at hch
    obtain ⟨c1, c2⟩ := hch
    unfold isChain at c2
    rw [← c1, ← c2]

/-! ## Exact classes on the graph built from the table -/

/-- On the graph built from a table whose classes are exact for `REG_XCHG` and whose register
operands are valid, every edge of a path returned by `getPath` joins two distinct valid
registers and has a gadget of class `REG_XCHG` in one of the two operand orders; so the
selection by class applies to every pair of registers. -/
theorem xchg_path_selection_built (a : BinaryAutopsy) (x y : x86_reg)
    (hclass : exactRegXchg a.Microgadgets) (hreg : validRegOperands a.Microgadgets) :
    ∃ gs, getXchgPath (buildXchgGraph a) x y = some gs ∧
      gs.length = ((buildXchgGraph a).xgraph.getPath x y).length ∧
      ∀ (i : Nat) (e : x86_reg × x86_reg),
        ((buildXchgGraph a).xgraph.getPath x y)[i]? = some e → ∃ g, gs[i]? = some g ∧
          (firstRegXchg a.Microgadgets e.1 e.2 = some g ∨
            (firstRegXchg a.Microgadgets e.1 e.2 = none ∧
              firstRegXchg a.Microgadgets e.2 e.1 = some g)) := by
  unfold getXchgPath
  rw [buildXchgGraph_Microgadgets]
  apply gadgetsForPath_spec a.Microgadgets hclass
  · intro e he
    obtain ⟨hedge, hne⟩ := getPath_edges _ x y e he
    exact ⟨hne, graph_registers_valid a hreg e.1 e.2 hedge⟩
  · intro e he
    obtain ⟨hedge, hne⟩ := getPath_edges _ x y e he
    have key : ∀ r1 r2, r1 ≠ r2 → (r1, r2) ∈ (buildXchgGraph a).xgraph.edges →
        ∃ g ∈ a.Microgadgets, isRegXchg r1 r2 g := by
      intro r1 r2 hr h
      rw [buildXchgGraph_edge_iff] at h
      obtain ⟨_, g, hm, h1, h2, h3, h4, h5⟩ := h
      refine ⟨g, hm, (hclass g hm).mpr ⟨h1, h2, h3, by rw [h4, h5]; exact hr⟩, ⟨h2, h4⟩,
        ⟨h3, h5⟩⟩
    rcases hedge with h | h
    · obtain ⟨g, hg, hx⟩ := key e.1 e.2 hne h
      exact ⟨g, hg, Or.inl hx⟩
    · obtain ⟨g, hg, hx⟩ := key e.2 e.1 (fun hc => hne hc.symm) h
      exact ⟨g, hg, Or.inr hx⟩

/-! ## C21: the assertion on the symbol table -/

theorem dumpSections_Symbols (bin : Binary) (a : BinaryAutopsy) :
    (dumpSections bin a).Symbols = a.Symbols := by
  unfold dumpSections
  refine foldl_preserves (fun (b : BinaryAutopsy) => b.Symbols = a.Symbols) _ ?_
    bin.sections a rfl
  intro b x hb
  split <;> simpa using hb

theorem scanSymbols_error (l : List asymbol) (S : List Symbol) (e : DumpFailure)
    (h : scanSymbols l S = Except.error e) :
    e = DumpFailure.NullVersion ∧ ∃ sym ∈ l, eligible sym ∧ versionString sym = none := by
  by_cases hv : ∀ sym ∈ l, eligible sym → versionString sym ≠ none
  · obtain ⟨S2, h2⟩ := scanSymbols_total l S hv
    rw [h2] at h
    cases h
  · have hex : ∃ sym ∈ l, eligible sym ∧ versionString sym = none := by
      by_contra hne
      apply hv
      intro sym hm he hnone
      exact hne ⟨sym, hm, he, hnone⟩
    rw [scanSymbols_null l S hex] at h
    cases h
    exact ⟨rfl, hex⟩

/-- The three outcomes of `dumpDynamicSymbols` on an object whose symbol table is still empty:
the assertion fails exactly when no symbol is eligible; the call stops at the conversion of a
null version exactly when some eligible symbol has none; it returns exactly when some symbol
is eligible and every eligible symbol has a version, and the table it leaves is not empty. -/
theorem dumpDynamicSymbols_outcome (bin : Binary) (asymtab : List asymbol) (a : BinaryAutopsy)
    (hempty : a.Symbols = []) :
    (dumpDynamicSymbols bin asymtab a = Except.error DumpFailure.NoSymbols ↔
        ∀ sym ∈ asymtab, ¬ eligible sym) ∧
      (dumpDynamicSymbols bin asymtab a = Except.error DumpFailure.NullVersion ↔
        ∃ sym ∈ asymtab, eligible sym ∧ versionString sym = none) ∧
      ((∃ a2, dumpDynamicSymbols bin asymtab a = Except.ok a2) ↔
        (∃ sym ∈ asymtab, eligible sym) ∧
          ∀ sym ∈ asymtab, eligible sym → versionString sym ≠ none) ∧
      ∀ a2, dumpDynamicSymbols bin asymtab a = Except.ok a2 → a2.Symbols ≠ [] := by
  have hS : (if a.Sections.length == 0 then dumpSections bin a else a).Symbols = [] := by
    split
    · rw [dumpSections_Symbols]; exact hempty
    · exact hempty
  have hfilter : ∀ n, (asymtab.filter (fun sym => decide (eligible sym))).length = n →
      (n = 0 ↔ ∀ sym ∈ asymtab, ¬ eligible sym) := by
    intro n hn
    subst hn
    rw [List.length_eq_zero, List.filter_eq_nil_iff]
    simp
  unfold dumpDynamicSymbols
  simp only [hS]
  cases hsc : scanSymbols asymtab [] with
  | error e =>
    obtain ⟨he, sym, hm, hel, hnone⟩ := scanSymbols_error asymtab [] e hsc
    subst he
    simp only
    refine ⟨?_, ?_, ?_, ?_⟩
    · constructor
      · intro h; cases h
      · intro h; exact absurd hel (h sym hm)
    · constructor
      · intro _; exact ⟨sym, hm, hel, hnone⟩
      · intro _; trivial
    · constructor
      · intro h; obtain ⟨a2, h2⟩ := h; cases h2
      · intro h; exact absurd hnone (h.2 sym hm hel)
    · intro a2 h; cases h
  | ok S2 =>
    have hlen := (scanSymbols_ok asymtab [] S2 hsc).2
    simp only [List.length_nil, Nat.zero_add] at hlen
    have hz := hfilter S2.length hlen.symm
    have hver : ∀ sym ∈ asymtab, eligible sym → versionString sym ≠ none := by
      intro sym hm hel hnone
      rw [scanSymbols_null asymtab [] ⟨sym, hm, hel, hnone⟩] at hsc
      cases hsc
    simp only
    by_cases hpos : S2.length > 0
    · rw [if_pos hpos]
      have hex : ∃ sym ∈ asymtab, eligible sym := by
        by_contra hne
        have : S2.length = 0 := hz.mpr (fun sym hm hel => hne ⟨sym, hm, hel⟩)
        omega
      refine ⟨?_, ?_, ?_, ?_⟩
      · constructor
        · intro h; cases h
        · intro h
          obtain ⟨sym, hm, hel⟩ := hex
          exact absurd hel (h sym hm)
      · constructor
        · intro h; cases h
        · intro h
          obtain ⟨sym, hm, hel, hnone⟩ := h
          exact absurd hnone (hver sym hm hel)
      · constructor
        · intro _; exact ⟨hex, hver⟩
        · intro _; exact ⟨_, rfl⟩
      · intro a2 h
        cases h
        intro hnil
        simp only at hnil
        rw [hnil] at hpos
        simp at hpos
    · rw [if_neg hpos]
      have hzero : S2.length = 0 := by omega
      have hno := hz.mp hzero
      refine ⟨?_, ?_, ?_, ?_⟩
      · constructor
        · intro _; exact hno
        · intro _; rfl
      · constructor
        · intro h; cases h
        · intro h
          obtain ⟨sym, hm, hel, _⟩ := h
          exact absurd hel (hno sym hm)
      · constructor
        · intro h; obtain ⟨a2, h2⟩ := h; cases h2
        · intro h
          obtain ⟨sym, hm, hel⟩ := h.1
          exact absurd hel (hno sym hm)
      · intro a2 h; cases h

/-- C21, the code at a failing input: the dynamic symbol table holds the eligible symbols
`puts`, with a version, and `printf`, for which the version query returns the null pointer.
There are eligible symbols, yet `dumpDynamicSymbols` does not return a table: it stops at the
conversion of the null version (not at the assertion on the size of the table), and so does
the constructor. -/
theorem eligible_symbols_yet_no_table :
    (∃ sym ∈ [({ flags := BSF_GLOBAL ||| BSF_FUNCTION, name := "puts", value := 0x5a0,
                  version := some "GLIBC_2.0" } : asymbol),
               { flags := BSF_GLOBAL ||| BSF_FUNCTION, name := "printf", value := 0x4f0,
                 version := none }], eligible sym) ∧
      dumpDynamicSymbols (exampleBinary [0x58, 0xc3] UNDEFINED)
        [{ flags := BSF_GLOBAL ||| BSF_FUNCTION, name := "puts", value := 0x5a0,
           version := some "GLIBC_2.0" },
         { flags := BSF_GLOBAL ||| BSF_FUNCTION, name := "printf", value := 0x4f0,
           version := none }]
        BinaryAutopsy.fresh = Except.error DumpFailure.NullVersion ∧
      BinaryAutopsy.new
        (fun _ => some (exampleBinary [0x58, 0xc3] UNDEFINED,
          [{ flags := BSF_GLOBAL ||| BSF_FUNCTION, name := "puts", value := 0x5a0,
             version := some "GLIBC_2.0" },
           { flags := BSF_GLOBAL ||| BSF_FUNCTION, name := "printf", value := 0x4f0,
             version := none }]))
        "libc.so.6" = Except.error (ConstructFailure.Dump DumpFailure.NullVersion) :=
  ⟨by decide, rfl, rfl⟩

/-! ## C22: the symbol-version directive -/

/-- C22. Symbol-version directive: for every symbol with label `L` and version `V`,
`getSymVerDirective` returns exactly the string `.symver L,L@V` (the characters of
`.symver `, of the label, a comma, the label again, `@`, and the version, in this order), it
stores this same string in the member `SymVerDirective`, and it leaves the label, the version
and the address of the symbol unchanged. -/
theorem symver_directive (s : Symbol) :
    s.getSymVerDirective.2 = ".symver " ++ s.Label ++ "," ++ s.Label ++ "@" ++ s.Version ∧
      s.getSymVerDirective.2.data =
        ".symver ".data ++ s.Label.data ++ [','] ++ s.Label.data ++ ['@'] ++ s.Version.data ∧
      s.getSymVerDirective.1.SymVerDirective = some s.getSymVerDirective.2 ∧
      s.getSymVerDirective.1.Label = s.Label ∧
      s.getSymVerDirective.1.Version = s.Version ∧
      s.getSymVerDirective.1.Address = s.Address := by
  refine ⟨rfl, ?_, rfl, rfl, rfl, rfl⟩
  unfold Symbol.getSymVerDirective
  simp only [String.data_append]

/-! ## C23: the single instance -/

theorem getInstances_stored (files : Files) (st : Program) (obj : BinaryAutopsy)
    (hst : st.instancePtr = some obj) :
    ∀ (paths : List String),
      getInstances files st paths = Except.ok (st, List.replicate paths.length obj) := by
  intro paths
  induction paths with
  | nil => rfl
  | cons path rest ih =>
    unfold getInstances getInstance
    simp only [hst, ih]
    rfl

/-- C23. Single instance: when the first call `getInstance(path)` of a program constructs an
object (the constructor returns `obj` for `path`), every sequence of calls that starts with
it returns `obj` at each call, whatever path the later calls are given, and the constructor
has run once, for the first path; in the state so reached any further call returns `obj`
and leaves the state as it is.  When the constructor does not return for the first path, the
first call does not return either. -/
theorem single_instance (files : Files) (path : String) (rest : List String) :
    (∀ obj, BinaryAutopsy.new files path = Except.ok obj →
        getInstances files Program.start (path :: rest) =
            Except.ok ({ instancePtr := some obj, analysed := [path] },
              List.replicate (rest.length + 1) obj) ∧
          ∀ path2, getInstance files { instancePtr := some obj, analysed := [path] } path2 =
            Except.ok ({ instancePtr := some obj, analysed := [path] }, obj)) ∧
      ∀ e, BinaryAutopsy.new files path = Except.error e →
        getInstances files Program.start (path :: rest) = Except.error e := by
  constructor
  · intro obj hfirst
    constructor
    · unfold getInstances getInstance
      simp only [Program.start, hfirst, List.nil_append]
      rw [getInstances_stored files _ obj rfl rest]
      rfl
    · intro path2; rfl
  · intro e hfirst
    unfold getInstances getInstance
    simp only [Program.start, hfirst]

/-- Witness of C23: four calls, for `libc.so.6`, `libm.so.6`, a path with no object file and
`libc.so.6` again, all return the object built for `libc.so.6`, and only that path was
analysed; a first call for `libm.so.6` would have built another object. -/
theorem single_instance_witness :
    BinaryAutopsy.new exampleFiles "libc.so.6" = Except.ok exampleAutopsy ∧
      getInstances exampleFiles Program.start
          ["libc.so.6", "libm.so.6", "missing.so", "libc.so.6"] =
        Except.ok ({ instancePtr := some exampleAutopsy, analysed := ["libc.so.6"] },
          [exampleAutopsy, exampleAutopsy, exampleAutopsy, exampleAutopsy]) ∧
      BinaryAutopsy.new exampleFiles "libm.so.6" ≠ Except.ok exampleAutopsy ∧
      BinaryAutopsy.new exampleFiles "missing.so" =
        Except.error ConstructFailure.InvalidBinary :=
  ⟨rfl,
   ((single_instance exampleFiles "libc.so.6" ["libm.so.6", "missing.so", "libc.so.6"]).1
      exampleAutopsy rfl).1,
   by
     intro h
     have h2 : (BinaryAutopsy.new exampleFiles "libm.so.6").toOption.map
         (fun (a : BinaryAutopsy) => a.Microgadgets.map (fun g => g.asmInstr)) =
           some ["pop eax;"] := by rw [h]; rfl
     revert h2
     decide,
   rfl⟩

/-! ## C24: comparison of operands -/

/-- C24 as stated fails: a floating-point operand and a register operand are compared
without error, in either order; the result is `false`. -/
theorem opCompare_mixed_kinds_counterexample :
    ¬ supportedKind opFP.type ∧
      opCompare opFP (opReg X86_REG_EAX) = Except.ok false ∧
      opCompare (opReg X86_REG_EAX) opFP = Except.ok false ∧
      opCompare cs_x86_op.zero (opImm 0) = Except.ok false :=
  ⟨by decide, rfl, rfl, rfl⟩

/-- C24 amended. For every pair of operands, `opCompare` fails with `UnsupportedOperand`
exactly when the two operands have the same kind and that kind is none of register,
immediate and memory; when the kinds differ it returns `false` without error, whatever the
kinds; when both are registers it returns whether the registers are equal, when both are
immediates whether the values are equal, when both are memory references whether the base
registers are equal. -/
theorem opCompare_spec (a b : cs_x86_op) :
    (opCompare a b = Except.error AdapterFailure.UnsupportedOperand ↔
        a.type = b.type ∧ ¬ supportedKind a.type) ∧
      (a.type ≠ b.type → opCompare a b = Except.ok false) ∧
      (a.type = X86_OP_REG → b.type = X86_OP_REG →
        opCompare a b = Except.ok (a.reg == b.reg)) ∧
      (a.type = X86_OP_IMM → b.type = X86_OP_IMM →
        opCompare a b = Except.ok (a.imm == b.imm)) ∧
      (a.type = X86_OP_MEM → b.type = X86_OP_MEM →
        opCompare a b = Except.ok (a.mem.base == b.mem.base)) := by
  refine ⟨?_, ?_, ?_, ?_, ?_⟩
  · unfold opCompare supportedKind
    by_cases h : a.type = b.type
    · rw [if_pos h]
      cases hta : a.type <;> simp [← h, hta]
    · rw [if_neg h]
      constructor
      · intro h2; cases h2
      · intro h2; exact absurd h2.1 h
  · intro h
    unfold opCompare
    rw [if_neg h]
  · intro ha hb
    unfold opCompare
    rw [if_pos (by rw [ha, hb]), ha]
  · intro ha hb
    unfold opCompare
    rw [if_pos (by rw [ha, hb]), ha]
  · intro ha hb
    unfold opCompare
    rw [if_pos (by rw [ha, hb]), ha]

/-- Witness of C24 amended: two floating-point operands fail; a floating-point operand and a
register give `false`; `eax` equals `eax` and differs from `ecx`; the memory references
`[eax]` and `[eax + 8]` compare equal. -/
theorem opCompare_spec_witness :
    opCompare opFP opFP = Except.error AdapterFailure.UnsupportedOperand ∧
      opCompare opFP (opReg X86_REG_EAX) = Except.ok false ∧
      opCompare (opReg X86_REG_EAX) (opReg X86_REG_EAX) = Except.ok true ∧
      opCompare (opReg X86_REG_EAX) (opReg X86_REG_ECX) = Except.ok false ∧
      opCompare (opMem X86_REG_EAX)
          { opMem X86_REG_EAX with mem := { (opMem X86_REG_EAX).mem with disp := 8 } } =
        Except.ok true :=
  ⟨(opCompare_spec opFP opFP).1.mpr ⟨rfl, by decide⟩,
   (opCompare_spec opFP (opReg X86_REG_EAX)).2.1 (by decide),
   (opCompare_spec (opReg X86_REG_EAX) (opReg X86_REG_EAX)).2.2.1 rfl rfl,
   (opCompare_spec (opReg X86_REG_EAX) (opReg X86_REG_ECX)).2.2.1 rfl rfl,
   (opCompare_spec (opMem X86_REG_EAX)
      { opMem X86_REG_EAX with mem := { (opMem X86_REG_EAX).mem with disp := 8 } }).2.2.2.2
      rfl rfl⟩

/-! ## C25: the decode window -/

theorem disasmArgs_address (i d : Nat) (hd : d ≤ MAXDEPTH) :
    wrap64 (i + 1 + 2 ^ 64 - d) = (((i : Int) + 1 - (d : Int)) % (2 ^ 64 : Int)).toNat := by
  unfold wrap64
  unfold MAXDEPTH at hd
  omega

theorem window_eq_bytesFrom (bin : Binary) (i d : Nat) :
    window bin (i + 1) d = bytesFrom bin ((i : Int) + 1 - (d : Int)) d := by
  unfold window bytesFrom
  apply List.map_congr_left
  intro k _
  congr 1

theorem window_getLast (bin : Binary) (i d : Nat) (hd : 0 < d) :
    (window bin (i + 1) d).getLast? = some (bin.buf (i : Int)) := by
  rw [List.getLast?_eq_getElem?]
  have hlen : (window bin (i + 1) d).length = d := by unfold window; simp
  rw [hlen]
  exact window_last bin i d hd

/-- C25 as stated fails: for the RET byte at offset `i = 5` of the file `90 90 90 90 58 C3`
and the depth `d = 2`, the miner hands over the bytes at offsets 4 and 5 (`58 C3`, the RET
byte included) with address 4, not the two bytes from offset `i - d = 3` (`90 58`) with
address 3; and the gadget `pop eax;` it stores has address 4. -/
theorem decode_window_counterexample :
    (exampleBinary [0x58, 0xc3] UNDEFINED).buf 5 = 0xc3 ∧
      disasmArgs (exampleBinary [0x58, 0xc3] UNDEFINED) 5 2 = ([0x58, 0xc3], 4, 2) ∧
      requestFrom (exampleBinary [0x58, 0xc3] UNDEFINED) (5 - 2) 2 = ([0x90, 0x58], 3, 2) ∧
      disasmArgs (exampleBinary [0x58, 0xc3] UNDEFINED) 5 2 ≠
        requestFrom (exampleBinary [0x58, 0xc3] UNDEFINED) (5 - 2) 2 ∧
      (dumpGadgets (exampleBinary [0x58, 0xc3] UNDEFINED) BinaryAutopsy.fresh).Microgadgets.map
        (fun g => (g.asmInstr, g.getAddress)) = [("pop eax;", 4)] := by
  decide

/-- C25 amended. For every RET byte `0xC3` found at offset `i` the miner tries the depths
4, 3, 2, 1, 0 in this order, and for each depth `d` of them it requests the decoding of the
`d` bytes starting at offset `i + 1 - d`, with `i + 1 - d` (as a 64-bit unsigned number) as
the address of the first instruction: the `d` bytes that end with the RET byte itself, so
that a non-empty window has the RET byte as its last byte. -/
theorem decode_window (bin : Binary) (M : List Microgadget) (i d : Nat)
    (hret : bin.buf (i : Int) = 0xc3) (hd : d ≤ MAXDEPTH) :
    scanByte bin M i = [4, 3, 2, 1, 0].foldl (tryDepth bin i) M ∧
      disasmAt bin i d =
        bin.cs_disasm (disasmArgs bin i d).1 (disasmArgs bin i d).2.1 (disasmArgs bin i d).2.2 ∧
      disasmArgs bin i d = requestFrom bin ((i : Int) + 1 - (d : Int)) d ∧
      (d ≤ i + 1 → i + 1 < 2 ^ 64 → (disasmArgs bin i d).2.1 = i + 1 - d) ∧
      (0 < d → (disasmArgs bin i d).1.getLast? = some 0xc3) := by
  refine ⟨?_, rfl, ?_, ?_, ?_⟩
  · unfold scanByte
    rw [if_pos (by rw [hret]; rfl)]
    rfl
  · unfold disasmArgs requestFrom
    rw [window_eq_bytesFrom, disasmArgs_address i d hd]
  · intro h1 h2
    unfold disasmArgs wrap64
    simp only
    omega
  · intro hpos
    unfold disasmArgs
    simp only
    rw [window_getLast bin i d hpos, hret]

/-- Witness of C25 amended on the file `90 90 90 90 58 C3`: for the RET byte at offset 5 and
the depth 2 the request is for the two bytes from offset 4, with address 4. -/
theorem decode_window_witness :
    (exampleBinary [0x58, 0xc3] UNDEFINED).buf ((5 : Nat) : Int) = 0xc3 ∧ 2 ≤ MAXDEPTH ∧
      disasmArgs (exampleBinary [0x58, 0xc3] UNDEFINED) 5 2 =
        requestFrom (exampleBinary [0x58, 0xc3] UNDEFINED) (((5 : Nat) : Int) + 1 - ((2 : Nat) : Int))
          2 ∧
      (disasmArgs (exampleBinary [0x58, 0xc3] UNDEFINED) 5 2).2.1 = 5 + 1 - 2 ∧
      (disasmArgs (exampleBinary [0x58, 0xc3] UNDEFINED) 5 2).1.getLast? = some 0xc3 :=
  ⟨by decide, by decide,
   (decode_window (exampleBinary [0x58, 0xc3] UNDEFINED) [] 5 2 (by decide) (by decide)).2.2.1,
   (decode_window (exampleBinary [0x58, 0xc3] UNDEFINED) [] 5 2 (by decide)
      (by decide)).2.2.2.1 (by decide) (by decide),
   (decode_window (exampleBinary [0x58, 0xc3] UNDEFINED) [] 5 2 (by decide)
      (by decide)).2.2.2.2 (by decide)⟩

/-! ## C26: the front of the lookup result -/

theorem gadgetLookupReg_ne_nil (M : List Microgadget) (u v : x86_reg)
    (h : ∃ g ∈ M, matchesRegs X86_INS_XCHG u v g) :
    gadgetLookupReg M X86_INS_XCHG u v ≠ [] := by
  obtain ⟨g, hm, hg⟩ := h
  rw [gadgetLookupReg_eq_filter]
  intro hnil
  have hmem : g ∈ M.filter (fun g => decide (matchesRegs X86_INS_XCHG u v g)) := by
    rw [List.mem_filter]
    exact ⟨hm, by simpa using hg⟩
  rw [hnil] at hmem
  cases hmem

theorem hasEdge_has_gadget (a : BinaryAutopsy) (u v : x86_reg)
    (h : (buildXchgGraph a).xgraph.hasEdge u v) :
    ∃ g ∈ (buildXchgGraph a).Microgadgets,
      matchesRegs X86_INS_XCHG u v g ∨ matchesRegs X86_INS_XCHG v u g := by
  rw [buildXchgGraph_Microgadgets]
  rcases h with h | h
  · obtain ⟨g, hm, hg⟩ := edge_has_gadget a u v h
    exact ⟨g, hm, Or.inl hg⟩
  · obtain ⟨g, hm, hg⟩ := edge_has_gadget a v u h
    exact ⟨g, hm, Or.inr hg⟩

/-- C26. For every microgadget table, with the exchange graph built from it by
`buildXchgGraph`, and for every edge between `u` and `v` of that graph, at least one of the
lookups for XCHG with the registers `(u, v)` and `(v, u)` is not empty, so the front that the
loop of `getXchgPath` takes for the edge is defined; hence the loop is defined on every list
of edges of the graph, whatever the orientation in which the edges are listed. -/
theorem front_defined (a : BinaryAutopsy) :
    (∀ u v, (buildXchgGraph a).xgraph.hasEdge u v →
        (gadgetLookupReg (buildXchgGraph a).Microgadgets X86_INS_XCHG u v ≠ [] ∨
          gadgetLookupReg (buildXchgGraph a).Microgadgets X86_INS_XCHG v u ≠ []) ∧
        ∃ g, xchgGadgetFor (buildXchgGraph a).Microgadgets (u, v) = some g) ∧
      ∀ path : List (x86_reg × x86_reg),
        (∀ e ∈ path, (buildXchgGraph a).xgraph.hasEdge e.1 e.2) →
        ∃ gs, gadgetsForPath (buildXchgGraph a).Microgadgets path = some gs := by
  constructor
  · intro u v h
    obtain ⟨g, hm, hg⟩ := hasEdge_has_gadget a u v h
    constructor
    · rcases hg with hg | hg
      · exact Or.inl (gadgetLookupReg_ne_nil _ u v ⟨g, hm, hg⟩)
      · exact Or.inr (gadgetLookupReg_ne_nil _ v u ⟨g, hm, hg⟩)
    · exact xchgGadgetFor_isSome _ (u, v) ⟨g, hm, hg⟩
  · intro path h
    apply gadgetsForPath_isSome
    intro e he
    exact hasEdge_has_gadget a e.1 e.2 (h e he)

/-- Witness of C26 on the bytes `87 C1 C3` (`xchg ecx, eax; ret`): the graph has an edge
between EAX and ECX; the lookup for `(EAX, ECX)` is empty, the one for `(ECX, EAX)` is not,
and the loop body finds a gadget for the edge listed as `(EAX, ECX)`. -/
theorem front_defined_witness :
    (dissectGadgets (exampleBinary [0x87, 0xc1, 0xc3] UNDEFINED)).xgraph.hasEdge
        X86_REG_EAX X86_REG_ECX ∧
      gadgetLookupReg (dissectGadgets (exampleBinary [0x87, 0xc1, 0xc3] UNDEFINED)).Microgadgets
        X86_INS_XCHG X86_REG_EAX X86_REG_ECX = [] ∧
      ((gadgetLookupReg (dissectGadgets (exampleBinary [0x87, 0xc1, 0xc3] UNDEFINED)).Microgadgets
            X86_INS_XCHG X86_REG_EAX X86_REG_ECX ≠ [] ∨
          gadgetLookupReg (dissectGadgets (exampleBinary [0x87, 0xc1, 0xc3] UNDEFINED)).Microgadgets
            X86_INS_XCHG X86_REG_ECX X86_REG_EAX ≠ []) ∧
        ∃ g, xchgGadgetFor (dissectGadgets (exampleBinary [0x87, 0xc1, 0xc3] UNDEFINED)).Microgadgets
          (X86_REG_EAX, X86_REG_ECX) = some g) :=
  ⟨by decide, by decide,
   (front_defined (applyGadgetFilters (analyseGadgets (exampleBinary [0x87, 0xc1, 0xc3] UNDEFINED)
      (dumpGadgets (exampleBinary [0x87, 0xc1, 0xc3] UNDEFINED)
        (dumpSections (exampleBinary [0x87, 0xc1, 0xc3] UNDEFINED) BinaryAutopsy.fresh))))).1
      X86_REG_EAX X86_REG_ECX (by decide)⟩

/-! ## C12: the gadget selected for an edge -/

theorem xchgGadgetFor_first (M : List Microgadget) (e : x86_reg × x86_reg)
    (hex : ∃ g ∈ M, matchesRegs X86_INS_XCHG e.1 e.2 g ∨ matchesRegs X86_INS_XCHG e.2 e.1 g) :
    ∃ g, xchgGadgetFor M e = some g ∧
      (firstXchg M e.1 e.2 = some g ∨
        (firstXchg M e.1 e.2 = none ∧ firstXchg M e.2 e.1 = some g)) := by
  unfold xchgGadgetFor firstXchg
  simp only
  rw [gadgetLookupReg_eq_filter, gadgetLookupReg_eq_filter]
  cases h1 : M.find? (fun g => decide (matchesRegs X86_INS_XCHG e.1 e.2 g)) with
  | some g =>
    have hnil : M.filter (fun g => decide (matchesRegs X86_INS_XCHG e.1 e.2 g)) ≠ [] := by
      intro hc
      rw [List.filter_eq_nil_iff] at hc
      have hp := List.find?_some h1
      exact hc g (List.mem_of_find?_eq_some h1) hp
    have hlen :
        ((M.filter (fun g => decide (matchesRegs X86_INS_XCHG e.1 e.2 g))).length == 0) =
          false := by
      simpa using hnil
    refine ⟨g, ?_, Or.inl rfl⟩
    rw [hlen]
    simp only [Bool.false_eq_true, if_false]
    rw [head?_filter_eq_find?, h1]
  | none =>
    rw [List.find?_eq_none] at h1
    have hnil : M.filter (fun g => decide (matchesRegs X86_INS_XCHG e.1 e.2 g)) = [] :=
      List.filter_eq_nil_iff.mpr h1
    obtain ⟨g0, hg0, h0⟩ := hex
    have h0b : matchesRegs X86_INS_XCHG e.2 e.1 g0 := by
      rcases h0 with h0 | h0
      · exact absurd (by simpa using h0) (h1 g0 hg0)
      · exact h0
    have hsome :
        (M.find? (fun g => decide (matchesRegs X86_INS_XCHG e.2 e.1 g))).isSome = true :=
      List.find?_isSome.mpr ⟨g0, hg0, by simpa using h0b⟩
    obtain ⟨g, hg⟩ := Option.isSome_iff_exists.mp hsome
    refine ⟨g, ?_, Or.inr ⟨rfl, hg⟩⟩
    rw [hnil]
    simp only [List.length_nil, beq_self_eq_true, if_true]
    rw [head?_filter_eq_find?, hg]

theorem gadgetsForPath_first (M : List Microgadget) :
    ∀ path : List (x86_reg × x86_reg),
      (∀ e ∈ path, ∃ g ∈ M,
        matchesRegs X86_INS_XCHG e.1 e.2 g ∨ matchesRegs X86_INS_XCHG e.2 e.1 g) →
      ∃ gs, gadgetsForPath M path = some gs ∧ gs.length = path.length ∧
        ∀ (i : Nat) (e : x86_reg × x86_reg), path[i]? = some e → ∃ g, gs[i]? = some g ∧
          (firstXchg M e.1 e.2 = some g ∨
            (firstXchg M e.1 e.2 = none ∧ firstXchg M e.2 e.1 = some g)) := by
  intro path
  induction path with
  | nil =>
    intro _
    exact ⟨[], rfl, rfl, by intro i e h; simp at h⟩
  | cons e rest ih =>
    intro hex
    obtain ⟨gs, hgs, hlen, hsel⟩ := ih (fun e2 h => hex e2 (List.mem_cons_of_mem _ h))
    obtain ⟨g, hg, hfirst⟩ := xchgGadgetFor_first M e (hex e (List.mem_cons_self _ _))
    refine ⟨g :: gs, ?_, by simp [hlen], ?_⟩
    · unfold gadgetsForPath
      rw [hg, hgs]
    · intro i e2 hi
      cases i with
      | zero =>
        simp only [List.getElem?_cons_zero, Option.some.injEq] at hi
        subst hi
        exact ⟨g, by simp, hfirst⟩
      | succ j =>
        rw [List.getElem?_cons_succ] at hi
        obtain ⟨g2, hg2, h2⟩ := hsel j e2 hi
        exact ⟨g2, by rw [List.getElem?_cons_succ]; exact hg2, h2⟩

/-- C12 as stated fails: a section holds `31 C8 C3 87 C8 C3` (`xor eax, ecx; ret;
xchg eax, ecx; ret`) and the `Class` member, which the constructor does not set, holds
`REG_XCHG` before the analysis.  After `dissect` both gadgets have class `REG_XCHG`, the path
from EAX to ECX is the edge (EAX, ECX), and `getXchgPath` returns `xchg eax, ecx;` for it,
while the first gadget of the table of class `REG_XCHG` with operand order (EAX, ECX) is
`xor eax, ecx;`. -/
theorem selection_ignores_class_counterexample :
    (dissectGadgets (exampleBinary [0x31, 0xc8, 0xc3, 0x87, 0xc8, 0xc3]
        REG_XCHG)).Microgadgets.map (fun g => (g.asmInstr, g.Class)) =
        [("xor eax, ecx;", REG_XCHG), ("xchg eax, ecx;", REG_XCHG)] ∧
      (dissectGadgets (exampleBinary [0x31, 0xc8, 0xc3, 0x87, 0xc8, 0xc3]
        REG_XCHG)).xgraph.getPath X86_REG_EAX X86_REG_ECX = [(X86_REG_EAX, X86_REG_ECX)] ∧
      (getXchgPath (dissectGadgets (exampleBinary [0x31, 0xc8, 0xc3, 0x87, 0xc8, 0xc3]
        REG_XCHG)) X86_REG_EAX X86_REG_ECX).map (fun gs => gs.map (fun g => g.asmInstr)) =
        some ["xchg eax, ecx;"] ∧
      (firstRegXchg (dissectGadgets (exampleBinary [0x31, 0xc8, 0xc3, 0x87, 0xc8, 0xc3]
        REG_XCHG)).Microgadgets X86_REG_EAX X86_REG_ECX).map (fun g => g.asmInstr) =
        some "xor eax, ecx;" := by
  decide

/-- C12 amended. Gadget selection of `getXchgPath`: with the graph built from the table by
`buildXchgGraph`, for every list of edges of the graph, and so for the edge list returned by
`getPath(x, y)` for every pair of registers, the loop of `getXchgPath` returns a list of the
same length and in the same order whose `i`-th element is, for the `i`-th edge `(u, v)`, the
first gadget of the table with opcode XCHG and register operands in the order `(u, v)`, as
the lookup for XCHG matches them, or, when there is none, the first one with register
operands in the order `(v, u)`.  The class of the gadgets is not consulted. -/
theorem xchg_selection_by_opcode (a : BinaryAutopsy) :
    (∀ path : List (x86_reg × x86_reg),
        (∀ e ∈ path, (buildXchgGraph a).xgraph.hasEdge e.1 e.2) →
        ∃ gs, gadgetsForPath (buildXchgGraph a).Microgadgets path = some gs ∧
          gs.length = path.length ∧
          ∀ (i : Nat) (e : x86_reg × x86_reg), path[i]? = some e → ∃ g, gs[i]? = some g ∧
            (firstXchg (buildXchgGraph a).Microgadgets e.1 e.2 = some g ∨
              (firstXchg (buildXchgGraph a).Microgadgets e.1 e.2 = none ∧
                firstXchg (buildXchgGraph a).Microgadgets e.2 e.1 = some g))) ∧
      ∀ x y : x86_reg,
        ∃ gs, getXchgPath (buildXchgGraph a) x y = some gs ∧
          gs.length = ((buildXchgGraph a).xgraph.getPath x y).length ∧
          ∀ (i : Nat) (e : x86_reg × x86_reg),
            ((buildXchgGraph a).xgraph.getPath x y)[i]? = some e → ∃ g, gs[i]? = some g ∧
              (firstXchg (buildXchgGraph a).Microgadgets e.1 e.2 = some g ∨
                (firstXchg (buildXchgGraph a).Microgadgets e.1 e.2 = none ∧
                  firstXchg (buildXchgGraph a).Microgadgets e.2 e.1 = some g)) := by
  constructor
  · intro path hpath
    apply gadgetsForPath_first
    intro e he
    exact hasEdge_has_gadget a e.1 e.2 (hpath e he)
  · intro x y
    unfold getXchgPath
    apply gadgetsForPath_first
    intro e he
    exact hasEdge_has_gadget a e.1 e.2 (getPath_edges _ x y e he).1

/-- Witness of C12 amended on the table of the counterexample, where `xor eax, ecx;` carries
the class `REG_XCHG`: for the edge list (ECX, EAX) the loop returns one gadget, the first
XCHG with operands (ECX, EAX) or, as there is none, the first with operands (EAX, ECX), which
is `xchg eax, ecx;`. -/
theorem xchg_selection_by_opcode_witness :
    (dissectGadgets (exampleBinary [0x31, 0xc8, 0xc3, 0x87, 0xc8, 0xc3]
        REG_XCHG)).xgraph.hasEdge X86_REG_ECX X86_REG_EAX ∧
      (firstXchg (dissectGadgets (exampleBinary [0x31, 0xc8, 0xc3, 0x87, 0xc8, 0xc3]
        REG_XCHG)).Microgadgets X86_REG_ECX X86_REG_EAX = none ∧
        (firstXchg (dissectGadgets (exampleBinary [0x31, 0xc8, 0xc3, 0x87, 0xc8, 0xc3]
          REG_XCHG)).Microgadgets X86_REG_EAX X86_REG_ECX).map (fun g => g.asmInstr) =
          some "xchg eax, ecx;") ∧
      ∃ gs, gadgetsForPath (dissectGadgets (exampleBinary [0x31, 0xc8, 0xc3, 0x87, 0xc8, 0xc3]
          REG_XCHG)).Microgadgets [(X86_REG_ECX, X86_REG_EAX)] = some gs ∧
        gs.length = [(X86_REG_ECX, X86_REG_EAX)].length ∧
        ∀ (i : Nat) (e : x86_reg × x86_reg),
          [(X86_REG_ECX, X86_REG_EAX)][i]? = some e → ∃ g, gs[i]? = some g ∧
            (firstXchg (dissectGadgets (exampleBinary [0x31, 0xc8, 0xc3, 0x87, 0xc8, 0xc3]
                REG_XCHG)).Microgadgets e.1 e.2 = some g ∨
              (firstXchg (dissectGadgets (exampleBinary [0x31, 0xc8, 0xc3, 0x87, 0xc8, 0xc3]
                  REG_XCHG)).Microgadgets e.1 e.2 = none ∧
                firstXchg (dissectGadgets (exampleBinary [0x31, 0xc8, 0xc3, 0x87, 0xc8, 0xc3]
                  REG_XCHG)).Microgadgets e.2 e.1 = some g)) :=
  ⟨by decide, by decide,
   (xchg_selection_by_opcode (applyGadgetFilters (analyseGadgets
      (exampleBinary [0x31, 0xc8, 0xc3, 0x87, 0xc8, 0xc3] REG_XCHG)
        (dumpGadgets (exampleBinary [0x31, 0xc8, 0xc3, 0x87, 0xc8, 0xc3] REG_XCHG)
          (dumpSections (exampleBinary [0x31, 0xc8, 0xc3, 0x87, 0xc8, 0xc3] REG_XCHG)
            BinaryAutopsy.fresh))))).1
      [(X86_REG_ECX, X86_REG_EAX)]
      (by
        intro e he
        rw [List.mem_singleton] at he
        subst he
        decide)⟩

/-! ## C14, C15: registers that can be initialised, on an empty table -/

theorem foldl_insert_class (bin : Binary) (g : Microgadget) :
    ∀ (l : List Decoding) (M : List Microgadget), g ∈ l.foldl (insertDecoding bin) M →
      g ∈ M ∨ ∃ k, g.Class = bin.uninit k := by
  intro l
  induction l with
  | nil => intro M h; exact Or.inl h
  | cons c cs ih =>
    intro M h
    rw [List.foldl_cons] at h
    rcases ih _ h with h1 | h1
    · unfold insertDecoding at h1
      split at h1
      · rw [List.mem_append, List.mem_singleton] at h1
        rcases h1 with h1 | h1
        · exact Or.inl h1
        · exact Or.inr ⟨M.length, by rw [h1]⟩
      · exact Or.inl h1
    · exact Or.inr h1

/-- On an empty table `canInitReg` answers for the table that `dumpGadgets` mines: gadgets
that were neither classified nor filtered, whose `Class` member holds what the constructor
left there.  It can only return true when such a never-assigned member reads `REG_INIT`. -/
theorem canInitReg_empty_table (bin : Binary) (a : BinaryAutopsy) (r : x86_reg)
    (hempty : a.Microgadgets = []) :
    (canInitReg bin a r).1 = dumpGadgets bin a ∧
      ((canInitReg bin a r).2 = true → ∃ k, bin.uninit k = REG_INIT) := by
  have h1 : (canInitReg bin a r).1 = dumpGadgets bin a := by
    unfold canInitReg
    simp [hempty]
  refine ⟨h1, fun h => ?_⟩
  obtain ⟨g, hg, hc, _⟩ := (canInitReg_iff bin a r).mp h
  rw [h1, dumpGadgets_Microgadgets, hempty] at hg
  rcases foldl_insert_class bin g _ _ hg with h2 | ⟨k, hk⟩
  · cases h2
  · exact ⟨k, by rw [← hk, hc]⟩

/-- C14, the code at a failing input: a section holds `54 C3` (`push esp; ret`) and the
`Class` member, which the constructor does not set, holds `REG_INIT`.  `dissect` (and the
constructor) leaves an empty table, the gadget being filtered for its ESP operand.  The table
contains no gadget of class `REG_INIT` with first operand ESP, yet `canInitReg(ESP)` returns
true: it refills the empty table with `dumpGadgets` and scans the gadget `push esp;`, which
is neither classified nor filtered. -/
theorem canInitReg_on_emptied_table :
    (dissectGadgets (exampleBinary [0x54, 0xc3] REG_INIT)).Microgadgets = [] ∧
      (BinaryAutopsy.new (fun _ => some (exampleBinary [0x54, 0xc3] REG_INIT, exampleSymtab))
        "libc.so.6").toOption.map (fun a => a.Microgadgets) = some [] ∧
      (canInitReg (exampleBinary [0x54, 0xc3] REG_INIT)
        (dissectGadgets (exampleBinary [0x54, 0xc3] REG_INIT)) X86_REG_ESP).2 = true ∧
      (canInitReg (exampleBinary [0x54, 0xc3] REG_INIT)
        (dissectGadgets (exampleBinary [0x54, 0xc3] REG_INIT)) X86_REG_ESP).1.Microgadgets.map
          (fun g => (g.asmInstr, g.Class)) = [("push esp;", REG_INIT)] := by
  decide

/-- C15, the code at a failing input: on the empty table that `dissect` leaves for the
section `54 C3` (the `Class` member holding `REG_INIT` before it is ever assigned),
`getInitialisableRegs()` returns no register, while `canInitReg(ESP)` is true; asked again
after that call, `getInitialisableRegs()` returns ESP. -/
theorem initialisable_disagrees_on_emptied_table :
    getInitialisableRegs (dissectGadgets (exampleBinary [0x54, 0xc3] REG_INIT)) = [] ∧
      (canInitReg (exampleBinary [0x54, 0xc3] REG_INIT)
        (dissectGadgets (exampleBinary [0x54, 0xc3] REG_INIT)) X86_REG_ESP).2 = true ∧
      getInitialisableRegs (canInitReg (exampleBinary [0x54, 0xc3] REG_INIT)
        (dissectGadgets (exampleBinary [0x54, 0xc3] REG_INIT)) X86_REG_ESP).1 =
          [X86_REG_ESP] := by
  decide

end ROPfuscator
